import Mathlib

/-!
Verification of the BGP PodIPPool reconciler (`pkg/bgpv1/manager/reconcilerv2/pod_ip_pool.go`).

The Go source is shallowly embedded: Go maps become association lists with
first-binding lookup, insert-or-replace and delete; fallible Go functions
return `Except Err`; the router and the parsing of external textual data are
abstracted to their observable outcomes.  Collaborator code of the repository
that is not part of the sampled sources (the diff/apply engines, the resource
store, parameter validation, selector conversion) is modelled from the
specification; each such definition carries a doc comment saying so.
-/

namespace BGPRec

/-! ## Association-list maps (model of Go maps) -/

def lookupA {α β : Type} [DecidableEq α] : List (α × β) → α → Option β
  | [], _ => none
  | (a, b) :: t, k => if a = k then some b else lookupA t k

def insertA {α β : Type} [DecidableEq α] : List (α × β) → α → β → List (α × β)
  | [], k, v => [(k, v)]
  | (a, b) :: t, k, v => if a = k then (k, v) :: t else (a, b) :: insertA t k v

def eraseA {α β : Type} [DecidableEq α] (m : List (α × β)) (k : α) : List (α × β) :=
  m.filter (fun e => decide (e.1 ≠ k))

def keysA {α β : Type} (m : List (α × β)) : List α := m.map Prod.fst

/-! ## Identifiers, addresses, prefixes -/

structure ResourceKey where
  name : String
  nspace : String
deriving DecidableEq, Repr

inductive Afi
  | ipv4
  | ipv6
deriving DecidableEq, Repr

def Afi.str : Afi → String
  | .ipv4 => "ipv4"
  | .ipv6 => "ipv6"

structure Family where
  afi : Afi
deriving DecidableEq, Repr

/-- `types.ToAgentFamily` (collaborator code): the configuration family and the
agent family coincide in this embedding. -/
def ToAgentFamily (f : Family) : Family := f

inductive IPAddr
  | v4 (a : Nat)
  | v6 (a : Nat)
deriving DecidableEq, Repr

def IPAddr.is4 : IPAddr → Bool
  | .v4 _ => true
  | .v6 _ => false

def IPAddr.is6 : IPAddr → Bool
  | .v4 _ => false
  | .v6 _ => true

structure IPPrefix where
  addr : IPAddr
  bits : Nat
deriving DecidableEq, Repr

/-! ## Errors (model of Go error values, `errors.Join` and `errors.Is`) -/

inductive Err
  | storeUninitialized
  | abortReconcile
  | selectorConvert
  | peerAddrParse
  | validateParams
  | applyFailed (k : ResourceKey)
  | msg (s : String)
  | join (a b : Err)
deriving DecidableEq, Repr

/-- `errors.Is`: whether the error tree contains the target. -/
def Err.has : Err → Err → Bool
  | .join a b, t => a.has t || b.has t
  | e, t => decide (e = t)

/-- `errors.Join` on possibly-nil errors: nil operands are dropped. -/
def joinO : Option Err → Option Err → Option Err
  | none, b => b
  | some a, none => some a
  | some a, some b => some (.join a b)

def hasO : Option Err → Err → Bool
  | none, _ => false
  | some e, t => e.has t

/-! ## Textual IP address parsing (external collaborator) -/

def splitDots : List Char → List (List Char)
  | [] => [[]]
  | c :: cs =>
    match splitDots cs with
    | [] => [[]]
    | g :: gs => if c = '.' then [] :: g :: gs else (c :: g) :: gs

def digitsVal (cs : List Char) : Nat := cs.foldl (fun a c => a * 10 + (c.toNat - 48)) 0

def groupOK (cs : List Char) : Bool :=
  decide (cs ≠ [] ∧ (∀ c ∈ cs, c.isDigit = true) ∧ digitsVal cs < 256)

/-- Modelled from the Go standard library contract of `netip.ParseAddr` (an
external collaborator): dotted-quad IPv4 text parses, other shapes are
rejected.  The claims depend only on whether parsing succeeds. -/
def netipParseAddr (s : String) : Option IPAddr :=
  match splitDots s.data with
  | [a, b, c, d] =>
    if groupOK a ∧ groupOK b ∧ groupOK c ∧ groupOK d then
      some (.v4 (((digitsVal a * 256 + digitsVal b) * 256 + digitsVal c) * 256 + digitsVal d))
    else none
  | _ => none

/-! ## Labels, pools, node -/

abbrev LabelMap := List (String × String)

def podIPPoolNameLabel : String := "io.cilium.podippool.name"
def podIPPoolNamespaceLabel : String := "io.cilium.podippool.namespace"

structure CiliumPodIPPool where
  name : String
  nspace : String
  labels : LabelMap
  v4MaskSize : Nat
  v6MaskSize : Nat
deriving DecidableEq, Repr

def poolKeyOf (pool : CiliumPodIPPool) : ResourceKey := ⟨pool.name, pool.nspace⟩

/-- A pool CIDR string of the local node, abstracted to its parse outcome
(`cidr.ToPrefix` is collaborator code wrapping standard-library parsing; the
claims depend only on whether the parse succeeds). -/
inductive CIDRString
  | valid (p : IPPrefix)
  | invalid (raw : String)
deriving DecidableEq, Repr

def CIDRString.toPfx : CIDRString → Except Err IPPrefix
  | .valid p => .ok p
  | .invalid raw => .error (.msg raw)

structure IPAMPoolAllocation where
  pool : String
  cidrs : List CIDRString
deriving DecidableEq, Repr

structure CiliumNode where
  allocatedPools : List IPAMPoolAllocation
deriving DecidableEq, Repr

/-! ## Label selectors (collaborator code, modelled from the spec) -/

/-- Modelled from the spec (§4.2 step 3): a label selector is either a
conjunction of label requirements, or malformed, in which case converting it
to a matcher fails. -/
inductive LabelSelector
  | valid (reqs : List (String × String))
  | malformed (reason : String)
deriving DecidableEq, Repr

/-- Modelled from the spec (§4.2 step 3): `slim_metav1.LabelSelectorAsSelector`
converts the selector into a matcher and fails on a malformed selector; the
source wraps the failure as a selector-conversion error. -/
def LabelSelectorAsSelector : LabelSelector → Except Err (List (String × String))
  | .valid reqs => .ok reqs
  | .malformed _ => .error .selectorConvert

def selMatches (reqs : List (String × String)) (lbls : LabelMap) : Bool :=
  reqs.all (fun kv => lookupA lbls kv.1 == some kv.2)

/-! ## Advertisements and configuration -/

inductive AdvertType
  | podIPPool
  | service
  | other (s : String)
deriving DecidableEq, Repr

def advertTypeStr : AdvertType → String
  | .podIPPool => "PodIPPool"
  | .service => "Service"
  | .other s => s

structure BGPAdvertisement where
  advertType : AdvertType
  selector : LabelSelector
deriving DecidableEq, Repr

structure PeerID where
  name : String
  address : String
deriving DecidableEq, Repr

abbrev PeerAdvertisements := List (PeerID × List (Family × List BGPAdvertisement))

structure DesiredConfig where
  name : String
  adverts : PeerAdvertisements
deriving DecidableEq, Repr

/-! ## Paths, policies, metadata -/

structure Path where
  pfx : IPPrefix
  family : Family
deriving DecidableEq, Repr

abbrev AFPathsMap := List (Family × List Path)
abbrev ResourceAFPathsMap := List (ResourceKey × Option AFPathsMap)

structure RoutePolicyPrefixMatch where
  cidr : IPPrefix
  prefixLenMin : Nat
  prefixLenMax : Nat
deriving DecidableEq, Repr

structure RoutePolicy where
  name : String
  peerAddr : IPAddr
  v4 : List RoutePolicyPrefixMatch
  v6 : List RoutePolicyPrefixMatch
deriving DecidableEq, Repr

abbrev RoutePolicyMap := List (String × RoutePolicy)
abbrev ResourceRoutePolicyMap := List (ResourceKey × Option RoutePolicyMap)

structure PodIPPoolReconcilerMetadata where
  PoolAFPaths : ResourceAFPathsMap
  PoolRoutePolicies : ResourceRoutePolicyMap
deriving DecidableEq, Repr

/-! ## Router and store (external collaborators, modelled from the spec) -/

/-- Modelled from the spec (§4.3, §7): the router abstraction, reduced to the
per-resource-key outcome of an apply sequence — the spec's granularity for
partial failure ("apply errors from the router for a given resource key"). -/
structure Router where
  afOk : ResourceKey → Bool
  rpOk : ResourceKey → Bool

structure BGPInstance where
  name : String
  router : Router

structure ReconcileParams where
  desiredConfig : Option DesiredConfig
  ciliumNode : Option CiliumNode
  bgpInstance : Option BGPInstance

/-- Modelled from the spec (§4.4): the resource store is either uninitialized
(its backing cache has not synced) or ready with a list of pool objects. -/
inductive StoreState
  | uninitialized
  | ready (pools : List CiliumPodIPPool)

/-- Modelled from the spec (§4.4): "get by key" returns existence plus value,
or the uninitialized-state error. -/
def storeGetByKey (s : StoreState) (k : ResourceKey) : Except Err (Option CiliumPodIPPool) :=
  match s with
  | .uninitialized => .error .storeUninitialized
  | .ready pools => .ok (pools.find? (fun pool => poolKeyOf pool == k))

/-- Modelled from the spec (§4.4): "list all", or the uninitialized-state error. -/
def storeList (s : StoreState) : Except Err (List CiliumPodIPPool) :=
  match s with
  | .uninitialized => .error .storeUninitialized
  | .ready pools => .ok pools

structure PodIPPoolReconciler where
  poolStore : StoreState
  metadata : List (String × PodIPPoolReconcilerMetadata)

/-- A router apply operation, recorded with the desired content pushed for the
resource key (the observable router traffic of one reconciliation). -/
inductive RouterOp
  | afApply (k : ResourceKey) (paths : AFPathsMap)
  | rpApply (k : ResourceKey) (policies : RoutePolicyMap)
deriving DecidableEq, Repr

/-! ## Content equality of path and policy sets -/

def setEqv {α : Type} [DecidableEq α] (xs ys : List α) : Bool :=
  decide ((∀ x ∈ xs, x ∈ ys) ∧ ∀ y ∈ ys, y ∈ xs)

def afmLookup (m : AFPathsMap) (f : Family) : List Path := (lookupA m f).getD []

/-- Content equality of per-family path sets (spec §3: "Equality of an
address-family-path set is by content, not identity"). -/
def afmEqv (a b : AFPathsMap) : Bool :=
  (keysA a ++ keysA b).all (fun f => setEqv (afmLookup a f) (afmLookup b f))

def afmIsEmpty (m : AFPathsMap) : Bool := m.all (fun e => e.2.isEmpty)

def rpmLookup (m : RoutePolicyMap) (n : String) : Option RoutePolicy := lookupA m n

/-- Content equality of named policy sets. -/
def rpmEqv (a b : RoutePolicyMap) : Bool :=
  (keysA a ++ keysA b).all (fun n => rpmLookup a n == rpmLookup b n)

def afCont (m : ResourceAFPathsMap) (k : ResourceKey) : AFPathsMap :=
  ((lookupA m k).getD none).getD []

def rpCont (m : ResourceRoutePolicyMap) (k : ResourceKey) : RoutePolicyMap :=
  ((lookupA m k).getD none).getD []

def rpLen (o : Option RoutePolicyMap) : Nat := (o.getD []).length

/-! ## Diff/apply engines (collaborator code, modelled from the spec §4.3) -/

def curBindingAF (current : ResourceAFPathsMap) (k : ResourceKey) : ResourceAFPathsMap :=
  match lookupA current k with
  | some v => [(k, v)]
  | none => []

/-- Modelled from the spec (§4.3): per-key step of the AF-path engine.  Equal
content: skip, no router traffic.  Different: apply the delta; on success the
retained value advances to the desired content (the key is removed entirely
when the desired content is empty); on failure the retained value is kept
unchanged and a per-key error is reported. -/
def afProcessKey (rt : Router) (desired current : ResourceAFPathsMap) (k : ResourceKey) :
    ResourceAFPathsMap × List RouterOp × Option Err :=
  let dk := afCont desired k
  let ck := afCont current k
  if afmEqv dk ck then (curBindingAF current k, [], none)
  else if rt.afOk k then
    (if afmIsEmpty dk then [] else [(k, some dk)], [.afApply k dk], none)
  else (curBindingAF current k, [.afApply k dk], some (.applyFailed k))

def afEngineGo (rt : Router) (desired current : ResourceAFPathsMap) :
    List ResourceKey → ResourceAFPathsMap × List RouterOp × Option Err
  | [] => ([], [], none)
  | k :: ks =>
    let h := afProcessKey rt desired current k
    let t := afEngineGo rt desired current ks
    (h.1 ++ t.1, h.2.1 ++ t.2.1, joinO h.2.2 t.2.2)

/-- Modelled from the spec (§4.3): `ReconcileResourceAFPaths` — for each
resource key present in either mapping, diff desired against current and apply
through the router; per-key errors are joined, not short-circuited. -/
def ReconcileResourceAFPaths (rt : Router) (desired current : ResourceAFPathsMap) :
    ResourceAFPathsMap × List RouterOp × Option Err :=
  afEngineGo rt desired current ((keysA desired ++ keysA current).dedup)

/-- Modelled from the spec (§4.3, §7): `ReconcileRoutePolicies` — diff/apply of
one resource key's policy set.  Equal content: no router traffic.  Different:
one apply sequence; success returns the desired set, failure returns the
current set unchanged so the next cycle retries the same delta.  The resource
key is the one the caller scopes the call to (the source threads it via the
logger field). -/
def ReconcileRoutePolicies (rt : Router) (k : ResourceKey)
    (desired current : Option RoutePolicyMap) :
    Option RoutePolicyMap × List RouterOp × Option Err :=
  let dk := desired.getD []
  let ck := current.getD []
  if rpmEqv dk ck then (current, [], none)
  else if rt.rpOk k then (desired, [.rpApply k dk], none)
  else (current, [.rpApply k dk], some (.applyFailed k))

/-! ## Translated source: pkg/bgpv1/manager/reconcilerv2/pod_ip_pool.go -/

def getMetadata (r : PodIPPoolReconciler) (instName : String) : PodIPPoolReconcilerMetadata :=
  (lookupA r.metadata instName).getD ⟨[], []⟩

def setMetadata (r : PodIPPoolReconciler) (instName : String)
    (md : PodIPPoolReconcilerMetadata) : PodIPPoolReconciler :=
  { r with metadata := insertA r.metadata instName md }

def Init (r : PodIPPoolReconciler) (i : Option BGPInstance) :
    PodIPPoolReconciler × Option Err :=
  match i with
  | none => (r, some (.msg "BUG: PodIPPool reconciler initialized with nil BGPInstance"))
  | some i =>
    ({ r with metadata := insertA r.metadata i.name ⟨[], []⟩ }, none)

def Cleanup (r : PodIPPoolReconciler) (i : Option BGPInstance) : PodIPPoolReconciler :=
  match i with
  | none => r
  | some i => { r with metadata := eraseA r.metadata i.name }

/-- Modelled from the spec (§3): `ReconcileParams` validation (code outside the
sampled sources) — reconciliation aborts if required fields are absent. -/
def ValidateParams (p : ReconcileParams) :
    Except Err (DesiredConfig × CiliumNode × BGPInstance) :=
  match p.desiredConfig, p.ciliumNode, p.bgpInstance with
  | some c, some n, some i => .ok (c, n, i)
  | _, _, _ => .error .validateParams

/-- Modelled from the spec (§4.2 step 2): `GetConfiguredAdvertisements` (code
outside the sampled sources) resolves the advertisements of the given type
from the full configured multi-type map — a filter to the reconciler's type. -/
def GetConfiguredAdvertisements (c : DesiredConfig) (t : AdvertType) :
    Except Err PeerAdvertisements :=
  .ok (c.adverts.map (fun pe =>
    (pe.1, pe.2.map (fun fa => (fa.1, fa.2.filter (fun a => a.advertType == t))))))

def populateLocalPools (localNode : Option CiliumNode) : List (String × List IPPrefix) :=
  match localNode with
  | none => []
  | some node =>
    node.allocatedPools.foldl (fun lp alloc =>
      insertA lp alloc.pool (alloc.cidrs.foldl (fun acc cidr =>
        match cidr.toPfx with
        | .ok p => acc ++ [p]
        | .error _ => acc) [])) []

def podIPPoolLabelSet (pool : CiliumPodIPPool) : LabelMap :=
  let poolLabels := pool.labels
  let poolLabels := insertA poolLabels podIPPoolNameLabel pool.name
  insertA poolLabels podIPPoolNamespaceLabel pool.nspace

/-- Modelled from the spec (§4.3 data model): `addPathToAFPathsMap` (code
outside the sampled sources) inserts a path into the per-family path set. -/
def addPathToAFPathsMap (m : AFPathsMap) (fam : Family) (path : Path) : AFPathsMap :=
  let ps := afmLookup m fam
  insertA m fam (if path ∈ ps then ps else ps ++ [path])

def afAdvertStep (pool : CiliumPodIPPool) (lp : List (String × List IPPrefix))
    (agentFamily : Family) (acc : AFPathsMap) (advert : BGPAdvertisement) :
    Except Err AFPathsMap :=
  if advert.advertType ≠ .podIPPool then .ok acc
  else
    match LabelSelectorAsSelector advert.selector with
    | .error e => .error e
    | .ok sel =>
      if selMatches sel (podIPPoolLabelSet pool) = false then .ok acc
      else
        match lookupA lp pool.name with
        | none => .ok acc
        | some prefixes => .ok (prefixes.foldl (fun m pfx =>
            let path : Path := ⟨pfx, agentFamily⟩
            if agentFamily.afi = .ipv4 ∧ pfx.addr.is4 = true then
              addPathToAFPathsMap m agentFamily path
            else if agentFamily.afi = .ipv6 ∧ pfx.addr.is6 = true then
              addPathToAFPathsMap m agentFamily path
            else m) acc)

def afAdvertLoop (pool : CiliumPodIPPool) (lp : List (String × List IPPrefix))
    (agentFamily : Family) : List BGPAdvertisement → AFPathsMap → Except Err AFPathsMap
  | [], acc => .ok acc
  | a :: rest, acc =>
    match afAdvertStep pool lp agentFamily acc a with
    | .error e => .error e
    | .ok acc2 => afAdvertLoop pool lp agentFamily rest acc2

def afFamilyLoop (pool : CiliumPodIPPool) (lp : List (String × List IPPrefix)) :
    List (Family × List BGPAdvertisement) → AFPathsMap → Except Err AFPathsMap
  | [], acc => .ok acc
  | fa :: rest, acc =>
    match afAdvertLoop pool lp (ToAgentFamily fa.1) fa.2 acc with
    | .error e => .error e
    | .ok acc2 => afFamilyLoop pool lp rest acc2

def afPeerLoop (pool : CiliumPodIPPool) (lp : List (String × List IPPrefix)) :
    PeerAdvertisements → AFPathsMap → Except Err AFPathsMap
  | [], acc => .ok acc
  | pe :: rest, acc =>
    match afFamilyLoop pool lp pe.2 acc with
    | .error e => .error e
    | .ok acc2 => afPeerLoop pool lp rest acc2

def getDesiredAFPaths (pool : CiliumPodIPPool) (adverts : PeerAdvertisements)
    (lp : List (String × List IPPrefix)) : Except Err AFPathsMap :=
  afPeerLoop pool lp adverts []

def PolicyName (peerName afiStr : String) (t : AdvertType) (poolName : String) : String :=
  peerName ++ "-" ++ afiStr ++ "-" ++ advertTypeStr t ++ "-" ++ poolName

/-- Modelled from the spec (§8): `CreatePolicy` (code outside the sampled
sources) builds the named, peer-scoped policy from the per-family prefix
match lists. -/
def CreatePolicy (name : String) (peerAddr : IPAddr)
    (v4 v6 : List RoutePolicyPrefixMatch) (_advert : BGPAdvertisement) :
    Except Err RoutePolicy :=
  .ok ⟨name, peerAddr, v4, v6⟩

def getPodIPPoolPolicy (peer : PeerID) (family : Family) (pool : CiliumPodIPPool)
    (advert : BGPAdvertisement) (lp : List (String × List IPPrefix)) :
    Except Err (Option RoutePolicy) :=
  if peer.address = "" then .ok none
  else
    match netipParseAddr peer.address with
    | none => .error .peerAddrParse
    | some peerAddr =>
      match LabelSelectorAsSelector advert.selector with
      | .error e => .error e
      | .ok sel =>
        if selMatches sel (podIPPoolLabelSet pool) = false then .ok none
        else
          match lookupA lp pool.name with
          | none => .ok none
          | some prefixes =>
            let v4 := prefixes.foldl (fun acc pfx =>
              if family.afi = .ipv4 ∧ pfx.addr.is4 = true then
                acc ++ [⟨pfx, pool.v4MaskSize, pool.v4MaskSize⟩] else acc) []
            let v6 := prefixes.foldl (fun acc pfx =>
              if family.afi = .ipv6 ∧ pfx.addr.is6 = true then
                acc ++ [⟨pfx, pool.v6MaskSize, pool.v6MaskSize⟩] else acc) []
            if v4.isEmpty = true ∧ v6.isEmpty = true then .ok none
            else
              match CreatePolicy (PolicyName peer.name family.afi.str advert.advertType pool.name)
                  peerAddr v4 v6 advert with
              | .error e => .error e
              | .ok policy => .ok (some policy)

def rpAdvertLoop (peer : PeerID) (fam : Family) (pool : CiliumPodIPPool)
    (lp : List (String × List IPPrefix)) :
    List BGPAdvertisement → RoutePolicyMap → Except Err RoutePolicyMap
  | [], acc => .ok acc
  | a :: rest, acc =>
    match getPodIPPoolPolicy peer fam pool a lp with
    | .error e => .error e
    | .ok none => rpAdvertLoop peer fam pool lp rest acc
    | .ok (some policy) => rpAdvertLoop peer fam pool lp rest (insertA acc policy.name policy)

def rpFamilyLoop (peer : PeerID) (pool : CiliumPodIPPool)
    (lp : List (String × List IPPrefix)) :
    List (Family × List BGPAdvertisement) → RoutePolicyMap → Except Err RoutePolicyMap
  | [], acc => .ok acc
  | fa :: rest, acc =>
    match rpAdvertLoop peer (ToAgentFamily fa.1) pool lp fa.2 acc with
    | .error e => .error e
    | .ok acc2 => rpFamilyLoop peer pool lp rest acc2

def rpPeerLoop (pool : CiliumPodIPPool) (lp : List (String × List IPPrefix)) :
    PeerAdvertisements → RoutePolicyMap → Except Err RoutePolicyMap
  | [], acc => .ok acc
  | pe :: rest, acc =>
    match rpFamilyLoop pe.1 pool lp pe.2 acc with
    | .error e => .error e
    | .ok acc2 => rpPeerLoop pool lp rest acc2

def getPodIPPoolPolicies (pool : CiliumPodIPPool) (adverts : PeerAdvertisements)
    (lp : List (String × List IPPrefix)) : Except Err RoutePolicyMap :=
  rpPeerLoop pool lp adverts []

/-- The deleted-pool marker loop shared by both desired-state derivations:
for each retained resource key, ask the store; a key whose pool no longer
exists is explicitly mapped to nil.  `wrap` is applied to a store error
(`getDesiredPoolAFPaths` composes the abort sentinel there,
`getDesiredPodIPPoolRoutePolicies` returns the error unchanged). -/
def markerLoop {ν : Type} (s : StoreState) (wrap : Err → Err) :
    List ResourceKey → List (ResourceKey × Option ν) → Except Err (List (ResourceKey × Option ν))
  | [], acc => .ok acc
  | k :: rest, acc =>
    match storeGetByKey s k with
    | .error e => .error (wrap e)
    | .ok none => markerLoop s wrap rest (insertA acc k none)
    | .ok (some _) => markerLoop s wrap rest acc

/-- The sentinel composition of `getDesiredPoolAFPaths`:
`if errors.Is(err, ErrStoreUninitialized) { err = errors.Join(err, ErrAbortReconcile) }`. -/
def afWrap (e : Err) : Err :=
  if e.has .storeUninitialized then .join e .abortReconcile else e

/-- The per-pool loop over the store's listed pools, inserting each pool's
derived value under its resource key. -/
def storeLoop {μ : Type} (h : CiliumPodIPPool → Except Err μ) :
    List CiliumPodIPPool → List (ResourceKey × Option μ) → Except Err (List (ResourceKey × Option μ))
  | [], acc => .ok acc
  | pool :: rest, acc =>
    match h pool with
    | .error e => .error e
    | .ok v => storeLoop h rest (insertA acc (poolKeyOf pool) (some v))

def getDesiredPoolAFPaths (r : PodIPPoolReconciler) (instName : String)
    (adverts : PeerAdvertisements) (lp : List (String × List IPPrefix)) :
    Except Err ResourceAFPathsMap :=
  let md := getMetadata r instName
  match markerLoop r.poolStore afWrap (keysA md.PoolAFPaths) [] with
  | .error e => .error e
  | .ok acc =>
    match storeList r.poolStore with
    | .error e => .error (afWrap e)
    | .ok pools => storeLoop (fun pool => getDesiredAFPaths pool adverts lp) pools acc

def getDesiredPodIPPoolRoutePolicies (r : PodIPPoolReconciler) (instName : String)
    (adverts : PeerAdvertisements) (lp : List (String × List IPPrefix)) :
    Except Err ResourceRoutePolicyMap :=
  let md := getMetadata r instName
  match markerLoop r.poolStore id (keysA md.PoolRoutePolicies) [] with
  | .error e => .error e
  | .ok acc =>
    match storeList r.poolStore with
    | .error e => .error e
    | .ok pools => storeLoop (fun pool => getPodIPPoolPolicies pool adverts lp) pools acc

/-- The per-key loop of `reconcileRoutePolicies` (source lines 191–215):
iterate the desired mapping, look up the retained value, skip keys that are
new and empty, apply the delta, delete the retained entry after a successful
withdraw-all, otherwise store the engine's updated value; per-key errors are
joined. -/
def applyPoolRoutePolicies (rt : Router) :
    List (ResourceKey × Option RoutePolicyMap) → ResourceRoutePolicyMap →
    ResourceRoutePolicyMap × List RouterOp × Option Err
  | [], m => (m, [], none)
  | (k, dRPs) :: rest, m =>
    let cur := lookupA m k
    if cur.isSome = false ∧ rpLen dRPs = 0 then applyPoolRoutePolicies rt rest m
    else
      let e := ReconcileRoutePolicies rt k dRPs (cur.getD none)
      let m2 := if e.2.2 = none ∧ rpLen dRPs = 0 then eraseA m k else insertA m k e.1
      let t := applyPoolRoutePolicies rt rest m2
      (t.1, e.2.1 ++ t.2.1, joinO e.2.2 t.2.2)

def reconcileRoutePolicies (rt : Router) (r : PodIPPoolReconciler) (instName : String)
    (adverts : PeerAdvertisements) (lp : List (String × List IPPrefix)) :
    PodIPPoolReconciler × List RouterOp × Option Err :=
  match getDesiredPodIPPoolRoutePolicies r instName adverts lp with
  | .error e => (r, [], some e)
  | .ok desired =>
    let md := getMetadata r instName
    let res := applyPoolRoutePolicies rt desired md.PoolRoutePolicies
    (setMetadata r instName { md with PoolRoutePolicies := res.1 }, res.2.1, res.2.2)

def reconcilePaths (rt : Router) (r : PodIPPoolReconciler) (instName : String)
    (adverts : PeerAdvertisements) (lp : List (String × List IPPrefix)) :
    PodIPPoolReconciler × List RouterOp × Option Err :=
  match getDesiredPoolAFPaths r instName adverts lp with
  | .error e => (r, [], some e)
  | .ok poolsAFPaths =>
    let md := getMetadata r instName
    let res := ReconcileResourceAFPaths rt poolsAFPaths md.PoolAFPaths
    (setMetadata r instName { md with PoolAFPaths := res.1 }, res.2.1, res.2.2)

def Reconcile (r : PodIPPoolReconciler) (p : ReconcileParams) :
    PodIPPoolReconciler × List RouterOp × Option Err :=
  match ValidateParams p with
  | .error e => (r, [], some e)
  | .ok (c, n, i) =>
    let lp := populateLocalPools (some n)
    match GetConfiguredAdvertisements c .podIPPool with
    | .error e => (r, [], some e)
    | .ok desiredPeerAdverts =>
      let rp := reconcileRoutePolicies i.router r i.name desiredPeerAdverts lp
      match rp.2.2 with
      | some e => (rp.1, rp.2.1, some e)
      | none =>
        let pa := reconcilePaths i.router rp.1 i.name desiredPeerAdverts lp
        (pa.1, rp.2.1 ++ pa.2.1, pa.2.2)

/-! ## Heap-level model of `podIPPoolLabelSet` (for the frame property)

Go map values alias; `maps.Clone` allocates a fresh map.  To make the absence
of mutation of the pool's own label map observable, the function is also
translated at the level of a heap of label maps addressed by references. -/

abbrev LabelHeap := List (Nat × LabelMap)

structure PoolRef where
  name : String
  nspace : String
  labelsRef : Nat

def heapFresh (h : LabelHeap) : Nat := (keysA h).foldl max 0 + 1

def mapsCloneH (h : LabelHeap) (ref : Nat) : LabelHeap × Nat :=
  let r := heapFresh h
  (insertA h r ((lookupA h ref).getD []), r)

def mapInsertH (h : LabelHeap) (ref : Nat) (k v : String) : LabelHeap :=
  match lookupA h ref with
  | none => h
  | some m => insertA h ref (insertA m k v)

/-- `podIPPoolLabelSet` translated over the heap of Go map values: clone the
pool's label map, then write the two pseudo-labels through the clone's
reference only. -/
def podIPPoolLabelSetH (h : LabelHeap) (pool : PoolRef) : LabelHeap × Nat :=
  let c := mapsCloneH h pool.labelsRef
  let h2 := mapInsertH c.1 c.2 podIPPoolNameLabel pool.name
  let h3 := mapInsertH h2 c.2 podIPPoolNamespaceLabel pool.nspace
  (h3, c.2)

/-! ## Lemmas about association-list maps -/

theorem lookupA_insertA_self {α β : Type} [DecidableEq α] (m : List (α × β)) (k : α) (v : β) :
    lookupA (insertA m k v) k = some v := by
  induction m with
  | nil => simp [insertA, lookupA]
  | cons e t ih =>
    obtain ⟨a, b⟩ := e
    by_cases h : a = k
    · subst h; simp [insertA, lookupA]
    · simp [insertA, lookupA, h, ih]

theorem lookupA_insertA_ne {α β : Type} [DecidableEq α] (m : List (α × β)) {k k' : α} (v : β)
    (h : k' ≠ k) : lookupA (insertA m k v) k' = lookupA m k' := by
  have h' : ¬ (k = k') := fun hh => h hh.symm
  induction m with
  | nil => simp [insertA, lookupA, h']
  | cons e t ih =>
    obtain ⟨a, b⟩ := e
    by_cases ha : a = k
    · subst ha; simp [insertA, lookupA, h']
    · simp [insertA, lookupA, ha, ih]

theorem insertA_self_ext {α β : Type} [DecidableEq α] (m : List (α × β)) (k : α) (v : β)
    (h : lookupA m k = some v) (k' : α) : lookupA (insertA m k v) k' = lookupA m k' := by
  induction m with
  | nil => simp [lookupA] at h
  | cons e t ih =>
    obtain ⟨a, b⟩ := e
    by_cases ha : a = k
    · subst ha
      simp only [lookupA, if_pos rfl] at h
      obtain rfl : b = v := by injection h
      simp [insertA]
    · simp only [lookupA, if_neg ha] at h
      simp [insertA, ha, lookupA, ih h]

theorem lookupA_eraseA_self {α β : Type} [DecidableEq α] (m : List (α × β)) (k : α) :
    lookupA (eraseA m k) k = none := by
  induction m with
  | nil => simp [eraseA, lookupA]
  | cons e t ih =>
    obtain ⟨a, b⟩ := e
    by_cases ha : a = k
    · subst ha; simpa [eraseA, List.filter] using ih
    · simpa [eraseA, List.filter, ha, lookupA] using ih

theorem lookupA_eraseA_ne {α β : Type} [DecidableEq α] (m : List (α × β)) {k k' : α}
    (h : k' ≠ k) : lookupA (eraseA m k) k' = lookupA m k' := by
  induction m with
  | nil => simp [eraseA, lookupA]
  | cons e t ih =>
    obtain ⟨a, b⟩ := e
    by_cases ha : a = k
    · subst ha
      have : ¬ (a = k') := fun hh => h hh.symm
      simpa [eraseA, List.filter, lookupA, this] using ih
    · by_cases ha' : a = k'
      · subst ha'; simp [eraseA, List.filter, ha, lookupA]
      · simpa [eraseA, List.filter, ha, ha', lookupA] using ih

theorem lookupA_eq_none_of_not_mem_keysA {α β : Type} [DecidableEq α] (m : List (α × β))
    (k : α) (h : k ∉ keysA m) : lookupA m k = none := by
  induction m with
  | nil => simp [lookupA]
  | cons e t ih =>
    obtain ⟨a, b⟩ := e
    simp only [keysA, List.map_cons, List.mem_cons] at h
    push_neg at h
    have ha : ¬ (a = k) := fun hh => h.1 hh.symm
    simp [lookupA, ha]
    exact ih (by simpa [keysA] using h.2)

theorem mem_keysA_of_lookupA_isSome {α β : Type} [DecidableEq α] (m : List (α × β)) (k : α)
    (h : (lookupA m k).isSome = true) : k ∈ keysA m := by
  by_contra hc
  rw [lookupA_eq_none_of_not_mem_keysA m k hc] at h
  simp at h

theorem lookupA_mem {α β : Type} [DecidableEq α] (m : List (α × β)) (k : α) (v : β)
    (h : lookupA m k = some v) : (k, v) ∈ m := by
  induction m with
  | nil => simp [lookupA] at h
  | cons e t ih =>
    obtain ⟨a, b⟩ := e
    by_cases ha : a = k
    · subst ha
      simp only [lookupA, if_pos rfl] at h
      obtain rfl : b = v := by injection h
      exact List.mem_cons_self _ _
    · simp only [lookupA, if_neg ha] at h
      exact List.mem_cons_of_mem _ (ih h)

theorem lookupA_append {α β : Type} [DecidableEq α] (xs ys : List (α × β)) (k : α) :
    lookupA (xs ++ ys) k =
      (match lookupA xs k with
       | some v => some v
       | none => lookupA ys k) := by
  induction xs with
  | nil => simp [lookupA]
  | cons e t ih =>
    obtain ⟨a, b⟩ := e
    by_cases ha : a = k
    · simp [lookupA, ha]
    · simp [lookupA, ha, ih]

theorem insertA_cons_self {α β : Type} [DecidableEq α] (t : List (α × β)) (a0 : α) (b0 v : β) :
    insertA ((a0, b0) :: t) a0 v = (a0, v) :: t := by
  simp [insertA]

theorem insertA_cons_ne {α β : Type} [DecidableEq α] (t : List (α × β)) {a0 k : α}
    (h : ¬ a0 = k) (b0 v : β) :
    insertA ((a0, b0) :: t) k v = (a0, b0) :: insertA t k v := by
  simp [insertA, h]

theorem keysA_cons {α β : Type} (t : List (α × β)) (e : α × β) :
    keysA (e :: t) = e.1 :: keysA t := rfl

theorem mem_keysA_insertA {α β : Type} [DecidableEq α] (m : List (α × β)) (k a : α) (v : β) :
    a ∈ keysA (insertA m k v) ↔ (a = k ∨ a ∈ keysA m) := by
  induction m with
  | nil => simp [insertA, keysA]
  | cons e t ih =>
    obtain ⟨a0, b0⟩ := e
    by_cases hcase : a0 = k
    · subst hcase
      rw [insertA_cons_self, keysA_cons, keysA_cons]
      constructor
      · intro h
        rcases List.mem_cons.mp h with h1 | h2
        · exact Or.inl h1
        · exact Or.inr (List.mem_cons_of_mem _ h2)
      · intro h
        rcases h with h1 | h2
        · exact h1 ▸ List.mem_cons_self _ _
        · rcases List.mem_cons.mp h2 with h3 | h4
          · exact h3 ▸ List.mem_cons_self _ _
          · exact List.mem_cons_of_mem _ h4
    · rw [insertA_cons_ne t hcase, keysA_cons, keysA_cons]
      constructor
      · intro h
        rcases List.mem_cons.mp h with h1 | h2
        · exact Or.inr (h1 ▸ List.mem_cons_self _ _)
        · rcases ih.mp h2 with h3 | h4
          · exact Or.inl h3
          · exact Or.inr (List.mem_cons_of_mem _ h4)
      · intro h
        rcases h with h1 | h2
        · exact List.mem_cons_of_mem _ (ih.mpr (Or.inl h1))
        · rcases List.mem_cons.mp h2 with h3 | h4
          · exact h3 ▸ List.mem_cons_self _ _
          · exact List.mem_cons_of_mem _ (ih.mpr (Or.inr h4))

theorem lookupA_of_mem_nodupKeys {α β : Type} [DecidableEq α] (m : List (α × β))
    (hnd : (keysA m).Nodup) {k : α} {v : β} (h : (k, v) ∈ m) : lookupA m k = some v := by
  induction m with
  | nil => simp at h
  | cons e t ih =>
    obtain ⟨a, b⟩ := e
    simp only [keysA, List.map_cons, List.nodup_cons] at hnd
    rcases List.mem_cons.mp h with h1 | h2
    · have h1' : a = k ∧ b = v := Prod.mk.inj h1.symm
      obtain ⟨rfl, rfl⟩ := h1'
      simp [lookupA]
    · have hak : ¬ (a = k) := by
        rintro rfl
        exact hnd.1 (by simpa [keysA] using List.mem_map_of_mem Prod.fst h2)
      simp [lookupA, hak]
      exact ih (by simpa [keysA] using hnd.2) h2

theorem keysA_insertA_nodup {α β : Type} [DecidableEq α] (m : List (α × β)) (k : α) (v : β)
    (hnd : (keysA m).Nodup) : (keysA (insertA m k v)).Nodup := by
  induction m with
  | nil => simp [insertA, keysA]
  | cons e t ih =>
    obtain ⟨a0, b0⟩ := e
    rw [keysA_cons, List.nodup_cons] at hnd
    by_cases hcase : a0 = k
    · subst hcase
      rw [insertA_cons_self, keysA_cons, List.nodup_cons]
      exact hnd
    · rw [insertA_cons_ne t hcase, keysA_cons, List.nodup_cons]
      constructor
      · intro hmem
        rcases (mem_keysA_insertA t k a0 v).mp hmem with h1 | h2
        · exact hcase h1
        · exact hnd.1 h2
      · exact ih hnd.2

/-! ## Lemmas about content equality -/

theorem setEqv_iff {α : Type} [DecidableEq α] (xs ys : List α) :
    setEqv xs ys = true ↔ ((∀ x ∈ xs, x ∈ ys) ∧ ∀ y ∈ ys, y ∈ xs) := by
  simp [setEqv]

theorem setEqv_refl {α : Type} [DecidableEq α] (xs : List α) : setEqv xs xs = true := by
  simp [setEqv_iff]

theorem setEqv_symm {α : Type} [DecidableEq α] {xs ys : List α} (h : setEqv xs ys = true) :
    setEqv ys xs = true := by
  rw [setEqv_iff] at h ⊢
  exact ⟨h.2, h.1⟩

theorem afmLookup_eq_nil_of_not_mem (m : AFPathsMap) (f : Family) (h : f ∉ keysA m) :
    afmLookup m f = [] := by
  simp [afmLookup, lookupA_eq_none_of_not_mem_keysA m f h]

theorem afmEqv_iff (a b : AFPathsMap) :
    afmEqv a b = true ↔ ∀ f, setEqv (afmLookup a f) (afmLookup b f) = true := by
  constructor
  · intro h f
    by_cases hf : f ∈ keysA a ++ keysA b
    · rw [afmEqv, List.all_eq_true] at h
      exact h f hf
    · rw [List.mem_append] at hf
      push_neg at hf
      rw [afmLookup_eq_nil_of_not_mem a f hf.1, afmLookup_eq_nil_of_not_mem b f hf.2]
      exact setEqv_refl []
  · intro h
    rw [afmEqv, List.all_eq_true]
    exact fun f _ => h f

theorem afmEqv_refl (a : AFPathsMap) : afmEqv a a = true := by
  rw [afmEqv_iff]
  exact fun f => setEqv_refl _

theorem afmEqv_symm {a b : AFPathsMap} (h : afmEqv a b = true) : afmEqv b a = true := by
  rw [afmEqv_iff] at h ⊢
  exact fun f => setEqv_symm (h f)

theorem afmEqv_nil_of_isEmpty {m : AFPathsMap} (h : afmIsEmpty m = true) :
    afmEqv m [] = true := by
  rw [afmEqv_iff]
  intro f
  rw [setEqv_iff]
  constructor
  · intro x hx
    exfalso
    rcases hlk : lookupA m f with _ | ps
    · simp [afmLookup, hlk] at hx
    · have hmem := lookupA_mem m f ps hlk
      rw [afmIsEmpty, List.all_eq_true] at h
      have := h _ hmem
      simp at this
      simp [afmLookup, hlk, this] at hx
  · intro y hy
    simp [afmLookup, lookupA] at hy

theorem rpmLookup_eq_none_of_not_mem (m : RoutePolicyMap) (n : String) (h : n ∉ keysA m) :
    rpmLookup m n = none := lookupA_eq_none_of_not_mem_keysA m n h

theorem rpmEqv_iff (a b : RoutePolicyMap) :
    rpmEqv a b = true ↔ ∀ n, rpmLookup a n = rpmLookup b n := by
  constructor
  · intro h n
    by_cases hn : n ∈ keysA a ++ keysA b
    · rw [rpmEqv, List.all_eq_true] at h
      have := h n hn
      simpa using this
    · rw [List.mem_append] at hn
      push_neg at hn
      rw [rpmLookup_eq_none_of_not_mem a n hn.1, rpmLookup_eq_none_of_not_mem b n hn.2]
  · intro h
    rw [rpmEqv, List.all_eq_true]
    intro n _
    simp [h n]

theorem rpmEqv_refl (a : RoutePolicyMap) : rpmEqv a a = true := by
  rw [rpmEqv_iff]
  exact fun _ => rfl

theorem rpmEqv_symm {a b : RoutePolicyMap} (h : rpmEqv a b = true) : rpmEqv b a = true := by
  rw [rpmEqv_iff] at h ⊢
  exact fun n => (h n).symm

theorem rpmEqv_nil_eq {c : RoutePolicyMap} (h : rpmEqv [] c = true) : c = [] := by
  rw [rpmEqv_iff] at h
  cases c with
  | nil => rfl
  | cons e t =>
    exfalso
    have := h e.1
    obtain ⟨n, p⟩ := e
    simp [rpmLookup, lookupA] at this

theorem rpmEqv_nil_eq' {c : RoutePolicyMap} (h : rpmEqv c [] = true) : c = [] :=
  rpmEqv_nil_eq (rpmEqv_symm h)

/-! ## Heap arithmetic for the label-set frame property -/

theorem le_foldl_max_init (l : List Nat) (a : Nat) : a ≤ l.foldl max a := by
  induction l generalizing a with
  | nil => simp
  | cons b t ih => exact le_trans (le_max_left a b) (ih (max a b))

theorem mem_le_foldl_max (l : List Nat) (a : Nat) {x : Nat} (hx : x ∈ l) :
    x ≤ l.foldl max a := by
  induction l generalizing a with
  | nil => simp at hx
  | cons b t ih =>
    rcases List.mem_cons.mp hx with rfl | h
    · exact le_trans (le_max_right a x) (le_foldl_max_init t (max a x))
    · exact ih (max a b) h

theorem heapFresh_not_mem (h : LabelHeap) : heapFresh h ∉ keysA h := by
  intro hmem
  have hle := mem_le_foldl_max (keysA h) 0 hmem
  rw [heapFresh] at hle
  omega

/-! ## Claim C8 -/

/-- C8: `Init` called with a nil `BGPInstance` returns a non-nil BUG error and
leaves the metadata map unchanged, while `Init` on a non-nil instance returns
nil, sets that instance's metadata to two fresh empty mappings (empty
`PoolAFPaths` and empty `PoolRoutePolicies`), and leaves every other
instance's metadata unchanged. -/
theorem C8_init_nil_error_and_fresh_empty_metadata (r : PodIPPoolReconciler) (i : BGPInstance) :
    ((Init r none).2.isSome = true ∧ (Init r none).1 = r) ∧
    ((Init r (some i)).2 = none ∧
      lookupA (Init r (some i)).1.metadata i.name = some ⟨[], []⟩ ∧
      ∀ n, n ≠ i.name → lookupA (Init r (some i)).1.metadata n = lookupA r.metadata n) := by
  refine ⟨⟨rfl, rfl⟩, rfl, ?_, ?_⟩
  · exact lookupA_insertA_self r.metadata i.name ⟨[], []⟩
  · intro n hn
    exact lookupA_insertA_ne r.metadata _ hn

theorem C8_init_nil_error_and_fresh_empty_metadata_witness :
    lookupA (Init ⟨.ready [], [("other", ⟨[], []⟩)]⟩
        (some ⟨"i1", ⟨fun _ => true, fun _ => true⟩⟩)).1.metadata "other" =
      lookupA [("other", (⟨[], []⟩ : PodIPPoolReconcilerMetadata))] "other" :=
  (C8_init_nil_error_and_fresh_empty_metadata ⟨.ready [], [("other", ⟨[], []⟩)]⟩
    ⟨"i1", ⟨fun _ => true, fun _ => true⟩⟩).2.2.2 "other" (by decide)

/-! ## Claim C9 -/

/-- C9: a peer whose address is the empty string is silently skipped by the
route-policy derivation (`getPodIPPoolPolicy` returns no policy and no error
for any pool), whereas a peer with a non-empty address that fails to parse
causes `getPodIPPoolPolicy` to return the parse error, aborting the
derivation. -/
theorem C9_empty_peer_skipped_bad_address_errors (peer : PeerID) (family : Family)
    (pool : CiliumPodIPPool) (advert : BGPAdvertisement) (lp : List (String × List IPPrefix)) :
    (peer.address = "" → getPodIPPoolPolicy peer family pool advert lp = .ok none) ∧
    (peer.address ≠ "" → netipParseAddr peer.address = none →
      getPodIPPoolPolicy peer family pool advert lp = .error .peerAddrParse) := by
  constructor
  · intro h
    simp [getPodIPPoolPolicy, h]
  · intro h hp
    simp [getPodIPPoolPolicy, h, hp]

theorem C9_empty_peer_skipped_bad_address_errors_witness :
    getPodIPPoolPolicy ⟨"p", ""⟩ ⟨.ipv4⟩ ⟨"P", "ns", [], 24, 120⟩ ⟨.podIPPool, .valid []⟩ []
        = .ok none ∧
    getPodIPPoolPolicy ⟨"p", "bogus"⟩ ⟨.ipv4⟩ ⟨"P", "ns", [], 24, 120⟩ ⟨.podIPPool, .valid []⟩ []
        = .error .peerAddrParse :=
  ⟨(C9_empty_peer_skipped_bad_address_errors ⟨"p", ""⟩ ⟨.ipv4⟩ ⟨"P", "ns", [], 24, 120⟩
      ⟨.podIPPool, .valid []⟩ []).1 rfl,
   (C9_empty_peer_skipped_bad_address_errors ⟨"p", "bogus"⟩ ⟨.ipv4⟩ ⟨"P", "ns", [], 24, 120⟩
      ⟨.podIPPool, .valid []⟩ []).2 (by decide) (by decide)⟩

/-! ## Claim C10 -/

/-- C10: computing a pool's label set never mutates the pool's own label map —
the map is cloned before the name and namespace pseudo-labels are injected
(the heap cell of the pool's label map is unchanged), and the pseudo-labels
override any identically named label the pool itself declares. -/
theorem C10_labelset_clones_and_pseudo_labels_override (h : LabelHeap) (pool : PoolRef)
    (href : pool.labelsRef ∈ keysA h) :
    lookupA (podIPPoolLabelSetH h pool).1 pool.labelsRef = lookupA h pool.labelsRef ∧
    ∃ m, lookupA (podIPPoolLabelSetH h pool).1 (podIPPoolLabelSetH h pool).2 = some m ∧
      lookupA m podIPPoolNameLabel = some pool.name ∧
      lookupA m podIPPoolNamespaceLabel = some pool.nspace ∧
      ∀ key, key ≠ podIPPoolNameLabel → key ≠ podIPPoolNamespaceLabel →
        lookupA m key = lookupA ((lookupA h pool.labelsRef).getD []) key := by
  have hne : pool.labelsRef ≠ heapFresh h := by
    intro he
    exact heapFresh_not_mem h (he ▸ href)
  set rf := heapFresh h with hrf
  set orig := (lookupA h pool.labelsRef).getD [] with horig
  set m1 := insertA orig podIPPoolNameLabel pool.name with hm1
  set m2 := insertA m1 podIPPoolNamespaceLabel pool.nspace with hm2
  set h1 := insertA h rf orig with hh1
  have hlk1 : lookupA h1 rf = some orig := lookupA_insertA_self h rf orig
  have h2eq : mapInsertH h1 rf podIPPoolNameLabel pool.name = insertA h1 rf m1 := by
    rw [mapInsertH, hlk1]
  set h2 := insertA h1 rf m1 with hh2
  have hlk2 : lookupA h2 rf = some m1 := lookupA_insertA_self h1 rf m1
  have h3eq : mapInsertH h2 rf podIPPoolNamespaceLabel pool.nspace = insertA h2 rf m2 := by
    rw [mapInsertH, hlk2]
  set h3 := insertA h2 rf m2 with hh3
  have hres : podIPPoolLabelSetH h pool = (h3, rf) := by
    rw [podIPPoolLabelSetH, mapsCloneH]
    simp only [← hrf, ← horig, ← hh1, h2eq, ← hh2, h3eq, ← hh3]
  rw [hres]
  constructor
  · rw [lookupA_insertA_ne h2 m2 hne, lookupA_insertA_ne h1 m1 hne,
      lookupA_insertA_ne h orig hne]
  · refine ⟨m2, lookupA_insertA_self h2 rf m2, ?_, ?_, ?_⟩
    · rw [hm2, lookupA_insertA_ne m1 pool.nspace (by decide), hm1,
        lookupA_insertA_self orig podIPPoolNameLabel pool.name]
    · rw [hm2, lookupA_insertA_self m1 podIPPoolNamespaceLabel pool.nspace]
    · intro key hk1 hk2
      rw [hm2, lookupA_insertA_ne m1 pool.nspace hk2, hm1,
        lookupA_insertA_ne orig pool.name hk1]

theorem C10_labelset_clones_and_pseudo_labels_override_witness :
    lookupA (podIPPoolLabelSetH [(1, [("team", "a")])] ⟨"P", "ns", 1⟩).1 1 =
      lookupA [(1, [("team", "a")])] 1 :=
  (C10_labelset_clones_and_pseudo_labels_override [(1, [("team", "a")])] ⟨"P", "ns", 1⟩
    (by decide)).1

/-! ## Claim C2 -/

def uninitR : PodIPPoolReconciler := ⟨.uninitialized, [("i1", ⟨[], []⟩)]⟩

def uninitP : ReconcileParams :=
  ⟨some ⟨"i1", []⟩, some ⟨[]⟩, some ⟨"i1", ⟨fun _ => true, fun _ => true⟩⟩⟩

/-- C2 (code bug): with the pool store uninitialized, `Reconcile` returns
before any apply call (empty router trace), but the error it returns is the
raw store-uninitialized error surfaced by the route-policy derivation — which
does not compose the abort sentinel — so the returned error fails the
abort-sentinel check.  The AF-path derivation does compose the sentinel; the
route-policy derivation does not. -/
theorem C2_uninitialized_store_error_lacks_abort_sentinel :
    (Reconcile uninitR uninitP).2.1 = [] ∧
    (Reconcile uninitR uninitP).2.2 = some .storeUninitialized ∧
    Err.has .storeUninitialized .abortReconcile = false ∧
    (getDesiredPoolAFPaths uninitR "i1" [] [] =
        .error (.join .storeUninitialized .abortReconcile) ∧
      Err.has (.join .storeUninitialized .abortReconcile) .abortReconcile = true) ∧
    getDesiredPodIPPoolRoutePolicies uninitR "i1" [] [] = .error .storeUninitialized := by
  refine ⟨by decide, by decide, by decide, ⟨rfl, by decide⟩, rfl⟩

/-! ## Lemmas about the desired-state derivation loops -/

theorem markerLoop_ok_lookup {ν : Type} (s : StoreState) (w : Err → Err) (k : ResourceKey)
    (hk : storeGetByKey s k = .ok none) :
    ∀ (ks : List ResourceKey) (acc acc' : List (ResourceKey × Option ν)),
      markerLoop s w ks acc = .ok acc' →
      (k ∈ ks ∨ lookupA acc k = some none) → lookupA acc' k = some none := by
  intro ks
  induction ks with
  | nil =>
    intro acc acc' hloop hmem
    rcases hmem with h | h
    · simp at h
    · rw [markerLoop] at hloop
      injection hloop with he
      exact he ▸ h
  | cons k0 rest ih =>
    intro acc acc' hloop hmem
    rcases hget : storeGetByKey s k0 with e | v
    · simp only [markerLoop, hget] at hloop
      exact Except.noConfusion hloop
    · cases v with
      | none =>
        simp only [markerLoop, hget] at hloop
        apply ih _ _ hloop
        rcases hmem with h | h
        · rcases List.mem_cons.mp h with rfl | h2
          · right; exact lookupA_insertA_self acc k none
          · left; exact h2
        · right
          by_cases hkk : k = k0
          · subst hkk; exact lookupA_insertA_self acc k none
          · rw [lookupA_insertA_ne acc none hkk]; exact h
      | some pool =>
        simp only [markerLoop, hget] at hloop
        apply ih _ _ hloop
        rcases hmem with h | h
        · rcases List.mem_cons.mp h with rfl | h2
          · rw [hget] at hk; simp at hk
          · left; exact h2
        · right; exact h

theorem markerLoop_notmem_lookup {ν : Type} (s : StoreState) (w : Err → Err) (k : ResourceKey) :
    ∀ (ks : List ResourceKey) (acc acc' : List (ResourceKey × Option ν)),
      markerLoop s w ks acc = .ok acc' → k ∉ ks → lookupA acc' k = lookupA acc k := by
  intro ks
  induction ks with
  | nil =>
    intro acc acc' hloop _
    rw [markerLoop] at hloop
    injection hloop with he
    exact he ▸ rfl
  | cons k0 rest ih =>
    intro acc acc' hloop hnot
    have hk0 : k ≠ k0 := fun he => hnot (he ▸ List.mem_cons_self _ _)
    have hrest : k ∉ rest := fun hm => hnot (List.mem_cons_of_mem _ hm)
    rcases hget : storeGetByKey s k0 with e | v
    · simp only [markerLoop, hget] at hloop
      exact Except.noConfusion hloop
    · cases v with
      | none =>
        simp only [markerLoop, hget] at hloop
        rw [ih _ _ hloop hrest, lookupA_insertA_ne acc none hk0]
      | some pool =>
        simp only [markerLoop, hget] at hloop
        exact ih _ _ hloop hrest

theorem markerLoop_ready_ok {ν : Type} (pools : List CiliumPodIPPool) (w : Err → Err) :
    ∀ (ks : List ResourceKey) (acc : List (ResourceKey × Option ν)),
      ∃ acc', markerLoop (.ready pools) w ks acc = .ok acc' := by
  intro ks
  induction ks with
  | nil => intro acc; exact ⟨acc, rfl⟩
  | cons k0 rest ih =>
    intro acc
    rcases hfind : pools.find? (fun pool => poolKeyOf pool == k0) with _ | pool
    · obtain ⟨acc', hacc'⟩ := ih (insertA acc k0 none)
      exact ⟨acc', by simp only [markerLoop, storeGetByKey, hfind]; exact hacc'⟩
    · obtain ⟨acc', hacc'⟩ := ih acc
      exact ⟨acc', by simp only [markerLoop, storeGetByKey, hfind]; exact hacc'⟩

theorem markerLoop_keys {ν : Type} (s : StoreState) (w : Err → Err) :
    ∀ (ks : List ResourceKey) (acc acc' : List (ResourceKey × Option ν)),
      markerLoop s w ks acc = .ok acc' →
      ∀ k ∈ keysA acc', k ∈ ks ∨ k ∈ keysA acc := by
  intro ks
  induction ks with
  | nil =>
    intro acc acc' hloop k hk
    rw [markerLoop] at hloop
    injection hloop with he
    exact Or.inr (he ▸ hk)
  | cons k0 rest ih =>
    intro acc acc' hloop k hk
    rcases hget : storeGetByKey s k0 with e | v
    · simp only [markerLoop, hget] at hloop
      exact Except.noConfusion hloop
    · cases v with
      | none =>
        simp only [markerLoop, hget] at hloop
        rcases ih _ _ hloop k hk with h | h
        · exact Or.inl (List.mem_cons_of_mem _ h)
        · rcases (mem_keysA_insertA acc k0 k none).mp h with h1 | h2
          · exact Or.inl (h1 ▸ List.mem_cons_self _ _)
          · exact Or.inr h2
      | some pool =>
        simp only [markerLoop, hget] at hloop
        rcases ih _ _ hloop k hk with h | h
        · exact Or.inl (List.mem_cons_of_mem _ h)
        · exact Or.inr h

theorem markerLoop_nodup {ν : Type} (s : StoreState) (w : Err → Err) :
    ∀ (ks : List ResourceKey) (acc acc' : List (ResourceKey × Option ν)),
      markerLoop s w ks acc = .ok acc' → (keysA acc).Nodup → (keysA acc').Nodup := by
  intro ks
  induction ks with
  | nil =>
    intro acc acc' hloop hnd
    rw [markerLoop] at hloop
    injection hloop with he
    exact he ▸ hnd
  | cons k0 rest ih =>
    intro acc acc' hloop hnd
    rcases hget : storeGetByKey s k0 with e | v
    · simp only [markerLoop, hget] at hloop
      exact Except.noConfusion hloop
    · cases v with
      | none =>
        simp only [markerLoop, hget] at hloop
        exact ih _ _ hloop (keysA_insertA_nodup acc k0 none hnd)
      | some pool =>
        simp only [markerLoop, hget] at hloop
        exact ih _ _ hloop hnd

theorem storeLoop_notmem_preserve {μ : Type} (h : CiliumPodIPPool → Except Err μ)
    (k : ResourceKey) :
    ∀ (pools : List CiliumPodIPPool) (acc m : List (ResourceKey × Option μ)),
      (∀ q ∈ pools, poolKeyOf q ≠ k) → storeLoop h pools acc = .ok m →
      lookupA m k = lookupA acc k := by
  intro pools
  induction pools with
  | nil =>
    intro acc m _ hloop
    rw [storeLoop] at hloop
    injection hloop with he
    exact he ▸ rfl
  | cons q rest ih =>
    intro acc m hnot hloop
    rcases hq : h q with e | v
    · simp only [storeLoop, hq] at hloop
      exact Except.noConfusion hloop
    · simp only [storeLoop, hq] at hloop
      have hne : k ≠ poolKeyOf q := fun he => hnot q (List.mem_cons_self _ _) he.symm
      rw [ih _ _ (fun q' hq' => hnot q' (List.mem_cons_of_mem _ hq')) hloop,
        lookupA_insertA_ne acc (some v) hne]

theorem storeLoop_lookup_mem {μ : Type} (h : CiliumPodIPPool → Except Err μ) :
    ∀ (pools : List CiliumPodIPPool) (acc m : List (ResourceKey × Option μ))
      (pool : CiliumPodIPPool) (v : μ),
      (pools.map poolKeyOf).Nodup → pool ∈ pools → h pool = .ok v →
      storeLoop h pools acc = .ok m → lookupA m (poolKeyOf pool) = some (some v) := by
  intro pools
  induction pools with
  | nil => intro acc m pool v _ hmem; simp at hmem
  | cons q rest ih =>
    intro acc m pool v hnd hmem hv hloop
    rw [List.map_cons, List.nodup_cons] at hnd
    rcases List.mem_cons.mp hmem with rfl | hrest
    · rcases hq : h pool with e | v'
      · simp only [storeLoop, hq] at hloop
        exact Except.noConfusion hloop
      · simp only [storeLoop, hq] at hloop
        rw [hq] at hv
        injection hv with hv'
        rw [← hv']
        have hnot : ∀ q' ∈ rest, poolKeyOf q' ≠ poolKeyOf pool := by
          intro q' hq' he
          exact hnd.1 (he ▸ List.mem_map_of_mem poolKeyOf hq')
        rw [storeLoop_notmem_preserve h (poolKeyOf pool) rest _ _ hnot hloop,
          lookupA_insertA_self acc (poolKeyOf pool) (some v')]
    · rcases hq : h q with e | v'
      · simp only [storeLoop, hq] at hloop
        exact Except.noConfusion hloop
      · simp only [storeLoop, hq] at hloop
        exact ih _ _ pool v hnd.2 hrest hv hloop

theorem storeLoop_all_ok {μ : Type} (h : CiliumPodIPPool → Except Err μ) :
    ∀ (pools : List CiliumPodIPPool) (acc : List (ResourceKey × Option μ)),
      (∀ q ∈ pools, ∃ v, h q = .ok v) →
      ∃ m, storeLoop h pools acc = .ok m := by
  intro pools
  induction pools with
  | nil => intro acc _; exact ⟨acc, rfl⟩
  | cons q rest ih =>
    intro acc hall
    obtain ⟨v, hv⟩ := hall q (List.mem_cons_self _ _)
    obtain ⟨m, hm⟩ := ih (insertA acc (poolKeyOf q) (some v))
      (fun q' hq' => hall q' (List.mem_cons_of_mem _ hq'))
    exact ⟨m, by simp only [storeLoop, hv]; exact hm⟩

theorem storeLoop_ok_elem {μ : Type} (h : CiliumPodIPPool → Except Err μ) :
    ∀ (pools : List CiliumPodIPPool) (acc m : List (ResourceKey × Option μ)),
      storeLoop h pools acc = .ok m → ∀ q ∈ pools, ∃ v, h q = .ok v := by
  intro pools
  induction pools with
  | nil => intro acc m _ q hq; simp at hq
  | cons q0 rest ih =>
    intro acc m hloop q hq
    rcases hq0 : h q0 with e | v
    · simp only [storeLoop, hq0] at hloop
      exact Except.noConfusion hloop
    · simp only [storeLoop, hq0] at hloop
      rcases List.mem_cons.mp hq with rfl | hrest
      · exact ⟨v, hq0⟩
      · exact ih _ _ hloop q hrest

theorem storeLoop_keys {μ : Type} (h : CiliumPodIPPool → Except Err μ) :
    ∀ (pools : List CiliumPodIPPool) (acc m : List (ResourceKey × Option μ)),
      storeLoop h pools acc = .ok m →
      ∀ k ∈ keysA m, k ∈ keysA acc ∨ k ∈ pools.map poolKeyOf := by
  intro pools
  induction pools with
  | nil =>
    intro acc m hloop k hk
    rw [storeLoop] at hloop
    injection hloop with he
    exact Or.inl (he ▸ hk)
  | cons q rest ih =>
    intro acc m hloop k hk
    rcases hq : h q with e | v
    · simp only [storeLoop, hq] at hloop
      exact Except.noConfusion hloop
    · simp only [storeLoop, hq] at hloop
      rcases ih _ _ hloop k hk with hacc | hpool
      · rcases (mem_keysA_insertA acc (poolKeyOf q) k (some v)).mp hacc with h1 | h2
        · exact Or.inr (h1 ▸ List.mem_cons_self _ _)
        · exact Or.inl h2
      · exact Or.inr (List.mem_cons_of_mem _ hpool)

theorem storeLoop_nodup {μ : Type} (h : CiliumPodIPPool → Except Err μ) :
    ∀ (pools : List CiliumPodIPPool) (acc m : List (ResourceKey × Option μ)),
      storeLoop h pools acc = .ok m → (keysA acc).Nodup → (keysA m).Nodup := by
  intro pools
  induction pools with
  | nil =>
    intro acc m hloop hnd
    rw [storeLoop] at hloop
    injection hloop with he
    exact he ▸ hnd
  | cons q rest ih =>
    intro acc m hloop hnd
    rcases hq : h q with e | v
    · simp only [storeLoop, hq] at hloop
      exact Except.noConfusion hloop
    · simp only [storeLoop, hq] at hloop
      exact ih _ _ hloop (keysA_insertA_nodup acc (poolKeyOf q) (some v) hnd)

/-! ## Claim C6 -/

/-- C6: a resource key present in the retained metadata whose pool is no
longer in the store (`GetByKey` reports non-existence) is explicitly mapped
to nil by the computed desired mapping — not omitted — in both the AF-path
and the route-policy desired maps. -/
theorem C6_deleted_pool_key_explicitly_nil (r : PodIPPoolReconciler) (instName : String)
    (adverts : PeerAdvertisements) (lp : List (String × List IPPrefix)) (kd : ResourceKey)
    (hk : storeGetByKey r.poolStore kd = .ok none) :
    (kd ∈ keysA (getMetadata r instName).PoolAFPaths →
      ∀ m, getDesiredPoolAFPaths r instName adverts lp = .ok m → lookupA m kd = some none) ∧
    (kd ∈ keysA (getMetadata r instName).PoolRoutePolicies →
      ∀ m, getDesiredPodIPPoolRoutePolicies r instName adverts lp = .ok m →
        lookupA m kd = some none) := by
  cases hstore : r.poolStore with
  | uninitialized => rw [hstore] at hk; simp [storeGetByKey] at hk
  | ready pools =>
    rw [hstore] at hk
    have hfind : pools.find? (fun pool => poolKeyOf pool == kd) = none := by
      simpa [storeGetByKey] using hk
    have hnot : ∀ q ∈ pools, poolKeyOf q ≠ kd := by
      intro q hq he
      rw [List.find?_eq_none] at hfind
      have hq' := hfind q hq
      rw [he] at hq'
      simp at hq'
    constructor
    · intro hmem m hm
      rw [getDesiredPoolAFPaths, hstore] at hm
      rcases hmk : markerLoop (StoreState.ready pools) afWrap
          (keysA (getMetadata r instName).PoolAFPaths)
          ([] : List (ResourceKey × Option AFPathsMap)) with e | acc
      · rw [hmk] at hm; simp at hm
      · rw [hmk] at hm
        simp only [storeList] at hm
        rw [storeLoop_notmem_preserve _ kd pools acc m hnot hm]
        exact markerLoop_ok_lookup _ afWrap kd hk _ _ _ hmk (Or.inl hmem)
    · intro hmem m hm
      rw [getDesiredPodIPPoolRoutePolicies, hstore] at hm
      rcases hmk : markerLoop (StoreState.ready pools) id
          (keysA (getMetadata r instName).PoolRoutePolicies)
          ([] : List (ResourceKey × Option RoutePolicyMap)) with e | acc
      · rw [hmk] at hm; simp at hm
      · rw [hmk] at hm
        simp only [storeList] at hm
        rw [storeLoop_notmem_preserve _ kd pools acc m hnot hm]
        exact markerLoop_ok_lookup _ id kd hk _ _ _ hmk (Or.inl hmem)

theorem C6_deleted_pool_key_explicitly_nil_witness :
    lookupA [((⟨"gone", "ns"⟩ : ResourceKey), (none : Option AFPathsMap))] ⟨"gone", "ns"⟩ =
      some none :=
  (C6_deleted_pool_key_explicitly_nil ⟨.ready [], [("i1", ⟨[(⟨"gone", "ns"⟩, none)], []⟩)]⟩
      "i1" [] [] ⟨"gone", "ns"⟩ rfl).1 (by decide) _ rfl

/-! ## Predicates on advertisements and per-pool derivation lemmas -/

/-- The advertisement's selector converts successfully. -/
def advertSelOK (a : BGPAdvertisement) : Bool :=
  match LabelSelectorAsSelector a.selector with
  | .ok _ => true
  | .error _ => false

def advertsSelectorsOK (adverts : PeerAdvertisements) : Bool :=
  adverts.all fun pe => pe.2.all fun fa => fa.2.all advertSelOK

/-- The peer's address is empty or parses. -/
def peerAddrOK (peer : PeerID) : Bool :=
  peer.address == "" || (netipParseAddr peer.address).isSome

def advertsPeersOK (adverts : PeerAdvertisements) : Bool :=
  adverts.all fun pe => peerAddrOK pe.1

/-- The advertisement's selector converts and does not match the pool. -/
def advertNoMatch (pool : CiliumPodIPPool) (a : BGPAdvertisement) : Bool :=
  match LabelSelectorAsSelector a.selector with
  | .ok sel => !(selMatches sel (podIPPoolLabelSet pool))
  | .error _ => false

def poolNoMatch (pool : CiliumPodIPPool) (adverts : PeerAdvertisements) : Bool :=
  adverts.all fun pe => pe.2.all fun fa => fa.2.all (advertNoMatch pool)

theorem afAdvertStep_ok_of_selOK (pool : CiliumPodIPPool) (lp : List (String × List IPPrefix))
    (fam : Family) (acc : AFPathsMap) (a : BGPAdvertisement) (h : advertSelOK a = true) :
    ∃ acc2, afAdvertStep pool lp fam acc a = .ok acc2 := by
  rw [advertSelOK] at h
  rcases hsel : LabelSelectorAsSelector a.selector with e | sel
  · rw [hsel] at h; simp at h
  · rw [afAdvertStep]
    by_cases ht : a.advertType ≠ AdvertType.podIPPool
    · exact ⟨acc, by rw [if_pos ht]⟩
    · rw [if_neg ht]
      simp only [hsel]
      by_cases hm : selMatches sel (podIPPoolLabelSet pool) = false
      · exact ⟨acc, by rw [if_pos hm]⟩
      · rw [if_neg hm]
        rcases hlp : lookupA lp pool.name with _ | prefixes
        · simp only [hlp]
          exact ⟨acc, rfl⟩
        · simp only [hlp]
          exact ⟨_, rfl⟩

theorem afAdvertStep_skip_of_noMatch (pool : CiliumPodIPPool) (lp : List (String × List IPPrefix))
    (fam : Family) (acc : AFPathsMap) (a : BGPAdvertisement)
    (h : advertNoMatch pool a = true) : afAdvertStep pool lp fam acc a = .ok acc := by
  rw [advertNoMatch] at h
  rcases hsel : LabelSelectorAsSelector a.selector with e | sel
  · rw [hsel] at h; simp at h
  · rw [hsel] at h
    simp only [Bool.not_eq_true'] at h
    rw [afAdvertStep]
    by_cases ht : a.advertType ≠ AdvertType.podIPPool
    · rw [if_pos ht]
    · rw [if_neg ht]
      simp only [hsel]
      rw [if_pos h]

theorem afAdvertLoop_ok (pool : CiliumPodIPPool) (lp : List (String × List IPPrefix))
    (fam : Family) :
    ∀ (ads : List BGPAdvertisement) (acc : AFPathsMap),
      (∀ a ∈ ads, advertSelOK a = true) →
      ∃ acc2, afAdvertLoop pool lp fam ads acc = .ok acc2 := by
  intro ads
  induction ads with
  | nil => intro acc _; exact ⟨acc, rfl⟩
  | cons a rest ih =>
    intro acc hall
    obtain ⟨acc1, hstep⟩ :=
      afAdvertStep_ok_of_selOK pool lp fam acc a (hall a (List.mem_cons_self _ _))
    obtain ⟨acc2, hloop⟩ := ih acc1 (fun a' ha' => hall a' (List.mem_cons_of_mem _ ha'))
    exact ⟨acc2, by simp only [afAdvertLoop, hstep]; exact hloop⟩

theorem afAdvertLoop_skip (pool : CiliumPodIPPool) (lp : List (String × List IPPrefix))
    (fam : Family) :
    ∀ (ads : List BGPAdvertisement) (acc : AFPathsMap),
      (∀ a ∈ ads, advertNoMatch pool a = true) →
      afAdvertLoop pool lp fam ads acc = .ok acc := by
  intro ads
  induction ads with
  | nil => intro acc _; rfl
  | cons a rest ih =>
    intro acc hall
    have hstep := afAdvertStep_skip_of_noMatch pool lp fam acc a (hall a (List.mem_cons_self _ _))
    simp only [afAdvertLoop, hstep]
    exact ih acc (fun a' ha' => hall a' (List.mem_cons_of_mem _ ha'))

theorem afFamilyLoop_ok (pool : CiliumPodIPPool) (lp : List (String × List IPPrefix)) :
    ∀ (fas : List (Family × List BGPAdvertisement)) (acc : AFPathsMap),
      (∀ fa ∈ fas, ∀ a ∈ fa.2, advertSelOK a = true) →
      ∃ acc2, afFamilyLoop pool lp fas acc = .ok acc2 := by
  intro fas
  induction fas with
  | nil => intro acc _; exact ⟨acc, rfl⟩
  | cons fa rest ih =>
    intro acc hall
    obtain ⟨acc1, hstep⟩ :=
      afAdvertLoop_ok pool lp (ToAgentFamily fa.1) fa.2 acc (hall fa (List.mem_cons_self _ _))
    obtain ⟨acc2, hloop⟩ := ih acc1 (fun fa' hfa' => hall fa' (List.mem_cons_of_mem _ hfa'))
    exact ⟨acc2, by simp only [afFamilyLoop, hstep]; exact hloop⟩

theorem afFamilyLoop_skip (pool : CiliumPodIPPool) (lp : List (String × List IPPrefix)) :
    ∀ (fas : List (Family × List BGPAdvertisement)) (acc : AFPathsMap),
      (∀ fa ∈ fas, ∀ a ∈ fa.2, advertNoMatch pool a = true) →
      afFamilyLoop pool lp fas acc = .ok acc := by
  intro fas
  induction fas with
  | nil => intro acc _; rfl
  | cons fa rest ih =>
    intro acc hall
    have hstep := afAdvertLoop_skip pool lp (ToAgentFamily fa.1) fa.2 acc
      (hall fa (List.mem_cons_self _ _))
    simp only [afFamilyLoop, hstep]
    exact ih acc (fun fa' hfa' => hall fa' (List.mem_cons_of_mem _ hfa'))

theorem getDesiredAFPaths_ok (pool : CiliumPodIPPool) (adverts : PeerAdvertisements)
    (lp : List (String × List IPPrefix)) (hsel : advertsSelectorsOK adverts = true) :
    ∃ v, getDesiredAFPaths pool adverts lp = .ok v := by
  rw [advertsSelectorsOK, List.all_eq_true] at hsel
  rw [getDesiredAFPaths]
  suffices hgen : ∀ (pes : PeerAdvertisements) (acc : AFPathsMap),
      (∀ pe ∈ pes, ∀ fa ∈ pe.2, ∀ a ∈ fa.2, advertSelOK a = true) →
      ∃ v, afPeerLoop pool lp pes acc = .ok v by
    apply hgen adverts []
    intro pe hpe fa hfa a ha
    have h1 := hsel pe hpe
    rw [List.all_eq_true] at h1
    have h2 := h1 fa hfa
    rw [List.all_eq_true] at h2
    exact h2 a ha
  intro pes
  induction pes with
  | nil => intro acc _; exact ⟨acc, rfl⟩
  | cons pe rest ih =>
    intro acc hall
    obtain ⟨acc1, hstep⟩ := afFamilyLoop_ok pool lp pe.2 acc (hall pe (List.mem_cons_self _ _))
    obtain ⟨acc2, hloop⟩ := ih acc1 (fun pe' hpe' => hall pe' (List.mem_cons_of_mem _ hpe'))
    exact ⟨acc2, by simp only [afPeerLoop, hstep]; exact hloop⟩

theorem getDesiredAFPaths_noMatch (pool : CiliumPodIPPool) (adverts : PeerAdvertisements)
    (lp : List (String × List IPPrefix)) (hnm : poolNoMatch pool adverts = true) :
    getDesiredAFPaths pool adverts lp = .ok [] := by
  rw [poolNoMatch, List.all_eq_true] at hnm
  rw [getDesiredAFPaths]
  suffices hgen : ∀ (pes : PeerAdvertisements) (acc : AFPathsMap),
      (∀ pe ∈ pes, ∀ fa ∈ pe.2, ∀ a ∈ fa.2, advertNoMatch pool a = true) →
      afPeerLoop pool lp pes acc = .ok acc by
    apply hgen adverts []
    intro pe hpe fa hfa a ha
    have h1 := hnm pe hpe
    rw [List.all_eq_true] at h1
    have h2 := h1 fa hfa
    rw [List.all_eq_true] at h2
    exact h2 a ha
  intro pes
  induction pes with
  | nil => intro acc _; rfl
  | cons pe rest ih =>
    intro acc hall
    have hstep := afFamilyLoop_skip pool lp pe.2 acc (hall pe (List.mem_cons_self _ _))
    simp only [afPeerLoop, hstep]
    exact ih acc (fun pe' hpe' => hall pe' (List.mem_cons_of_mem _ hpe'))

theorem getPodIPPoolPolicy_ok (peer : PeerID) (fam : Family) (pool : CiliumPodIPPool)
    (a : BGPAdvertisement) (lp : List (String × List IPPrefix))
    (hp : peerAddrOK peer = true) (hs : advertSelOK a = true) :
    ∃ v, getPodIPPoolPolicy peer fam pool a lp = .ok v := by
  rw [getPodIPPoolPolicy]
  by_cases he : peer.address = ""
  · exact ⟨none, by rw [if_pos he]⟩
  · rw [if_neg he]
    rw [peerAddrOK] at hp
    rcases haddr : netipParseAddr peer.address with _ | addr
    · exfalso
      rw [Bool.or_eq_true] at hp
      rcases hp with h1 | h2
      · exact he (by simpa using h1)
      · rw [haddr] at h2; simp at h2
    · simp only [haddr]
      rw [advertSelOK] at hs
      rcases hsel : LabelSelectorAsSelector a.selector with e | sel
      · rw [hsel] at hs; simp at hs
      · simp only [hsel]
        by_cases hm : selMatches sel (podIPPoolLabelSet pool) = false
        · exact ⟨none, by rw [if_pos hm]⟩
        · rw [if_neg hm]
          rcases hlp : lookupA lp pool.name with _ | prefixes
          · simp only [hlp]
            exact ⟨none, rfl⟩
          · simp only [hlp]
            by_cases hemp : (prefixes.foldl (fun acc pfx =>
                if fam.afi = .ipv4 ∧ pfx.addr.is4 = true then
                  acc ++ [⟨pfx, pool.v4MaskSize, pool.v4MaskSize⟩] else acc)
                ([] : List RoutePolicyPrefixMatch)).isEmpty = true ∧
              (prefixes.foldl (fun acc pfx =>
                if fam.afi = .ipv6 ∧ pfx.addr.is6 = true then
                  acc ++ [⟨pfx, pool.v6MaskSize, pool.v6MaskSize⟩] else acc)
                ([] : List RoutePolicyPrefixMatch)).isEmpty = true
            · exact ⟨none, by rw [if_pos hemp]⟩
            · rw [if_neg hemp]
              exact ⟨_, rfl⟩

theorem getPodIPPoolPolicy_none_of_noMatch (peer : PeerID) (fam : Family)
    (pool : CiliumPodIPPool) (a : BGPAdvertisement) (lp : List (String × List IPPrefix))
    (hp : peerAddrOK peer = true) (hnm : advertNoMatch pool a = true) :
    getPodIPPoolPolicy peer fam pool a lp = .ok none := by
  rw [getPodIPPoolPolicy]
  by_cases he : peer.address = ""
  · rw [if_pos he]
  · rw [if_neg he]
    rw [peerAddrOK] at hp
    rcases haddr : netipParseAddr peer.address with _ | addr
    · exfalso
      rw [Bool.or_eq_true] at hp
      rcases hp with h1 | h2
      · exact he (by simpa using h1)
      · rw [haddr] at h2; simp at h2
    · simp only [haddr]
      rw [advertNoMatch] at hnm
      rcases hsel : LabelSelectorAsSelector a.selector with e | sel
      · rw [hsel] at hnm; simp at hnm
      · rw [hsel] at hnm
        simp only [Bool.not_eq_true'] at hnm
        simp only [hsel]
        rw [if_pos hnm]

theorem getPodIPPoolPolicies_ok (pool : CiliumPodIPPool) (adverts : PeerAdvertisements)
    (lp : List (String × List IPPrefix)) (hsel : advertsSelectorsOK adverts = true)
    (hpeer : advertsPeersOK adverts = true) :
    ∃ v, getPodIPPoolPolicies pool adverts lp = .ok v := by
  rw [advertsSelectorsOK, List.all_eq_true] at hsel
  rw [advertsPeersOK, List.all_eq_true] at hpeer
  rw [getPodIPPoolPolicies]
  suffices hadv : ∀ (peer : PeerID) (fam : Family)
      (ads : List BGPAdvertisement) (acc : RoutePolicyMap),
      peerAddrOK peer = true → (∀ a ∈ ads, advertSelOK a = true) →
      ∃ v, rpAdvertLoop peer fam pool lp ads acc = .ok v by
    suffices hfam : ∀ (peer : PeerID) (fas : List (Family × List BGPAdvertisement))
        (acc : RoutePolicyMap),
        peerAddrOK peer = true → (∀ fa ∈ fas, ∀ a ∈ fa.2, advertSelOK a = true) →
        ∃ v, rpFamilyLoop peer pool lp fas acc = .ok v by
      suffices hpeerl : ∀ (pes : PeerAdvertisements) (acc : RoutePolicyMap),
          (∀ pe ∈ pes, peerAddrOK pe.1 = true) →
          (∀ pe ∈ pes, ∀ fa ∈ pe.2, ∀ a ∈ fa.2, advertSelOK a = true) →
          ∃ v, rpPeerLoop pool lp pes acc = .ok v by
        apply hpeerl adverts []
        · exact fun pe hpe => hpeer pe hpe
        · intro pe hpe fa hfa a ha
          have h1 := hsel pe hpe
          rw [List.all_eq_true] at h1
          have h2 := h1 fa hfa
          rw [List.all_eq_true] at h2
          exact h2 a ha
      intro pes
      induction pes with
      | nil => intro acc _ _; exact ⟨acc, rfl⟩
      | cons pe rest ih =>
        intro acc hp1 hs1
        obtain ⟨acc1, hstep⟩ := hfam pe.1 pe.2 acc (hp1 pe (List.mem_cons_self _ _))
          (hs1 pe (List.mem_cons_self _ _))
        obtain ⟨acc2, hloop⟩ := ih acc1 (fun pe' hpe' => hp1 pe' (List.mem_cons_of_mem _ hpe'))
          (fun pe' hpe' => hs1 pe' (List.mem_cons_of_mem _ hpe'))
        exact ⟨acc2, by simp only [rpPeerLoop, hstep]; exact hloop⟩
    intro peer fas
    induction fas with
    | nil => intro acc _ _; exact ⟨acc, rfl⟩
    | cons fa rest ih =>
      intro acc hpok hs1
      obtain ⟨acc1, hstep⟩ := hadv peer (ToAgentFamily fa.1) fa.2 acc hpok
        (hs1 fa (List.mem_cons_self _ _))
      obtain ⟨acc2, hloop⟩ := ih acc1 hpok (fun fa' hfa' => hs1 fa' (List.mem_cons_of_mem _ hfa'))
      exact ⟨acc2, by simp only [rpFamilyLoop, hstep]; exact hloop⟩
  intro peer fam ads
  induction ads with
  | nil => intro acc _ _; exact ⟨acc, rfl⟩
  | cons a rest ih =>
    intro acc hpok hs1
    obtain ⟨v, hstep⟩ := getPodIPPoolPolicy_ok peer fam pool a lp hpok
      (hs1 a (List.mem_cons_self _ _))
    obtain ⟨acc2, hloop⟩ :=
      (match v, hstep with
       | none, hstep => by
          obtain ⟨acc2, hloop⟩ := ih acc hpok (fun a' ha' => hs1 a' (List.mem_cons_of_mem _ ha'))
          exact ⟨acc2, by simp only [rpAdvertLoop, hstep]; exact hloop⟩
       | some policy, hstep => by
          obtain ⟨acc2, hloop⟩ := ih (insertA acc policy.name policy) hpok
            (fun a' ha' => hs1 a' (List.mem_cons_of_mem _ ha'))
          exact ⟨acc2, by simp only [rpAdvertLoop, hstep]; exact hloop⟩ :
        ∃ acc2, rpAdvertLoop peer fam pool lp (a :: rest) acc = .ok acc2)
    exact ⟨acc2, hloop⟩

theorem getPodIPPoolPolicies_noMatch (pool : CiliumPodIPPool) (adverts : PeerAdvertisements)
    (lp : List (String × List IPPrefix)) (hpeer : advertsPeersOK adverts = true)
    (hnm : poolNoMatch pool adverts = true) :
    getPodIPPoolPolicies pool adverts lp = .ok [] := by
  rw [advertsPeersOK, List.all_eq_true] at hpeer
  rw [poolNoMatch, List.all_eq_true] at hnm
  rw [getPodIPPoolPolicies]
  suffices hpeerl : ∀ (pes : PeerAdvertisements) (acc : RoutePolicyMap),
      (∀ pe ∈ pes, peerAddrOK pe.1 = true) →
      (∀ pe ∈ pes, ∀ fa ∈ pe.2, ∀ a ∈ fa.2, advertNoMatch pool a = true) →
      rpPeerLoop pool lp pes acc = .ok acc by
    apply hpeerl adverts []
    · exact fun pe hpe => hpeer pe hpe
    · intro pe hpe fa hfa a ha
      have h1 := hnm pe hpe
      rw [List.all_eq_true] at h1
      have h2 := h1 fa hfa
      rw [List.all_eq_true] at h2
      exact h2 a ha
  have hadv : ∀ (peer : PeerID) (fam : Family) (ads : List BGPAdvertisement)
      (acc : RoutePolicyMap), peerAddrOK peer = true →
      (∀ a ∈ ads, advertNoMatch pool a = true) →
      rpAdvertLoop peer fam pool lp ads acc = .ok acc := by
    intro peer fam ads
    induction ads with
    | nil => intro acc _ _; rfl
    | cons a rest ih =>
      intro acc hpok h1
      have hstep := getPodIPPoolPolicy_none_of_noMatch peer fam pool a lp hpok
        (h1 a (List.mem_cons_self _ _))
      simp only [rpAdvertLoop, hstep]
      exact ih acc hpok (fun a' ha' => h1 a' (List.mem_cons_of_mem _ ha'))
  have hfam : ∀ (peer : PeerID) (fas : List (Family × List BGPAdvertisement))
      (acc : RoutePolicyMap), peerAddrOK peer = true →
      (∀ fa ∈ fas, ∀ a ∈ fa.2, advertNoMatch pool a = true) →
      rpFamilyLoop peer pool lp fas acc = .ok acc := by
    intro peer fas
    induction fas with
    | nil => intro acc _ _; rfl
    | cons fa rest ih =>
      intro acc hpok h1
      have hstep := hadv peer (ToAgentFamily fa.1) fa.2 acc hpok (h1 fa (List.mem_cons_self _ _))
      simp only [rpFamilyLoop, hstep]
      exact ih acc hpok (fun fa' hfa' => h1 fa' (List.mem_cons_of_mem _ hfa'))
  intro pes
  induction pes with
  | nil => intro acc _ _; rfl
  | cons pe rest ih =>
    intro acc hp1 h1
    have hstep := hfam pe.1 pe.2 acc (hp1 pe (List.mem_cons_self _ _))
      (h1 pe (List.mem_cons_self _ _))
    simp only [rpPeerLoop, hstep]
    exact ih acc (fun pe' hpe' => hp1 pe' (List.mem_cons_of_mem _ hpe'))
      (fun pe' hpe' => h1 pe' (List.mem_cons_of_mem _ hpe'))

/-! ## Claim C5 -/

def c5pool : CiliumPodIPPool := ⟨"P", "ns", [], 24, 120⟩

def c5r : PodIPPoolReconciler := ⟨.ready [c5pool], [("i1", ⟨[], []⟩)]⟩

/-- C5 counterexample: with one pool in the store and no advertisements at
all — so the pool matches no advertisement's label selector — both desired
mappings still contain an entry for the pool's resource key, mapping it to an
explicitly empty value, instead of omitting the key as the claim states. -/
theorem C5_counterexample_nonmatching_pool_has_entry :
    (getDesiredPoolAFPaths c5r "i1" [] [] = .ok [(⟨"P", "ns"⟩, some [])] ∧
      lookupA [((⟨"P", "ns"⟩ : ResourceKey), (some [] : Option AFPathsMap))] ⟨"P", "ns"⟩ ≠
        none) ∧
    (getDesiredPodIPPoolRoutePolicies c5r "i1" [] [] = .ok [(⟨"P", "ns"⟩, some [])] ∧
      lookupA [((⟨"P", "ns"⟩ : ResourceKey), (some [] : Option RoutePolicyMap))] ⟨"P", "ns"⟩ ≠
        none) :=
  ⟨⟨rfl, by decide⟩, ⟨rfl, by decide⟩⟩

/-- C5 (amended): a pool returned by the store that matches no
advertisement's label selector produces, in both desired mappings, an entry
mapping its resource key to an explicitly empty (non-nil) value — an empty
entry rather than absence — whenever every selector converts and every peer
address is empty or parseable, so that the derivation completes. -/
theorem C5_amended_nonmatching_pool_yields_empty_entry (r : PodIPPoolReconciler)
    (pools : List CiliumPodIPPool) (instName : String) (adverts : PeerAdvertisements)
    (lp : List (String × List IPPrefix)) (pool : CiliumPodIPPool)
    (hstore : r.poolStore = .ready pools) (hnd : (pools.map poolKeyOf).Nodup)
    (hmem : pool ∈ pools)
    (hsel : advertsSelectorsOK adverts = true)
    (hpeer : advertsPeersOK adverts = true)
    (hnomatch : poolNoMatch pool adverts = true) :
    (∃ m, getDesiredPoolAFPaths r instName adverts lp = .ok m ∧
      lookupA m (poolKeyOf pool) = some (some [])) ∧
    (∃ m, getDesiredPodIPPoolRoutePolicies r instName adverts lp = .ok m ∧
      lookupA m (poolKeyOf pool) = some (some [])) := by
  constructor
  · obtain ⟨acc, hmk⟩ := markerLoop_ready_ok pools afWrap
      (keysA (getMetadata r instName).PoolAFPaths) ([] : List (ResourceKey × Option AFPathsMap))
    obtain ⟨m, hm⟩ := storeLoop_all_ok (fun q => getDesiredAFPaths q adverts lp) pools acc
      (fun q _ => getDesiredAFPaths_ok q adverts lp hsel)
    refine ⟨m, ?_, ?_⟩
    · rw [getDesiredPoolAFPaths, hstore, hmk]
      simp only [storeList]
      exact hm
    · exact storeLoop_lookup_mem _ pools acc m pool [] hnd hmem
        (getDesiredAFPaths_noMatch pool adverts lp hnomatch) hm
  · obtain ⟨acc, hmk⟩ := markerLoop_ready_ok pools id
      (keysA (getMetadata r instName).PoolRoutePolicies)
      ([] : List (ResourceKey × Option RoutePolicyMap))
    obtain ⟨m, hm⟩ := storeLoop_all_ok (fun q => getPodIPPoolPolicies q adverts lp) pools acc
      (fun q _ => getPodIPPoolPolicies_ok q adverts lp hsel hpeer)
    refine ⟨m, ?_, ?_⟩
    · rw [getDesiredPodIPPoolRoutePolicies, hstore, hmk]
      simp only [storeList]
      exact hm
    · exact storeLoop_lookup_mem _ pools acc m pool [] hnd hmem
        (getPodIPPoolPolicies_noMatch pool adverts lp hpeer hnomatch) hm

theorem C5_amended_nonmatching_pool_yields_empty_entry_witness :
    (∃ m, getDesiredPoolAFPaths c5r "i1" [] [] = .ok m ∧
      lookupA m (poolKeyOf c5pool) = some (some [])) ∧
    (∃ m, getDesiredPodIPPoolRoutePolicies c5r "i1" [] [] = .ok m ∧
      lookupA m (poolKeyOf c5pool) = some (some [])) :=
  C5_amended_nonmatching_pool_yields_empty_entry c5r [c5pool] "i1" [] [] c5pool rfl
    (by decide) (by decide) rfl rfl rfl

/-! ## Claim C7 -/

theorem foldl_insertA_notmem {α β γ : Type} [DecidableEq α] (key : γ → α) (val : γ → β) :
    ∀ (xs : List γ) (init : List (α × β)) (k : α), k ∉ xs.map key →
      lookupA (xs.foldl (fun acc y => insertA acc (key y) (val y)) init) k = lookupA init k := by
  intro xs
  induction xs with
  | nil => intro init k _; rfl
  | cons x rest ih =>
    intro init k hk
    rw [List.map_cons] at hk
    have h1 : k ≠ key x := fun he => hk (he ▸ List.mem_cons_self _ _)
    have h2 : k ∉ rest.map key := fun hm => hk (List.mem_cons_of_mem _ hm)
    rw [List.foldl_cons, ih _ k h2, lookupA_insertA_ne init (val x) h1]

theorem foldl_insertA_mem {α β γ : Type} [DecidableEq α] (key : γ → α) (val : γ → β) :
    ∀ (xs : List γ) (init : List (α × β)) (x : γ), (xs.map key).Nodup → x ∈ xs →
      lookupA (xs.foldl (fun acc y => insertA acc (key y) (val y)) init) (key x) =
        some (val x) := by
  intro xs
  induction xs with
  | nil => intro init x _ hx; simp at hx
  | cons x0 rest ih =>
    intro init x hnd hx
    rw [List.map_cons, List.nodup_cons] at hnd
    rcases List.mem_cons.mp hx with rfl | hrest
    · rw [List.foldl_cons, foldl_insertA_notmem key val rest _ (key x) hnd.1,
        lookupA_insertA_self init (key x) (val x)]
    · rw [List.foldl_cons]
      exact ih _ x hnd.2 hrest

theorem cidr_fold_eq_filterMap :
    ∀ (cidrs : List CIDRString) (init : List IPPrefix),
      cidrs.foldl (fun acc cidr =>
        match cidr.toPfx with
        | .ok p => acc ++ [p]
        | .error _ => acc) init =
      init ++ cidrs.filterMap (fun c =>
        match c.toPfx with
        | .ok p => some p
        | .error _ => none) := by
  intro cidrs
  induction cidrs with
  | nil => intro init; simp
  | cons c rest ih =>
    intro init
    rw [List.foldl_cons]
    rcases hc : c.toPfx with e | p
    · simp only [hc, List.filterMap_cons]
      exact ih init
    · simp only [hc, List.filterMap_cons]
      rw [ih (init ++ [p]), List.append_assoc]
      rfl

theorem populateLocalPools_lookup (node : CiliumNode) (alloc : IPAMPoolAllocation)
    (hnd : (node.allocatedPools.map (fun al => al.pool)).Nodup)
    (hmem : alloc ∈ node.allocatedPools) :
    lookupA (populateLocalPools (some node)) alloc.pool =
      some (alloc.cidrs.filterMap fun c =>
        match c.toPfx with | .ok p => some p | .error _ => none) := by
  simp only [populateLocalPools]
  have h2 : (alloc.cidrs.filterMap fun c =>
      match c.toPfx with | .ok p => some p | .error _ => none) =
      alloc.cidrs.foldl (fun acc cidr =>
        match cidr.toPfx with
        | .ok p => acc ++ [p]
        | .error _ => acc) [] := by
    rw [cidr_fold_eq_filterMap alloc.cidrs []]
    rfl
  rw [h2]
  exact foldl_insertA_mem (fun al : IPAMPoolAllocation => al.pool)
    (fun al : IPAMPoolAllocation => al.cidrs.foldl (fun acc cidr =>
      match cidr.toPfx with
      | .ok p => acc ++ [p]
      | .error _ => acc) []) node.allocatedPools [] alloc hnd hmem

theorem afAdvertLoop_error_of_malformed (pool : CiliumPodIPPool)
    (lp : List (String × List IPPrefix)) (fam : Family) :
    ∀ (ads : List BGPAdvertisement) (acc : AFPathsMap) (a : BGPAdvertisement) (msg : String),
      a ∈ ads → a.advertType = .podIPPool → a.selector = .malformed msg →
      ∃ e, afAdvertLoop pool lp fam ads acc = .error e := by
  intro ads
  induction ads with
  | nil => intro acc a msg hmem _ _; simp at hmem
  | cons a0 rest ih =>
    intro acc a msg hmem ht hs
    rcases hstep : afAdvertStep pool lp fam acc a0 with e | acc1
    · exact ⟨e, by simp only [afAdvertLoop, hstep]⟩
    · rcases List.mem_cons.mp hmem with rfl | hrest
      · exfalso
        rw [afAdvertStep, if_neg (by simp [ht] : ¬ a.advertType ≠ AdvertType.podIPPool),
          hs] at hstep
        simp only [LabelSelectorAsSelector] at hstep
        exact Except.noConfusion hstep
      · obtain ⟨e, herr⟩ := ih acc1 a msg hrest ht hs
        exact ⟨e, by simp only [afAdvertLoop, hstep]; exact herr⟩

theorem afFamilyLoop_error_of_malformed (pool : CiliumPodIPPool)
    (lp : List (String × List IPPrefix)) :
    ∀ (fas : List (Family × List BGPAdvertisement)) (acc : AFPathsMap)
      (fa : Family × List BGPAdvertisement) (a : BGPAdvertisement) (msg : String),
      fa ∈ fas → a ∈ fa.2 → a.advertType = .podIPPool → a.selector = .malformed msg →
      ∃ e, afFamilyLoop pool lp fas acc = .error e := by
  intro fas
  induction fas with
  | nil => intro acc fa a msg hmem _ _ _; simp at hmem
  | cons fa0 rest ih =>
    intro acc fa a msg hmem ha ht hs
    rcases hstep : afAdvertLoop pool lp (ToAgentFamily fa0.1) fa0.2 acc with e | acc1
    · exact ⟨e, by simp only [afFamilyLoop, hstep]⟩
    · rcases List.mem_cons.mp hmem with rfl | hrest
      · exfalso
        obtain ⟨e, herr⟩ :=
          afAdvertLoop_error_of_malformed pool lp (ToAgentFamily fa.1) fa.2 acc a msg ha ht hs
        rw [hstep] at herr
        exact Except.noConfusion herr
      · obtain ⟨e, herr⟩ := ih acc1 fa a msg hrest ha ht hs
        exact ⟨e, by simp only [afFamilyLoop, hstep]; exact herr⟩

theorem getDesiredAFPaths_error_of_malformed (pool : CiliumPodIPPool)
    (adverts : PeerAdvertisements) (lp : List (String × List IPPrefix))
    (pe : PeerID × List (Family × List BGPAdvertisement))
    (fa : Family × List BGPAdvertisement) (a : BGPAdvertisement) (msg : String)
    (hpe : pe ∈ adverts) (hfa : fa ∈ pe.2) (ha : a ∈ fa.2)
    (ht : a.advertType = .podIPPool) (hs : a.selector = .malformed msg) :
    ∃ e, getDesiredAFPaths pool adverts lp = .error e := by
  rw [getDesiredAFPaths]
  suffices hgen : ∀ (pes : PeerAdvertisements) (acc : AFPathsMap),
      pe ∈ pes → ∃ e, afPeerLoop pool lp pes acc = .error e by
    exact hgen adverts [] hpe
  intro pes
  induction pes with
  | nil => intro acc hmem; simp at hmem
  | cons pe0 rest ih =>
    intro acc hmem
    rcases hstep : afFamilyLoop pool lp pe0.2 acc with e | acc1
    · exact ⟨e, by simp only [afPeerLoop, hstep]⟩
    · rcases List.mem_cons.mp hmem with rfl | hrest
      · exfalso
        obtain ⟨e, herr⟩ :=
          afFamilyLoop_error_of_malformed pool lp pe.2 acc fa a msg hfa ha ht hs
        rw [hstep] at herr
        exact Except.noConfusion herr
      · obtain ⟨e, herr⟩ := ih acc1 hrest
        exact ⟨e, by simp only [afPeerLoop, hstep]; exact herr⟩

def c7pool : CiliumPodIPPool := ⟨"P", "ns", [], 24, 120⟩

def c7adverts : PeerAdvertisements :=
  [(⟨"peer1", "192.0.2.1"⟩, [(⟨.ipv4⟩,
    [⟨.podIPPool, .valid []⟩, ⟨.podIPPool, .malformed "bad"⟩])])]

def c7node : CiliumNode := ⟨[⟨"P", [.valid ⟨.v4 167772160, 24⟩]⟩]⟩

def c7r : PodIPPoolReconciler := ⟨.ready [c7pool], [("i1", ⟨[], []⟩)]⟩

def c7p : ReconcileParams :=
  ⟨some ⟨"i1", c7adverts⟩, some c7node, some ⟨"i1", ⟨fun _ => true, fun _ => true⟩⟩⟩

/-- C7 counterexample: an advertisement whose label selector fails to convert
is not skipped — even though another, well-formed advertisement of the same
type matches the pool, the AF-path derivation returns the conversion error,
and the whole `Reconcile` pass aborts with it: no apply is issued and the
metadata is unchanged. -/
theorem C7_counterexample_malformed_selector_aborts_pass :
    getDesiredAFPaths c7pool c7adverts (populateLocalPools (some c7node)) =
      .error .selectorConvert ∧
    (Reconcile c7r c7p).2.1 = [] ∧
    (Reconcile c7r c7p).2.2 = some .selectorConvert ∧
    (Reconcile c7r c7p).1.metadata = c7r.metadata :=
  ⟨rfl, by decide, by decide, by decide⟩

/-- C7 (amended): a local-pool CIDR string that fails to parse is logged and
only that CIDR is skipped — the pool's other prefixes are kept and the pass
continues — but an advertisement of this reconciler's type whose label
selector fails to convert is not skipped: the AF-path derivation returns an
error, aborting the whole pass. -/
theorem C7_amended_cidr_skipped_but_selector_error_aborts :
    (∀ (node : CiliumNode) (alloc : IPAMPoolAllocation),
      (node.allocatedPools.map (fun al => al.pool)).Nodup →
      alloc ∈ node.allocatedPools →
      lookupA (populateLocalPools (some node)) alloc.pool =
        some (alloc.cidrs.filterMap fun c =>
          match c.toPfx with | .ok p => some p | .error _ => none)) ∧
    (∀ (pool : CiliumPodIPPool) (adverts : PeerAdvertisements)
      (lp : List (String × List IPPrefix))
      (pe : PeerID × List (Family × List BGPAdvertisement))
      (fa : Family × List BGPAdvertisement) (a : BGPAdvertisement) (msg : String),
      pe ∈ adverts → fa ∈ pe.2 → a ∈ fa.2 →
      a.advertType = .podIPPool → a.selector = .malformed msg →
      ∃ e, getDesiredAFPaths pool adverts lp = .error e) :=
  ⟨populateLocalPools_lookup,
   fun pool adverts lp pe fa a msg hpe hfa ha ht hs =>
    getDesiredAFPaths_error_of_malformed pool adverts lp pe fa a msg hpe hfa ha ht hs⟩

theorem C7_amended_cidr_skipped_but_selector_error_aborts_witness :
    lookupA (populateLocalPools (some
        ⟨[⟨"P", [.valid ⟨.v4 167772160, 24⟩, .invalid "zzz"]⟩]⟩)) "P" =
      some [⟨.v4 167772160, 24⟩] ∧
    ∃ e, getDesiredAFPaths c7pool c7adverts [] = .error e := by
  constructor
  · have h := C7_amended_cidr_skipped_but_selector_error_aborts.1
      ⟨[⟨"P", [.valid ⟨.v4 167772160, 24⟩, .invalid "zzz"]⟩]⟩
      ⟨"P", [.valid ⟨.v4 167772160, 24⟩, .invalid "zzz"]⟩ (by decide) (by decide)
    exact h.trans (by decide)
  · exact C7_amended_cidr_skipped_but_selector_error_aborts.2 c7pool c7adverts []
      (⟨"peer1", "192.0.2.1"⟩,
        [(⟨.ipv4⟩, [⟨.podIPPool, .valid []⟩, ⟨.podIPPool, .malformed "bad"⟩])])
      (⟨.ipv4⟩, [⟨.podIPPool, .valid []⟩, ⟨.podIPPool, .malformed "bad"⟩])
      ⟨.podIPPool, .malformed "bad"⟩ "bad"
      (by decide) (by decide) (by decide) (by decide) (by decide)

/-! ## Characterization of the AF-path diff/apply engine -/

theorem hasO_joinO (a b : Option Err) (t : Err) :
    hasO (joinO a b) t = (hasO a t || hasO b t) := by
  cases a with
  | none => cases b <;> simp [joinO, hasO]
  | some ea =>
    cases b with
    | none => simp [joinO, hasO]
    | some eb => simp [joinO, hasO, Err.has]

theorem joinO_none_none : joinO none none = none := rfl

theorem afCont_nil_of_not_mem (m : ResourceAFPathsMap) (k : ResourceKey)
    (h : k ∉ keysA m) : afCont m k = [] := by
  rw [afCont, lookupA_eq_none_of_not_mem_keysA m k h]
  rfl

/-- The binding the AF-path engine produces for one key. -/
def afKeyBinding (rt : Router) (desired current : ResourceAFPathsMap) (k : ResourceKey) :
    Option (Option AFPathsMap) :=
  if afmEqv (afCont desired k) (afCont current k) then lookupA current k
  else if rt.afOk k then
    (if afmIsEmpty (afCont desired k) then none else some (some (afCont desired k)))
  else lookupA current k

theorem lookupA_curBindingAF (c : ResourceAFPathsMap) (k : ResourceKey) :
    lookupA (curBindingAF c k) k = lookupA c k := by
  rcases h : lookupA c k with _ | v
  · simp [curBindingAF, h, lookupA]
  · simp [curBindingAF, h, lookupA]

theorem curBindingAF_keys (c : ResourceAFPathsMap) (k : ResourceKey) :
    ∀ e ∈ curBindingAF c k, e.1 = k := by
  rcases h : lookupA c k with _ | v
  · simp [curBindingAF, h]
  · intro e he
    simp only [curBindingAF, h, List.mem_singleton] at he
    rw [he]

theorem afProcessKey_keys (rt : Router) (d c : ResourceAFPathsMap) (k : ResourceKey) :
    ∀ e ∈ (afProcessKey rt d c k).1, e.1 = k := by
  simp only [afProcessKey]
  by_cases h1 : afmEqv (afCont d k) (afCont c k) = true
  · rw [if_pos h1]
    exact curBindingAF_keys c k
  · rw [if_neg h1]
    by_cases h2 : rt.afOk k = true
    · rw [if_pos h2]
      by_cases h3 : afmIsEmpty (afCont d k) = true
      · rw [if_pos h3]; simp
      · rw [if_neg h3]
        intro e he
        simp only [List.mem_singleton] at he
        rw [he]
    · rw [if_neg h2]
      exact curBindingAF_keys c k

theorem afProcessKey_lookup_self (rt : Router) (d c : ResourceAFPathsMap) (k : ResourceKey) :
    lookupA (afProcessKey rt d c k).1 k = afKeyBinding rt d c k := by
  simp only [afProcessKey, afKeyBinding]
  by_cases h1 : afmEqv (afCont d k) (afCont c k) = true
  · rw [if_pos h1, if_pos h1]
    exact lookupA_curBindingAF c k
  · rw [if_neg h1, if_neg h1]
    by_cases h2 : rt.afOk k = true
    · rw [if_pos h2, if_pos h2]
      by_cases h3 : afmIsEmpty (afCont d k) = true
      · rw [if_pos h3, if_pos h3]; rfl
      · rw [if_neg h3, if_neg h3]
        simp [lookupA]
    · rw [if_neg h2, if_neg h2]
      exact lookupA_curBindingAF c k

theorem afProcessKey_ops (rt : Router) (d c : ResourceAFPathsMap) (k : ResourceKey) :
    (afProcessKey rt d c k).2.1 =
      (if afmEqv (afCont d k) (afCont c k) then []
       else [.afApply k (afCont d k)]) := by
  simp only [afProcessKey]
  by_cases h1 : afmEqv (afCont d k) (afCont c k) = true
  · rw [if_pos h1, if_pos h1]
  · rw [if_neg h1, if_neg h1]
    by_cases h2 : rt.afOk k = true
    · rw [if_pos h2]
    · rw [if_neg h2]

theorem afProcessKey_err (rt : Router) (d c : ResourceAFPathsMap) (k : ResourceKey) :
    (afProcessKey rt d c k).2.2 =
      (if afmEqv (afCont d k) (afCont c k) then none
       else if rt.afOk k then none else some (.applyFailed k)) := by
  simp only [afProcessKey]
  by_cases h1 : afmEqv (afCont d k) (afCont c k) = true
  · rw [if_pos h1, if_pos h1]
  · rw [if_neg h1, if_neg h1]
    by_cases h2 : rt.afOk k = true
    · rw [if_pos h2, if_pos h2]
    · rw [if_neg h2, if_neg h2]

theorem afEngineGo_keys (rt : Router) (d c : ResourceAFPathsMap) :
    ∀ (ks : List ResourceKey), ∀ e ∈ (afEngineGo rt d c ks).1, e.1 ∈ ks := by
  intro ks
  induction ks with
  | nil => intro e he; simp [afEngineGo] at he
  | cons k rest ih =>
    intro e he
    simp only [afEngineGo] at he
    rcases List.mem_append.mp he with h1 | h2
    · exact (afProcessKey_keys rt d c k e h1) ▸ List.mem_cons_self _ _
    · exact List.mem_cons_of_mem _ (ih e h2)

theorem afEngineGo_lookup_mem (rt : Router) (d c : ResourceAFPathsMap) :
    ∀ (ks : List ResourceKey), ks.Nodup → ∀ k ∈ ks,
      lookupA (afEngineGo rt d c ks).1 k = afKeyBinding rt d c k := by
  intro ks
  induction ks with
  | nil => intro _ k hk; simp at hk
  | cons k0 rest ih =>
    intro hnd k hk
    rw [List.nodup_cons] at hnd
    simp only [afEngineGo]
    rw [lookupA_append]
    rcases List.mem_cons.mp hk with rfl | hrest
    · rw [afProcessKey_lookup_self rt d c k]
      rcases hb : afKeyBinding rt d c k with _ | v
      · have : lookupA (afEngineGo rt d c rest).1 k = none := by
          apply lookupA_eq_none_of_not_mem_keysA
          intro hmem
          obtain ⟨e, he, he1⟩ := List.mem_map.mp hmem
          exact hnd.1 (he1 ▸ afEngineGo_keys rt d c rest e he)
        rw [this]
      · rfl
    · have hne : k ≠ k0 := fun he => hnd.1 (he ▸ hrest)
      have : lookupA (afProcessKey rt d c k0).1 k = none := by
        apply lookupA_eq_none_of_not_mem_keysA
        intro hmem
        obtain ⟨e, he, he1⟩ := List.mem_map.mp hmem
        exact hne (he1 ▸ afProcessKey_keys rt d c k0 e he)
      rw [this]
      exact ih hnd.2 k hrest

theorem afEngineGo_lookup_notmem (rt : Router) (d c : ResourceAFPathsMap) :
    ∀ (ks : List ResourceKey), ∀ k, k ∉ ks → lookupA (afEngineGo rt d c ks).1 k = none := by
  intro ks k hk
  apply lookupA_eq_none_of_not_mem_keysA
  intro hmem
  obtain ⟨e, he, he1⟩ := List.mem_map.mp hmem
  exact hk (he1 ▸ afEngineGo_keys rt d c ks e he)

theorem afEngineGo_ops (rt : Router) (d c : ResourceAFPathsMap) :
    ∀ (ks : List ResourceKey) (op : RouterOp),
      op ∈ (afEngineGo rt d c ks).2.1 ↔ ∃ k ∈ ks, op ∈ (afProcessKey rt d c k).2.1 := by
  intro ks
  induction ks with
  | nil => intro op; simp [afEngineGo]
  | cons k0 rest ih =>
    intro op
    simp only [afEngineGo, List.mem_append]
    constructor
    · intro h
      rcases h with h1 | h2
      · exact ⟨k0, List.mem_cons_self _ _, h1⟩
      · obtain ⟨k, hk, hop⟩ := (ih op).mp h2
        exact ⟨k, List.mem_cons_of_mem _ hk, hop⟩
    · intro h
      obtain ⟨k, hk, hop⟩ := h
      rcases List.mem_cons.mp hk with rfl | hrest
      · exact Or.inl hop
      · exact Or.inr ((ih op).mpr ⟨k, hrest, hop⟩)

theorem afEngineGo_err_none (rt : Router) (d c : ResourceAFPathsMap)
    (hok : ∀ k, rt.afOk k = true) :
    ∀ (ks : List ResourceKey), (afEngineGo rt d c ks).2.2 = none := by
  intro ks
  induction ks with
  | nil => rfl
  | cons k0 rest ih =>
    simp only [afEngineGo]
    rw [afProcessKey_err, ih]
    by_cases h1 : afmEqv (afCont d k0) (afCont c k0) = true
    · rw [if_pos h1]; rfl
    · rw [if_neg h1, if_pos (hok k0)]; rfl

theorem ReconcileResourceAFPaths_lookup (rt : Router) (d c : ResourceAFPathsMap)
    (k : ResourceKey) :
    lookupA (ReconcileResourceAFPaths rt d c).1 k = afKeyBinding rt d c k := by
  rw [ReconcileResourceAFPaths]
  by_cases hk : k ∈ (keysA d ++ keysA c).dedup
  · exact afEngineGo_lookup_mem rt d c _ (List.nodup_dedup _) k hk
  · rw [afEngineGo_lookup_notmem rt d c _ k hk]
    rw [List.mem_dedup, List.mem_append] at hk
    push_neg at hk
    have hd : afCont d k = [] := afCont_nil_of_not_mem d k hk.1
    have hc : afCont c k = [] := afCont_nil_of_not_mem c k hk.2
    rw [afKeyBinding, hd, hc, if_pos (afmEqv_refl []),
      lookupA_eq_none_of_not_mem_keysA c k hk.2]

theorem ReconcileResourceAFPaths_ops (rt : Router) (d c : ResourceAFPathsMap)
    (op : RouterOp) :
    op ∈ (ReconcileResourceAFPaths rt d c).2.1 ↔
      ∃ k, afmEqv (afCont d k) (afCont c k) = false ∧ op = .afApply k (afCont d k) := by
  rw [ReconcileResourceAFPaths, afEngineGo_ops]
  constructor
  · intro h
    obtain ⟨k, _, hop⟩ := h
    rw [afProcessKey_ops] at hop
    by_cases h1 : afmEqv (afCont d k) (afCont c k) = true
    · rw [if_pos h1] at hop; simp at hop
    · rw [if_neg h1] at hop
      refine ⟨k, by simpa using h1, ?_⟩
      simpa using hop
  · intro h
    obtain ⟨k, heqv, hop⟩ := h
    refine ⟨k, ?_, ?_⟩
    · rw [List.mem_dedup, List.mem_append]
      by_contra hk
      push_neg at hk
      rw [afCont_nil_of_not_mem d k hk.1, afCont_nil_of_not_mem c k hk.2,
        afmEqv_refl []] at heqv
      exact Bool.true_eq_false ▸ heqv.symm ▸ rfl
    · rw [afProcessKey_ops, if_neg (by simp [heqv]), hop]
      exact List.mem_singleton.mpr rfl

/-! ## Characterization of the route-policy diff/apply loop -/

theorem ReconcileRoutePolicies_eqv (rt : Router) (k : ResourceKey)
    (d cur : Option RoutePolicyMap) (h : rpmEqv (d.getD []) (cur.getD []) = true) :
    ReconcileRoutePolicies rt k d cur = (cur, [], none) := by
  simp only [ReconcileRoutePolicies]
  rw [if_pos h]

theorem ReconcileRoutePolicies_apply_ok (rt : Router) (k : ResourceKey)
    (d cur : Option RoutePolicyMap) (h : ¬ rpmEqv (d.getD []) (cur.getD []) = true)
    (hok : rt.rpOk k = true) :
    ReconcileRoutePolicies rt k d cur = (d, [.rpApply k (d.getD [])], none) := by
  simp only [ReconcileRoutePolicies]
  rw [if_neg h, if_pos hok]

theorem ReconcileRoutePolicies_apply_fail (rt : Router) (k : ResourceKey)
    (d cur : Option RoutePolicyMap) (h : ¬ rpmEqv (d.getD []) (cur.getD []) = true)
    (hok : ¬ rt.rpOk k = true) :
    ReconcileRoutePolicies rt k d cur =
      (cur, [.rpApply k (d.getD [])], some (.applyFailed k)) := by
  simp only [ReconcileRoutePolicies]
  rw [if_neg h, if_neg hok]

/-- The binding the route-policy loop leaves for one desired entry. -/
def rpEntryNewBinding (rt : Router) (k : ResourceKey) (d : Option RoutePolicyMap)
    (curB : Option (Option RoutePolicyMap)) : Option (Option RoutePolicyMap) :=
  if curB.isSome = false ∧ rpLen d = 0 then curB
  else if (ReconcileRoutePolicies rt k d (curB.getD none)).2.2 = none ∧ rpLen d = 0 then none
  else some (ReconcileRoutePolicies rt k d (curB.getD none)).1

def rpEntryOps (rt : Router) (k : ResourceKey) (d : Option RoutePolicyMap)
    (curB : Option (Option RoutePolicyMap)) : List RouterOp :=
  if curB.isSome = false ∧ rpLen d = 0 then []
  else (ReconcileRoutePolicies rt k d (curB.getD none)).2.1

def rpEntryErr (rt : Router) (k : ResourceKey) (d : Option RoutePolicyMap)
    (curB : Option (Option RoutePolicyMap)) : Option Err :=
  if curB.isSome = false ∧ rpLen d = 0 then none
  else (ReconcileRoutePolicies rt k d (curB.getD none)).2.2

/-- The metadata map after the loop processes one (non-skipped) entry. -/
def rpNextMap (rt : Router) (k : ResourceKey) (d : Option RoutePolicyMap)
    (m : ResourceRoutePolicyMap) : ResourceRoutePolicyMap :=
  if (ReconcileRoutePolicies rt k d ((lookupA m k).getD none)).2.2 = none ∧ rpLen d = 0
  then eraseA m k
  else insertA m k (ReconcileRoutePolicies rt k d ((lookupA m k).getD none)).1

theorem applyPoolRoutePolicies_cons (rt : Router) (k : ResourceKey)
    (dRPs : Option RoutePolicyMap) (rest : List (ResourceKey × Option RoutePolicyMap))
    (m : ResourceRoutePolicyMap) :
    applyPoolRoutePolicies rt ((k, dRPs) :: rest) m =
      if (lookupA m k).isSome = false ∧ rpLen dRPs = 0 then applyPoolRoutePolicies rt rest m
      else
        ((applyPoolRoutePolicies rt rest (rpNextMap rt k dRPs m)).1,
         (ReconcileRoutePolicies rt k dRPs ((lookupA m k).getD none)).2.1 ++
           (applyPoolRoutePolicies rt rest (rpNextMap rt k dRPs m)).2.1,
         joinO (ReconcileRoutePolicies rt k dRPs ((lookupA m k).getD none)).2.2
           (applyPoolRoutePolicies rt rest (rpNextMap rt k dRPs m)).2.2) := rfl

theorem rpNextMap_lookup_ne (rt : Router) (k : ResourceKey) (d : Option RoutePolicyMap)
    (m : ResourceRoutePolicyMap) {k' : ResourceKey} (h : k' ≠ k) :
    lookupA (rpNextMap rt k d m) k' = lookupA m k' := by
  rw [rpNextMap]
  by_cases hcond : (ReconcileRoutePolicies rt k d ((lookupA m k).getD none)).2.2 = none ∧
      rpLen d = 0
  · rw [if_pos hcond]
    exact lookupA_eraseA_ne m h
  · rw [if_neg hcond]
    exact lookupA_insertA_ne m _ h

theorem rpNextMap_lookup_self (rt : Router) (k : ResourceKey) (d : Option RoutePolicyMap)
    (m : ResourceRoutePolicyMap)
    (hc : ¬ ((lookupA m k).isSome = false ∧ rpLen d = 0)) :
    lookupA (rpNextMap rt k d m) k = rpEntryNewBinding rt k d (lookupA m k) := by
  rw [rpNextMap, rpEntryNewBinding, if_neg hc]
  by_cases hcond : (ReconcileRoutePolicies rt k d ((lookupA m k).getD none)).2.2 = none ∧
      rpLen d = 0
  · rw [if_pos hcond, if_pos hcond]
    exact lookupA_eraseA_self m k
  · rw [if_neg hcond, if_neg hcond]
    exact lookupA_insertA_self m k _

theorem applyPoolRoutePolicies_lookup_notmem (rt : Router) :
    ∀ (l : List (ResourceKey × Option RoutePolicyMap)) (m : ResourceRoutePolicyMap)
      (k : ResourceKey), k ∉ keysA l →
      lookupA (applyPoolRoutePolicies rt l m).1 k = lookupA m k := by
  intro l
  induction l with
  | nil => intro m k _; rfl
  | cons e rest ih =>
    obtain ⟨k0, d0⟩ := e
    intro m k hk
    rw [keysA_cons] at hk
    have hne : k ≠ k0 := fun he => hk (he ▸ List.mem_cons_self _ _)
    have hrest : k ∉ keysA rest := fun hm => hk (List.mem_cons_of_mem _ hm)
    rw [applyPoolRoutePolicies_cons]
    by_cases hc : (lookupA m k0).isSome = false ∧ rpLen d0 = 0
    · rw [if_pos hc]
      exact ih m k hrest
    · rw [if_neg hc]
      show lookupA (applyPoolRoutePolicies rt rest (rpNextMap rt k0 d0 m)).1 k = _
      rw [ih _ k hrest, rpNextMap_lookup_ne rt k0 d0 m hne]

theorem applyPoolRoutePolicies_lookup_mem (rt : Router) :
    ∀ (l : List (ResourceKey × Option RoutePolicyMap)) (m : ResourceRoutePolicyMap)
      (k : ResourceKey) (d : Option RoutePolicyMap),
      (keysA l).Nodup → (k, d) ∈ l →
      lookupA (applyPoolRoutePolicies rt l m).1 k =
        rpEntryNewBinding rt k d (lookupA m k) := by
  intro l
  induction l with
  | nil => intro m k d _ hmem; simp at hmem
  | cons e rest ih =>
    obtain ⟨k0, d0⟩ := e
    intro m k d hnd hmem
    rw [keysA_cons, List.nodup_cons] at hnd
    rcases List.mem_cons.mp hmem with heq | hrest
    · injection heq with hk hd
      subst hk
      subst hd
      rw [applyPoolRoutePolicies_cons]
      by_cases hc : (lookupA m k).isSome = false ∧ rpLen d = 0
      · rw [if_pos hc, applyPoolRoutePolicies_lookup_notmem rt rest m k hnd.1,
          rpEntryNewBinding, if_pos hc]
      · rw [if_neg hc]
        show lookupA (applyPoolRoutePolicies rt rest (rpNextMap rt k d m)).1 k = _
        rw [applyPoolRoutePolicies_lookup_notmem rt rest _ k hnd.1,
          rpNextMap_lookup_self rt k d m hc]
    · have hkrest : k ∈ keysA rest := List.mem_map.mpr ⟨(k, d), hrest, rfl⟩
      have hne : k ≠ k0 := fun he => hnd.1 (he ▸ hkrest)
      rw [applyPoolRoutePolicies_cons]
      by_cases hc : (lookupA m k0).isSome = false ∧ rpLen d0 = 0
      · rw [if_pos hc]
        exact ih m k d hnd.2 hrest
      · rw [if_neg hc]
        show lookupA (applyPoolRoutePolicies rt rest (rpNextMap rt k0 d0 m)).1 k = _
        rw [ih _ k d hnd.2 hrest, rpNextMap_lookup_ne rt k0 d0 m hne]

theorem applyPoolRoutePolicies_ops (rt : Router) :
    ∀ (l : List (ResourceKey × Option RoutePolicyMap)) (m : ResourceRoutePolicyMap)
      (op : RouterOp), (keysA l).Nodup →
      (op ∈ (applyPoolRoutePolicies rt l m).2.1 ↔
        ∃ e ∈ l, op ∈ rpEntryOps rt e.1 e.2 (lookupA m e.1)) := by
  intro l
  induction l with
  | nil => intro m op _; simp [applyPoolRoutePolicies]
  | cons e0 rest ih =>
    obtain ⟨k0, d0⟩ := e0
    intro m op hnd
    rw [keysA_cons, List.nodup_cons] at hnd
    rw [applyPoolRoutePolicies_cons]
    by_cases hc : (lookupA m k0).isSome = false ∧ rpLen d0 = 0
    · rw [if_pos hc]
      rw [ih m op hnd.2]
      constructor
      · intro h
        obtain ⟨e, he, hop⟩ := h
        exact ⟨e, List.mem_cons_of_mem _ he, hop⟩
      · intro h
        obtain ⟨e, he, hop⟩ := h
        rcases List.mem_cons.mp he with rfl | hrest
        · rw [rpEntryOps, if_pos hc] at hop
          simp at hop
        · exact ⟨e, hrest, hop⟩
    · rw [if_neg hc]
      show op ∈ (ReconcileRoutePolicies rt k0 d0 ((lookupA m k0).getD none)).2.1 ++
          (applyPoolRoutePolicies rt rest (rpNextMap rt k0 d0 m)).2.1 ↔ _
      rw [List.mem_append, ih (rpNextMap rt k0 d0 m) op hnd.2]
      have htrans : ∀ e ∈ rest, lookupA (rpNextMap rt k0 d0 m) e.1 = lookupA m e.1 := by
        intro e he
        have hne : e.1 ≠ k0 := fun heq =>
          hnd.1 (heq ▸ List.mem_map.mpr ⟨e, he, rfl⟩)
        exact rpNextMap_lookup_ne rt k0 d0 m hne
      constructor
      · intro h
        rcases h with h1 | h2
        · exact ⟨(k0, d0), List.mem_cons_self _ _, by rw [rpEntryOps, if_neg hc]; exact h1⟩
        · obtain ⟨e, he, hop⟩ := h2
          exact ⟨e, List.mem_cons_of_mem _ he, by rw [← htrans e he]; exact hop⟩
      · intro h
        obtain ⟨e, he, hop⟩ := h
        rcases List.mem_cons.mp he with rfl | hrest
        · rw [rpEntryOps, if_neg hc] at hop
          exact Or.inl hop
        · exact Or.inr ⟨e, hrest, by rw [htrans e hrest]; exact hop⟩

theorem applyPoolRoutePolicies_err (rt : Router) :
    ∀ (l : List (ResourceKey × Option RoutePolicyMap)) (m : ResourceRoutePolicyMap)
      (t : Err), (keysA l).Nodup →
      (hasO (applyPoolRoutePolicies rt l m).2.2 t = true ↔
        ∃ e ∈ l, hasO (rpEntryErr rt e.1 e.2 (lookupA m e.1)) t = true) := by
  intro l
  induction l with
  | nil => intro m t _; simp [applyPoolRoutePolicies, hasO]
  | cons e0 rest ih =>
    obtain ⟨k0, d0⟩ := e0
    intro m t hnd
    rw [keysA_cons, List.nodup_cons] at hnd
    rw [applyPoolRoutePolicies_cons]
    by_cases hc : (lookupA m k0).isSome = false ∧ rpLen d0 = 0
    · rw [if_pos hc]
      rw [ih m t hnd.2]
      constructor
      · intro h
        obtain ⟨e, he, hop⟩ := h
        exact ⟨e, List.mem_cons_of_mem _ he, hop⟩
      · intro h
        obtain ⟨e, he, hop⟩ := h
        rcases List.mem_cons.mp he with rfl | hrest
        · rw [rpEntryErr, if_pos hc] at hop
          simp [hasO] at hop
        · exact ⟨e, hrest, hop⟩
    · rw [if_neg hc]
      show hasO (joinO (ReconcileRoutePolicies rt k0 d0 ((lookupA m k0).getD none)).2.2
          (applyPoolRoutePolicies rt rest (rpNextMap rt k0 d0 m)).2.2) t = true ↔ _
      rw [hasO_joinO, Bool.or_eq_true, ih (rpNextMap rt k0 d0 m) t hnd.2]
      have htrans : ∀ e ∈ rest, lookupA (rpNextMap rt k0 d0 m) e.1 = lookupA m e.1 := by
        intro e he
        have hne : e.1 ≠ k0 := fun heq =>
          hnd.1 (heq ▸ List.mem_map.mpr ⟨e, he, rfl⟩)
        exact rpNextMap_lookup_ne rt k0 d0 m hne
      constructor
      · intro h
        rcases h with h1 | h2
        · exact ⟨(k0, d0), List.mem_cons_self _ _, by rw [rpEntryErr, if_neg hc]; exact h1⟩
        · obtain ⟨e, he, hop⟩ := h2
          exact ⟨e, List.mem_cons_of_mem _ he, by rw [← htrans e he]; exact hop⟩
      · intro h
        obtain ⟨e, he, hop⟩ := h
        rcases List.mem_cons.mp he with rfl | hrest
        · rw [rpEntryErr, if_neg hc] at hop
          exact Or.inl hop
        · exact Or.inr ⟨e, hrest, by rw [htrans e hrest]; exact hop⟩

theorem applyPoolRoutePolicies_err_none (rt : Router) (hok : ∀ k, rt.rpOk k = true) :
    ∀ (l : List (ResourceKey × Option RoutePolicyMap)) (m : ResourceRoutePolicyMap),
      (applyPoolRoutePolicies rt l m).2.2 = none := by
  intro l
  induction l with
  | nil => intro m; rfl
  | cons e0 rest ih =>
    obtain ⟨k0, d0⟩ := e0
    intro m
    rw [applyPoolRoutePolicies_cons]
    by_cases hc : (lookupA m k0).isSome = false ∧ rpLen d0 = 0
    · rw [if_pos hc]
      exact ih m
    · rw [if_neg hc]
      show joinO (ReconcileRoutePolicies rt k0 d0 ((lookupA m k0).getD none)).2.2
          (applyPoolRoutePolicies rt rest (rpNextMap rt k0 d0 m)).2.2 = none
      rw [ih (rpNextMap rt k0 d0 m)]
      by_cases heqv : rpmEqv (d0.getD []) (((lookupA m k0).getD none).getD []) = true
      · rw [ReconcileRoutePolicies_eqv rt k0 d0 _ heqv]
        rfl
      · rw [ReconcileRoutePolicies_apply_ok rt k0 d0 _ heqv (hok k0)]
        rfl

/-- Content of an outer-map binding. -/
def contB (b : Option (Option RoutePolicyMap)) : RoutePolicyMap := (b.getD none).getD []

theorem rpCont_eq_contB (m : ResourceRoutePolicyMap) (k : ResourceKey) :
    rpCont m k = contB (lookupA m k) := rfl

theorem rpLen_zero {d : Option RoutePolicyMap} (h : rpLen d = 0) : d.getD [] = [] :=
  List.length_eq_zero.mp h

theorem rpEntry_not_skip {d : Option RoutePolicyMap}
    {curB : Option (Option RoutePolicyMap)}
    (hneqv : rpmEqv (d.getD []) (contB curB) = false) :
    ¬ (curB.isSome = false ∧ rpLen d = 0) := by
  intro hc
  obtain ⟨h1, h2⟩ := hc
  have hb : curB = none := by
    cases curB with
    | none => rfl
    | some _ => simp at h1
  rw [hb, rpLen_zero h2] at hneqv
  rw [show contB none = [] from rfl] at hneqv
  rw [rpmEqv_refl []] at hneqv
  exact Bool.noConfusion hneqv

theorem rpEntryNewBinding_fail_unchanged (rt : Router) (k : ResourceKey)
    (d : Option RoutePolicyMap) (curB : Option (Option RoutePolicyMap))
    (hfail : rt.rpOk k = false) :
    contB (rpEntryNewBinding rt k d curB) = contB curB := by
  rw [rpEntryNewBinding]
  by_cases hc : curB.isSome = false ∧ rpLen d = 0
  · rw [if_pos hc]
  · rw [if_neg hc]
    by_cases heqv : rpmEqv (d.getD []) ((curB.getD none).getD []) = true
    · rw [ReconcileRoutePolicies_eqv rt k d _ heqv]
      by_cases hlen : rpLen d = 0
      · rw [if_pos ⟨rfl, hlen⟩]
        have hcur : (curB.getD none).getD [] = [] := by
          have := heqv
          rw [rpLen_zero hlen] at this
          exact rpmEqv_nil_eq this
        rw [show contB none = [] from rfl, contB, hcur]
      · rw [if_neg (fun hx => hlen hx.2)]
        rfl
    · rw [ReconcileRoutePolicies_apply_fail rt k d _ heqv (by rw [hfail]; exact Bool.noConfusion)]
      rw [if_neg (fun hx => Option.noConfusion hx.1)]
      rfl

theorem rpEntryNewBinding_ok_desired (rt : Router) (k : ResourceKey)
    (d : Option RoutePolicyMap) (curB : Option (Option RoutePolicyMap))
    (hok : rt.rpOk k = true) :
    rpmEqv (contB (rpEntryNewBinding rt k d curB)) (d.getD []) = true := by
  rw [rpEntryNewBinding]
  by_cases hc : curB.isSome = false ∧ rpLen d = 0
  · rw [if_pos hc]
    have hb : curB = none := by
      cases curB with
      | none => rfl
      | some _ => simp at hc
    rw [hb, rpLen_zero hc.2]
    exact rpmEqv_refl []
  · rw [if_neg hc]
    by_cases heqv : rpmEqv (d.getD []) ((curB.getD none).getD []) = true
    · rw [ReconcileRoutePolicies_eqv rt k d _ heqv]
      by_cases hlen : rpLen d = 0
      · rw [if_pos ⟨rfl, hlen⟩, rpLen_zero hlen]
        exact rpmEqv_refl []
      · rw [if_neg (fun hx => hlen hx.2)]
        exact rpmEqv_symm heqv
    · rw [ReconcileRoutePolicies_apply_ok rt k d _ heqv hok]
      by_cases hlen : rpLen d = 0
      · rw [if_pos ⟨rfl, hlen⟩, rpLen_zero hlen]
        exact rpmEqv_refl []
      · rw [if_neg (fun hx => hlen hx.2)]
        exact rpmEqv_refl _

/-! ## Claim C3 -/

/-- C3: in the route-policy diff/apply pass, one key's failure does not stop
the others: every key whose desired content differs from the retained content
is attempted, keys whose apply succeeds end up retaining exactly the desired
content, a key whose apply fails keeps its retained content unchanged, the
joined error references each failed key, and the pass's error is what
`Reconcile` returns. -/
theorem C3_route_policy_partial_failure_isolation (rt : Router)
    (current : ResourceRoutePolicyMap) (desired : List (ResourceKey × Option RoutePolicyMap))
    (hnd : (keysA desired).Nodup) :
    (∀ kd ∈ desired, rpmEqv (kd.2.getD []) (rpCont current kd.1) = false →
      RouterOp.rpApply kd.1 (kd.2.getD []) ∈ (applyPoolRoutePolicies rt desired current).2.1) ∧
    (∀ kd ∈ desired, rt.rpOk kd.1 = true →
      rpmEqv (rpCont (applyPoolRoutePolicies rt desired current).1 kd.1) (kd.2.getD []) =
        true) ∧
    (∀ kd ∈ desired, rt.rpOk kd.1 = false →
      rpCont (applyPoolRoutePolicies rt desired current).1 kd.1 = rpCont current kd.1) ∧
    (∀ kd ∈ desired, rpmEqv (kd.2.getD []) (rpCont current kd.1) = false →
      rt.rpOk kd.1 = false →
      hasO (applyPoolRoutePolicies rt desired current).2.2 (.applyFailed kd.1) = true) ∧
    (∀ (r : PodIPPoolReconciler) (p : ReconcileParams) (c : DesiredConfig)
      (n : CiliumNode) (i : BGPInstance) (ad : PeerAdvertisements) (e : Err),
      ValidateParams p = .ok (c, n, i) →
      GetConfiguredAdvertisements c .podIPPool = .ok ad →
      (reconcileRoutePolicies i.router r i.name ad (populateLocalPools (some n))).2.2 =
        some e →
      (Reconcile r p).2.2 = some e) := by
  refine ⟨?_, ?_, ?_, ?_, ?_⟩
  · intro kd hkd hneqv
    obtain ⟨k, d⟩ := kd
    rw [applyPoolRoutePolicies_ops rt desired current _ hnd]
    refine ⟨(k, d), hkd, ?_⟩
    rw [rpCont_eq_contB] at hneqv
    rw [rpEntryOps, if_neg (rpEntry_not_skip hneqv)]
    by_cases hok : rt.rpOk k = true
    · rw [ReconcileRoutePolicies_apply_ok rt k d _
        (by simp only [Bool.not_eq_true]; exact hneqv) hok]
      exact List.mem_singleton.mpr rfl
    · rw [ReconcileRoutePolicies_apply_fail rt k d _
        (by simp only [Bool.not_eq_true]; exact hneqv) hok]
      exact List.mem_singleton.mpr rfl
  · intro kd hkd hok
    obtain ⟨k, d⟩ := kd
    rw [rpCont_eq_contB,
      applyPoolRoutePolicies_lookup_mem rt desired current k d hnd hkd]
    exact rpEntryNewBinding_ok_desired rt k d _ hok
  · intro kd hkd hfail
    obtain ⟨k, d⟩ := kd
    rw [rpCont_eq_contB,
      applyPoolRoutePolicies_lookup_mem rt desired current k d hnd hkd,
      rpEntryNewBinding_fail_unchanged rt k d _ hfail]
    rfl
  · intro kd hkd hneqv hfail
    obtain ⟨k, d⟩ := kd
    rw [applyPoolRoutePolicies_err rt desired current _ hnd]
    refine ⟨(k, d), hkd, ?_⟩
    rw [rpCont_eq_contB] at hneqv
    rw [rpEntryErr, if_neg (rpEntry_not_skip hneqv)]
    rw [ReconcileRoutePolicies_apply_fail rt k d _
      (by simp only [Bool.not_eq_true]; exact hneqv)
      (by rw [hfail]; exact Bool.noConfusion)]
    simp [hasO, Err.has]
  · intro r p c n i ad e hval had hrp
    simp only [Reconcile, hval, had, hrp]

theorem C3_route_policy_partial_failure_isolation_witness :
    RouterOp.rpApply ⟨"K2", "ns"⟩ [("pol2", ⟨"pol2", .v4 1, [], []⟩)] ∈
      (applyPoolRoutePolicies ⟨fun _ => true, fun k => decide (k.name ≠ "K2")⟩
        [(⟨"K1", "ns"⟩, some [("pol1", ⟨"pol1", .v4 1, [], []⟩)]),
         (⟨"K2", "ns"⟩, some [("pol2", ⟨"pol2", .v4 1, [], []⟩)]),
         (⟨"K3", "ns"⟩, some [("pol3", ⟨"pol3", .v4 1, [], []⟩)])] []).2.1 :=
  (C3_route_policy_partial_failure_isolation
      ⟨fun _ => true, fun k => decide (k.name ≠ "K2")⟩ []
      [(⟨"K1", "ns"⟩, some [("pol1", ⟨"pol1", .v4 1, [], []⟩)]),
       (⟨"K2", "ns"⟩, some [("pol2", ⟨"pol2", .v4 1, [], []⟩)]),
       (⟨"K3", "ns"⟩, some [("pol3", ⟨"pol3", .v4 1, [], []⟩)])] (by decide)).1
    (⟨"K2", "ns"⟩, some [("pol2", ⟨"pol2", .v4 1, [], []⟩)]) (by decide) (by decide)

/-! ## Pass-level lemmas for the two sub-passes of Reconcile -/

theorem getMetadata_setMetadata_self (r : PodIPPoolReconciler) (instName : String)
    (md : PodIPPoolReconcilerMetadata) :
    getMetadata (setMetadata r instName md) instName = md := by
  rw [getMetadata, setMetadata]
  show ((lookupA (insertA r.metadata instName md) instName).getD _) = md
  rw [lookupA_insertA_self]
  rfl

theorem ValidateParams_inst (p : ReconcileParams) (c : DesiredConfig) (n : CiliumNode)
    (i : BGPInstance) (h : ValidateParams p = .ok (c, n, i)) : p.bgpInstance = some i := by
  rw [ValidateParams] at h
  rcases p with ⟨dc, cn, bi⟩
  rcases dc with _ | dc
  · exact Except.noConfusion h
  · rcases cn with _ | cn
    · exact Except.noConfusion h
    · rcases bi with _ | bi
      · exact Except.noConfusion h
      · injection h with h'
        injection h' with h1 h2
        injection h2 with h3 h4
        rw [h4]

def afContB (b : Option (Option AFPathsMap)) : AFPathsMap := (b.getD none).getD []

theorem afCont_eq_afContB (m : ResourceAFPathsMap) (k : ResourceKey) :
    afCont m k = afContB (lookupA m k) := rfl

theorem afKeyBinding_fail (rt : Router) (d c : ResourceAFPathsMap) (k : ResourceKey)
    (hfail : rt.afOk k = false) : afKeyBinding rt d c k = lookupA c k := by
  rw [afKeyBinding]
  by_cases h1 : afmEqv (afCont d k) (afCont c k) = true
  · rw [if_pos h1]
  · rw [if_neg h1, if_neg (by rw [hfail]; exact Bool.noConfusion)]

theorem afKeyBinding_changed (rt : Router) (d c : ResourceAFPathsMap) (k : ResourceKey)
    (hch : afContB (afKeyBinding rt d c k) ≠ afCont c k) :
    rt.afOk k = true ∧ afmEqv (afCont d k) (afCont c k) = false ∧
      afmEqv (afCont d k) (afContB (afKeyBinding rt d c k)) = true := by
  rw [afKeyBinding] at hch ⊢
  by_cases h1 : afmEqv (afCont d k) (afCont c k) = true
  · exact absurd (by rw [if_pos h1, ← afCont_eq_afContB]) hch
  · by_cases h2 : rt.afOk k = true
    · refine ⟨h2, by simpa using h1, ?_⟩
      rw [if_neg h1, if_pos h2] at hch ⊢
      by_cases h3 : afmIsEmpty (afCont d k) = true
      · rw [if_pos h3]
        exact afmEqv_nil_of_isEmpty h3
      · rw [if_neg h3]
        exact afmEqv_refl _
    · exact absurd (by rw [if_neg h1, if_neg h2, ← afCont_eq_afContB]) hch

theorem reconcilePaths_rp_preserved (rt : Router) (r : PodIPPoolReconciler)
    (instName : String) (adverts : PeerAdvertisements) (lp : List (String × List IPPrefix)) :
    (getMetadata (reconcilePaths rt r instName adverts lp).1 instName).PoolRoutePolicies =
      (getMetadata r instName).PoolRoutePolicies := by
  rcases hd : getDesiredPoolAFPaths r instName adverts lp with e | d
  · simp only [reconcilePaths, hd]
  · simp only [reconcilePaths, hd]
    rw [getMetadata_setMetadata_self]

theorem reconcilePaths_fail_unchanged (rt : Router) (r : PodIPPoolReconciler)
    (instName : String) (adverts : PeerAdvertisements) (lp : List (String × List IPPrefix))
    (k : ResourceKey) (hfail : rt.afOk k = false) :
    afCont (getMetadata (reconcilePaths rt r instName adverts lp).1 instName).PoolAFPaths k =
      afCont (getMetadata r instName).PoolAFPaths k := by
  rcases hd : getDesiredPoolAFPaths r instName adverts lp with e | d
  · simp only [reconcilePaths, hd]
  · simp only [reconcilePaths, hd]
    rw [getMetadata_setMetadata_self]
    show afCont (ReconcileResourceAFPaths rt d (getMetadata r instName).PoolAFPaths).1 k = _
    rw [afCont_eq_afContB, ReconcileResourceAFPaths_lookup,
      afKeyBinding_fail rt d _ k hfail, ← afCont_eq_afContB]

theorem reconcilePaths_changed (rt : Router) (r : PodIPPoolReconciler)
    (instName : String) (adverts : PeerAdvertisements) (lp : List (String × List IPPrefix))
    (k : ResourceKey)
    (hch : afCont (getMetadata (reconcilePaths rt r instName adverts lp).1 instName).PoolAFPaths
        k ≠ afCont (getMetadata r instName).PoolAFPaths k) :
    rt.afOk k = true ∧ ∃ v, RouterOp.afApply k v ∈ (reconcilePaths rt r instName adverts lp).2.1 ∧
      afmEqv v
        (afCont (getMetadata (reconcilePaths rt r instName adverts lp).1 instName).PoolAFPaths
          k) = true := by
  rcases hd : getDesiredPoolAFPaths r instName adverts lp with e | d
  · exact absurd (by simp only [reconcilePaths, hd]) hch
  · simp only [reconcilePaths, hd] at hch ⊢
    rw [getMetadata_setMetadata_self] at hch ⊢
    have hch' : afContB (afKeyBinding rt d (getMetadata r instName).PoolAFPaths k) ≠
        afCont (getMetadata r instName).PoolAFPaths k := by
      intro he
      apply hch
      show afCont (ReconcileResourceAFPaths rt d (getMetadata r instName).PoolAFPaths).1 k = _
      rw [afCont_eq_afContB, ReconcileResourceAFPaths_lookup]
      exact he
    obtain ⟨hok, hneqv, heqv⟩ :=
      afKeyBinding_changed rt d (getMetadata r instName).PoolAFPaths k hch'
    refine ⟨hok, afCont d k, ?_, ?_⟩
    · show _ ∈ (ReconcileResourceAFPaths rt d (getMetadata r instName).PoolAFPaths).2.1
      exact (ReconcileResourceAFPaths_ops rt d _ _).mpr ⟨k, hneqv, rfl⟩
    · have h2 : afCont (ReconcileResourceAFPaths rt d
          (getMetadata r instName).PoolAFPaths).1 k =
          afContB (afKeyBinding rt d (getMetadata r instName).PoolAFPaths k) := by
        rw [afCont_eq_afContB, ReconcileResourceAFPaths_lookup]
      show afmEqv (afCont d k) (afCont (ReconcileResourceAFPaths rt d
        (getMetadata r instName).PoolAFPaths).1 k) = true
      rw [h2]
      exact heqv

theorem getDesiredPodIPPoolRoutePolicies_nodup (r : PodIPPoolReconciler) (instName : String)
    (adverts : PeerAdvertisements) (lp : List (String × List IPPrefix))
    (d : ResourceRoutePolicyMap)
    (h : getDesiredPodIPPoolRoutePolicies r instName adverts lp = .ok d) :
    (keysA d).Nodup := by
  rw [getDesiredPodIPPoolRoutePolicies] at h
  rcases hmk : markerLoop r.poolStore id
      (keysA (getMetadata r instName).PoolRoutePolicies)
      ([] : List (ResourceKey × Option RoutePolicyMap)) with e | acc
  · rw [hmk] at h
    exact Except.noConfusion h
  · rw [hmk] at h
    rcases hsl : storeList r.poolStore with e | pools
    · rw [hsl] at h
      exact Except.noConfusion h
    · rw [hsl] at h
      exact storeLoop_nodup _ pools acc d h
        (markerLoop_nodup r.poolStore id _ _ acc hmk (by simp [keysA]))

theorem rpEntryChanged (rt : Router) (k : ResourceKey) (d : Option RoutePolicyMap)
    (curB : Option (Option RoutePolicyMap))
    (hch : contB (rpEntryNewBinding rt k d curB) ≠ contB curB) :
    rt.rpOk k = true ∧ rpEntryOps rt k d curB = [.rpApply k (d.getD [])] ∧
      contB (rpEntryNewBinding rt k d curB) = d.getD [] := by
  by_cases hc : curB.isSome = false ∧ rpLen d = 0
  · exact absurd (by rw [rpEntryNewBinding, if_pos hc]) hch
  · by_cases heqv : rpmEqv (d.getD []) ((curB.getD none).getD []) = true
    · exfalso
      apply hch
      rw [rpEntryNewBinding, if_neg hc, ReconcileRoutePolicies_eqv rt k d _ heqv]
      by_cases hlen : rpLen d = 0
      · have h2 : ((curB.getD none), ([] : List RouterOp), (none : Option Err)).2.2 = none ∧
            rpLen d = 0 := ⟨rfl, hlen⟩
        rw [if_pos h2]
        have heqv2 := heqv
        rw [rpLen_zero hlen] at heqv2
        exact (rpmEqv_nil_eq heqv2).symm
      · have h2 : ¬ (((curB.getD none), ([] : List RouterOp), (none : Option Err)).2.2 = none ∧
            rpLen d = 0) := fun hx => hlen hx.2
        rw [if_neg h2]
        rfl
    · by_cases hok : rt.rpOk k = true
      · refine ⟨hok, ?_, ?_⟩
        · rw [rpEntryOps, if_neg hc, ReconcileRoutePolicies_apply_ok rt k d _ heqv hok]
        · rw [rpEntryNewBinding, if_neg hc, ReconcileRoutePolicies_apply_ok rt k d _ heqv hok]
          by_cases hlen : rpLen d = 0
          · have h2 : (d, [RouterOp.rpApply k (d.getD [])], (none : Option Err)).2.2 = none ∧
                rpLen d = 0 := ⟨rfl, hlen⟩
            rw [if_pos h2]
            exact (rpLen_zero hlen).symm
          · have h2 : ¬ ((d, [RouterOp.rpApply k (d.getD [])], (none : Option Err)).2.2 =
                none ∧ rpLen d = 0) := fun hx => hlen hx.2
            rw [if_neg h2]
            rfl
      · exfalso
        apply hch
        rw [rpEntryNewBinding, if_neg hc, ReconcileRoutePolicies_apply_fail rt k d _ heqv hok]
        have h2 : ¬ (((curB.getD none), [RouterOp.rpApply k (d.getD [])],
            some (Err.applyFailed k)).2.2 = none ∧ rpLen d = 0) :=
          fun hx => Option.noConfusion hx.1
        rw [if_neg h2]
        rfl

theorem lookupA_isSome_of_mem_keysA {α β : Type} [DecidableEq α] (m : List (α × β)) (k : α)
    (h : k ∈ keysA m) : (lookupA m k).isSome = true := by
  induction m with
  | nil => simp [keysA] at h
  | cons e t ih =>
    obtain ⟨a, b⟩ := e
    by_cases ha : a = k
    · simp [lookupA, ha]
    · rw [keysA_cons] at h
      rcases List.mem_cons.mp h with h1 | h2
      · exact absurd h1.symm ha
      · simp only [lookupA, if_neg ha]
        exact ih h2

theorem reconcileRoutePolicies_af_preserved (rt : Router) (r : PodIPPoolReconciler)
    (instName : String) (adverts : PeerAdvertisements) (lp : List (String × List IPPrefix)) :
    (getMetadata (reconcileRoutePolicies rt r instName adverts lp).1 instName).PoolAFPaths =
      (getMetadata r instName).PoolAFPaths := by
  rcases hd : getDesiredPodIPPoolRoutePolicies r instName adverts lp with e | d
  · simp only [reconcileRoutePolicies, hd]
  · simp only [reconcileRoutePolicies, hd]
    rw [getMetadata_setMetadata_self]

theorem reconcileRoutePolicies_fail_unchanged (rt : Router) (r : PodIPPoolReconciler)
    (instName : String) (adverts : PeerAdvertisements) (lp : List (String × List IPPrefix))
    (k : ResourceKey) (hfail : rt.rpOk k = false) :
    rpCont (getMetadata (reconcileRoutePolicies rt r instName adverts lp).1
        instName).PoolRoutePolicies k =
      rpCont (getMetadata r instName).PoolRoutePolicies k := by
  rcases hd : getDesiredPodIPPoolRoutePolicies r instName adverts lp with e | d
  · simp only [reconcileRoutePolicies, hd]
  · simp only [reconcileRoutePolicies, hd]
    rw [getMetadata_setMetadata_self]
    show rpCont (applyPoolRoutePolicies rt d
        (getMetadata r instName).PoolRoutePolicies).1 k = _
    have hnd := getDesiredPodIPPoolRoutePolicies_nodup r instName adverts lp d hd
    rcases hlkp : lookupA d k with _ | dv
    · have hk : k ∉ keysA d := by
        intro hmem
        have hs := lookupA_isSome_of_mem_keysA d k hmem
        rw [hlkp] at hs
        simp at hs
      rw [rpCont_eq_contB, applyPoolRoutePolicies_lookup_notmem rt d _ k hk]
      rfl
    · have he : (k, dv) ∈ d := lookupA_mem d k dv hlkp
      rw [rpCont_eq_contB,
        applyPoolRoutePolicies_lookup_mem rt d _ k dv hnd he,
        rpEntryNewBinding_fail_unchanged rt k dv _ hfail]
      rfl

theorem reconcileRoutePolicies_changed (rt : Router) (r : PodIPPoolReconciler)
    (instName : String) (adverts : PeerAdvertisements) (lp : List (String × List IPPrefix))
    (k : ResourceKey)
    (hch : rpCont (getMetadata (reconcileRoutePolicies rt r instName adverts lp).1
        instName).PoolRoutePolicies k ≠
      rpCont (getMetadata r instName).PoolRoutePolicies k) :
    rt.rpOk k = true ∧
      RouterOp.rpApply k (rpCont (getMetadata (reconcileRoutePolicies rt r instName adverts
        lp).1 instName).PoolRoutePolicies k) ∈
        (reconcileRoutePolicies rt r instName adverts lp).2.1 := by
  rcases hd : getDesiredPodIPPoolRoutePolicies r instName adverts lp with e | d
  · exact absurd (by simp only [reconcileRoutePolicies, hd]) hch
  · simp only [reconcileRoutePolicies, hd] at hch ⊢
    rw [getMetadata_setMetadata_self] at hch ⊢
    have hnd := getDesiredPodIPPoolRoutePolicies_nodup r instName adverts lp d hd
    rcases hlkp : lookupA d k with _ | dv
    · exfalso
      apply hch
      have hk : k ∉ keysA d := by
        intro hmem
        have hs := lookupA_isSome_of_mem_keysA d k hmem
        rw [hlkp] at hs
        simp at hs
      rw [rpCont_eq_contB, applyPoolRoutePolicies_lookup_notmem rt d _ k hk]
      rfl
    · have he : (k, dv) ∈ d := lookupA_mem d k dv hlkp
      have hlk := applyPoolRoutePolicies_lookup_mem rt d
        (getMetadata r instName).PoolRoutePolicies k dv hnd he
      rw [rpCont_eq_contB, hlk] at hch ⊢
      obtain ⟨hok, hops, hcont⟩ := rpEntryChanged rt k dv _ hch
      refine ⟨hok, ?_⟩
      rw [hcont]
      exact (applyPoolRoutePolicies_ops rt d _ _ hnd).mpr
        ⟨(k, dv), he, by rw [hops]; exact List.mem_singleton.mpr rfl⟩

/-! ## Unfolding Reconcile along its branches -/

theorem Reconcile_val_err (r : PodIPPoolReconciler) (p : ReconcileParams) (e : Err)
    (hval : ValidateParams p = .error e) : Reconcile r p = (r, [], some e) := by
  simp only [Reconcile, hval]

theorem Reconcile_rp_err (r : PodIPPoolReconciler) (p : ReconcileParams) (c : DesiredConfig)
    (n : CiliumNode) (i : BGPInstance) (ad : PeerAdvertisements) (e : Err)
    (hval : ValidateParams p = .ok (c, n, i))
    (had : GetConfiguredAdvertisements c .podIPPool = .ok ad)
    (herr : (reconcileRoutePolicies i.router r i.name ad
      (populateLocalPools (some n))).2.2 = some e) :
    Reconcile r p =
      ((reconcileRoutePolicies i.router r i.name ad (populateLocalPools (some n))).1,
       (reconcileRoutePolicies i.router r i.name ad (populateLocalPools (some n))).2.1,
       some e) := by
  simp only [Reconcile, hval, had, herr]

theorem Reconcile_rp_ok (r : PodIPPoolReconciler) (p : ReconcileParams) (c : DesiredConfig)
    (n : CiliumNode) (i : BGPInstance) (ad : PeerAdvertisements)
    (hval : ValidateParams p = .ok (c, n, i))
    (had : GetConfiguredAdvertisements c .podIPPool = .ok ad)
    (herr : (reconcileRoutePolicies i.router r i.name ad
      (populateLocalPools (some n))).2.2 = none) :
    Reconcile r p =
      ((reconcilePaths i.router
          (reconcileRoutePolicies i.router r i.name ad (populateLocalPools (some n))).1
          i.name ad (populateLocalPools (some n))).1,
       (reconcileRoutePolicies i.router r i.name ad (populateLocalPools (some n))).2.1 ++
         (reconcilePaths i.router
          (reconcileRoutePolicies i.router r i.name ad (populateLocalPools (some n))).1
          i.name ad (populateLocalPools (some n))).2.1,
       (reconcilePaths i.router
          (reconcileRoutePolicies i.router r i.name ad (populateLocalPools (some n))).1
          i.name ad (populateLocalPools (some n))).2.2) := by
  simp only [Reconcile, hval, had, herr]

/-! ## Claim C1 -/

/-- C1: after any call to `Reconcile` — successful or failed — the retained
per-instance metadata tracks exactly what was last successfully pushed: a
failed apply for a resource key leaves that key's retained content unchanged,
and a key whose retained content changed did so through a successful apply
recorded in the router trace, whose pushed content equals (by content) the
new retained value. -/
theorem C1_metadata_tracks_successful_applies (r : PodIPPoolReconciler)
    (p : ReconcileParams) (i : BGPInstance) (hinst : p.bgpInstance = some i)
    (k : ResourceKey) :
    (i.router.afOk k = false →
      afCont (getMetadata (Reconcile r p).1 i.name).PoolAFPaths k =
        afCont (getMetadata r i.name).PoolAFPaths k) ∧
    (i.router.rpOk k = false →
      rpCont (getMetadata (Reconcile r p).1 i.name).PoolRoutePolicies k =
        rpCont (getMetadata r i.name).PoolRoutePolicies k) ∧
    (afCont (getMetadata (Reconcile r p).1 i.name).PoolAFPaths k ≠
        afCont (getMetadata r i.name).PoolAFPaths k →
      i.router.afOk k = true ∧ ∃ v, RouterOp.afApply k v ∈ (Reconcile r p).2.1 ∧
        afmEqv v (afCont (getMetadata (Reconcile r p).1 i.name).PoolAFPaths k) = true) ∧
    (rpCont (getMetadata (Reconcile r p).1 i.name).PoolRoutePolicies k ≠
        rpCont (getMetadata r i.name).PoolRoutePolicies k →
      i.router.rpOk k = true ∧
        RouterOp.rpApply k
            (rpCont (getMetadata (Reconcile r p).1 i.name).PoolRoutePolicies k) ∈
          (Reconcile r p).2.1) := by
  rcases hval : ValidateParams p with e | cni
  · rw [Reconcile_val_err r p e hval]
    exact ⟨fun _ => rfl, fun _ => rfl, fun h => absurd rfl h, fun h => absurd rfl h⟩
  · obtain ⟨c, n, i'⟩ := cni
    have hi : i = i' := by
      have hv := ValidateParams_inst p c n i' hval
      rw [hinst] at hv
      exact Option.some.inj hv
    subst hi
    obtain ⟨ad, had⟩ : ∃ ad, GetConfiguredAdvertisements c .podIPPool = .ok ad := ⟨_, rfl⟩
    rcases herr : (reconcileRoutePolicies i.router r i.name ad
        (populateLocalPools (some n))).2.2 with _ | e
    · rw [Reconcile_rp_ok r p c n i ad hval had herr]
      have hafpre : (getMetadata (reconcileRoutePolicies i.router r i.name ad
          (populateLocalPools (some n))).1 i.name).PoolAFPaths =
          (getMetadata r i.name).PoolAFPaths :=
        reconcileRoutePolicies_af_preserved i.router r i.name ad (populateLocalPools (some n))
      have hrppre : (getMetadata (reconcilePaths i.router
          (reconcileRoutePolicies i.router r i.name ad (populateLocalPools (some n))).1
          i.name ad (populateLocalPools (some n))).1 i.name).PoolRoutePolicies =
          (getMetadata (reconcileRoutePolicies i.router r i.name ad
            (populateLocalPools (some n))).1 i.name).PoolRoutePolicies :=
        reconcilePaths_rp_preserved i.router _ i.name ad (populateLocalPools (some n))
      refine ⟨?_, ?_, ?_, ?_⟩
      · intro hfail
        show afCont (getMetadata (reconcilePaths i.router _ i.name ad _).1
          i.name).PoolAFPaths k = _
        rw [reconcilePaths_fail_unchanged i.router _ i.name ad _ k hfail, hafpre]
      · intro hfail
        show rpCont (getMetadata (reconcilePaths i.router _ i.name ad _).1
          i.name).PoolRoutePolicies k = _
        rw [hrppre]
        exact reconcileRoutePolicies_fail_unchanged i.router r i.name ad _ k hfail
      · intro hch
        have hch2 : afCont (getMetadata (reconcilePaths i.router
            (reconcileRoutePolicies i.router r i.name ad (populateLocalPools (some n))).1
            i.name ad (populateLocalPools (some n))).1 i.name).PoolAFPaths k ≠
            afCont (getMetadata (reconcileRoutePolicies i.router r i.name ad
              (populateLocalPools (some n))).1 i.name).PoolAFPaths k := by
          rw [hafpre]
          exact hch
        obtain ⟨hok, v, hop, heqv⟩ :=
          reconcilePaths_changed i.router _ i.name ad (populateLocalPools (some n)) k hch2
        exact ⟨hok, v, List.mem_append.mpr (Or.inr hop), heqv⟩
      · intro hch
        have hch2 : rpCont (getMetadata (reconcileRoutePolicies i.router r i.name ad
            (populateLocalPools (some n))).1 i.name).PoolRoutePolicies k ≠
            rpCont (getMetadata r i.name).PoolRoutePolicies k := by
          rw [← hrppre]
          exact hch
        obtain ⟨hok, hop⟩ :=
          reconcileRoutePolicies_changed i.router r i.name ad (populateLocalPools (some n))
            k hch2
        refine ⟨hok, List.mem_append.mpr (Or.inl ?_)⟩
        show RouterOp.rpApply k (rpCont (getMetadata (reconcilePaths i.router _ i.name ad _).1
          i.name).PoolRoutePolicies k) ∈ _
        rw [hrppre]
        exact hop
    · rw [Reconcile_rp_err r p c n i ad e hval had herr]
      have hafpre : (getMetadata (reconcileRoutePolicies i.router r i.name ad
          (populateLocalPools (some n))).1 i.name).PoolAFPaths =
          (getMetadata r i.name).PoolAFPaths :=
        reconcileRoutePolicies_af_preserved i.router r i.name ad (populateLocalPools (some n))
      refine ⟨?_, ?_, ?_, ?_⟩
      · intro _
        show afCont (getMetadata (reconcileRoutePolicies i.router r i.name ad
          (populateLocalPools (some n))).1 i.name).PoolAFPaths k = _
        rw [hafpre]
      · intro hfail
        exact reconcileRoutePolicies_fail_unchanged i.router r i.name ad
          (populateLocalPools (some n)) k hfail
      · intro hch
        exfalso
        apply hch
        show afCont (getMetadata (reconcileRoutePolicies i.router r i.name ad
          (populateLocalPools (some n))).1 i.name).PoolAFPaths k = _
        rw [hafpre]
      · intro hch
        exact reconcileRoutePolicies_changed i.router r i.name ad
          (populateLocalPools (some n)) k hch

theorem C1_metadata_tracks_successful_applies_witness :
    rpCont (getMetadata (Reconcile
        ⟨.ready [⟨"P", "ns", [], 24, 120⟩], [("i1", ⟨[], []⟩)]⟩
        ⟨some ⟨"i1", [(⟨"peer1", "192.0.2.1"⟩, [(⟨.ipv4⟩, [⟨.podIPPool, .valid []⟩])])]⟩,
         some ⟨[⟨"P", [.valid ⟨.v4 167772160, 24⟩]⟩]⟩,
         some ⟨"i1", ⟨fun _ => true, fun _ => false⟩⟩⟩).1 "i1").PoolRoutePolicies
      ⟨"P", "ns"⟩ =
    rpCont (getMetadata ⟨.ready [⟨"P", "ns", [], 24, 120⟩], [("i1", ⟨[], []⟩)]⟩
      "i1").PoolRoutePolicies ⟨"P", "ns"⟩ :=
  (C1_metadata_tracks_successful_applies
      ⟨.ready [⟨"P", "ns", [], 24, 120⟩], [("i1", ⟨[], []⟩)]⟩
      ⟨some ⟨"i1", [(⟨"peer1", "192.0.2.1"⟩, [(⟨.ipv4⟩, [⟨.podIPPool, .valid []⟩])])]⟩,
       some ⟨[⟨"P", [.valid ⟨.v4 167772160, 24⟩]⟩]⟩,
       some ⟨"i1", ⟨fun _ => true, fun _ => false⟩⟩⟩
      ⟨"i1", ⟨fun _ => true, fun _ => false⟩⟩ rfl ⟨"P", "ns"⟩).2.1 rfl

/-! ## Convergence of the diff/apply engines (towards claim C4) -/

theorem rpEntry_zero (rt : Router) (k : ResourceKey) (d : Option RoutePolicyMap)
    (curB : Option (Option RoutePolicyMap)) (hok : rt.rpOk k = true) (hlen : rpLen d = 0) :
    rpEntryNewBinding rt k d curB = none := by
  rw [rpEntryNewBinding]
  by_cases hc : curB.isSome = false ∧ rpLen d = 0
  · rw [if_pos hc]
    cases curB with
    | none => rfl
    | some x => exact absurd hc.1 (by simp)
  · rw [if_neg hc]
    have herr : (ReconcileRoutePolicies rt k d (curB.getD none)).2.2 = none := by
      by_cases heqv : rpmEqv (d.getD []) ((curB.getD none).getD []) = true
      · rw [ReconcileRoutePolicies_eqv rt k d _ heqv]
      · rw [ReconcileRoutePolicies_apply_ok rt k d _ heqv hok]
    rw [if_pos ⟨herr, hlen⟩]

theorem rpEntry_some (rt : Router) (k : ResourceKey) (d : Option RoutePolicyMap)
    (curB : Option (Option RoutePolicyMap)) (hok : rt.rpOk k = true) (hlen : rpLen d ≠ 0) :
    ∃ x, rpEntryNewBinding rt k d curB = some x ∧
      rpmEqv (x.getD []) (d.getD []) = true := by
  rw [rpEntryNewBinding]
  rw [if_neg (fun hc => hlen hc.2 : ¬ (curB.isSome = false ∧ rpLen d = 0))]
  by_cases heqv : rpmEqv (d.getD []) ((curB.getD none).getD []) = true
  · rw [ReconcileRoutePolicies_eqv rt k d _ heqv]
    rw [if_neg (fun hc2 => hlen hc2.2 :
      ¬ ((curB.getD none, ([] : List RouterOp), (none : Option Err)).2.2 = none ∧
        rpLen d = 0))]
    exact ⟨curB.getD none, rfl, rpmEqv_symm heqv⟩
  · rw [ReconcileRoutePolicies_apply_ok rt k d _ heqv hok]
    rw [if_neg (fun hc2 => hlen hc2.2 :
      ¬ ((d, [RouterOp.rpApply k (d.getD [])], (none : Option Err)).2.2 = none ∧
        rpLen d = 0))]
    exact ⟨d, rfl, rpmEqv_refl _⟩

/-- If every desired entry is either new-and-empty or already retained with
equal content (and non-empty), the route-policy loop does nothing: no router
operations, no error, and the retained map is unchanged pointwise. -/
theorem rpLoop_noop (rt : Router) :
    ∀ (l : List (ResourceKey × Option RoutePolicyMap)) (m : ResourceRoutePolicyMap),
      (∀ e ∈ l, ((lookupA m e.1).isSome = false ∧ rpLen e.2 = 0) ∨
        (∃ x, lookupA m e.1 = some x ∧ rpmEqv (e.2.getD []) (x.getD []) = true ∧
          rpLen e.2 ≠ 0)) →
      (applyPoolRoutePolicies rt l m).2.1 = [] ∧
      (applyPoolRoutePolicies rt l m).2.2 = none ∧
      ∀ k, lookupA (applyPoolRoutePolicies rt l m).1 k = lookupA m k := by
  intro l
  induction l with
  | nil => intro m _; exact ⟨rfl, rfl, fun k => rfl⟩
  | cons e0 rest ih =>
    obtain ⟨k0, d0⟩ := e0
    intro m hprem
    rcases hprem (k0, d0) (List.mem_cons_self _ _) with ⟨hno, hlen⟩ | ⟨x, hx, heqv, hlen⟩
    · rw [applyPoolRoutePolicies_cons, if_pos ⟨hno, hlen⟩]
      exact ih m (fun e he => hprem e (List.mem_cons_of_mem _ he))
    · have hc : ¬ ((lookupA m k0).isSome = false ∧ rpLen d0 = 0) := fun hc => hlen hc.2
      rw [applyPoolRoutePolicies_cons, if_neg hc]
      have hcur : (lookupA m k0).getD none = x := by rw [hx]; rfl
      have hR : ReconcileRoutePolicies rt k0 d0 ((lookupA m k0).getD none) =
          (x, [], none) := by
        rw [hcur]
        exact ReconcileRoutePolicies_eqv rt k0 d0 x heqv
      have hnext : rpNextMap rt k0 d0 m = insertA m k0 x := by
        rw [rpNextMap, hR]
        rw [if_neg (fun hc2 => hlen hc2.2 :
          ¬ ((x, ([] : List RouterOp), (none : Option Err)).2.2 = none ∧ rpLen d0 = 0))]
      have hext := insertA_self_ext m k0 x hx
      have hprem2 : ∀ e ∈ rest, ((lookupA (insertA m k0 x) e.1).isSome = false ∧
          rpLen e.2 = 0) ∨ (∃ y, lookupA (insertA m k0 x) e.1 = some y ∧
          rpmEqv (e.2.getD []) (y.getD []) = true ∧ rpLen e.2 ≠ 0) := by
        intro e he
        rcases hprem e (List.mem_cons_of_mem _ he) with ⟨h1, h2⟩ | ⟨y, hy, he2, h3⟩
        · exact Or.inl ⟨by rw [hext]; exact h1, h2⟩
        · exact Or.inr ⟨y, by rw [hext]; exact hy, he2, h3⟩
      obtain ⟨ihops, iherr, ihlk⟩ := ih (insertA m k0 x) hprem2
      refine ⟨?_, ?_, ?_⟩
      · show (ReconcileRoutePolicies rt k0 d0 ((lookupA m k0).getD none)).2.1 ++
          (applyPoolRoutePolicies rt rest (rpNextMap rt k0 d0 m)).2.1 = []
        rw [hR, hnext, ihops]
        rfl
      · show joinO (ReconcileRoutePolicies rt k0 d0 ((lookupA m k0).getD none)).2.2
          (applyPoolRoutePolicies rt rest (rpNextMap rt k0 d0 m)).2.2 = none
        rw [hR, hnext, iherr]
        rfl
      · intro k
        show lookupA (applyPoolRoutePolicies rt rest (rpNextMap rt k0 d0 m)).1 k =
          lookupA m k
        rw [hnext, ihlk k, hext k]

theorem storeGetByKey_none (pools : List CiliumPodIPPool) (k : ResourceKey)
    (h : k ∉ pools.map poolKeyOf) : storeGetByKey (.ready pools) k = .ok none := by
  simp only [storeGetByKey]
  have hfind : pools.find? (fun pool => poolKeyOf pool == k) = none := by
    rw [List.find?_eq_none]
    intro q hq
    simp only [beq_iff_eq]
    exact fun he => h (he ▸ List.mem_map_of_mem poolKeyOf hq)
  rw [hfind]

theorem getMetadata_setMetadata_ne (r : PodIPPoolReconciler) (instName : String)
    (md : PodIPPoolReconcilerMetadata) {n2 : String} (h : n2 ≠ instName) :
    getMetadata (setMetadata r instName md) n2 = getMetadata r n2 := by
  rw [getMetadata, setMetadata]
  show (lookupA (insertA r.metadata instName md) n2).getD ⟨[], []⟩ =
    (lookupA r.metadata n2).getD ⟨[], []⟩
  rw [lookupA_insertA_ne r.metadata md h]

theorem reconcileRoutePolicies_poolStore (rt : Router) (r : PodIPPoolReconciler)
    (instName : String) (adverts : PeerAdvertisements)
    (lp : List (String × List IPPrefix)) :
    (reconcileRoutePolicies rt r instName adverts lp).1.poolStore = r.poolStore := by
  rcases hd : getDesiredPodIPPoolRoutePolicies r instName adverts lp with e | d
  · simp only [reconcileRoutePolicies, hd]
  · simp only [reconcileRoutePolicies, hd]
    rfl

theorem reconcilePaths_poolStore (rt : Router) (r : PodIPPoolReconciler)
    (instName : String) (adverts : PeerAdvertisements)
    (lp : List (String × List IPPrefix)) :
    (reconcilePaths rt r instName adverts lp).1.poolStore = r.poolStore := by
  rcases hd : getDesiredPoolAFPaths r instName adverts lp with e | d
  · simp only [reconcilePaths, hd]
  · simp only [reconcilePaths, hd]
    rfl

theorem reconcileRoutePolicies_getMetadata_ne (rt : Router) (r : PodIPPoolReconciler)
    (instName : String) (adverts : PeerAdvertisements)
    (lp : List (String × List IPPrefix)) {n2 : String} (h : n2 ≠ instName) :
    getMetadata (reconcileRoutePolicies rt r instName adverts lp).1 n2 =
      getMetadata r n2 := by
  rcases hd : getDesiredPodIPPoolRoutePolicies r instName adverts lp with e | d
  · simp only [reconcileRoutePolicies, hd]
  · simp only [reconcileRoutePolicies, hd]
    exact getMetadata_setMetadata_ne r instName _ h

theorem reconcilePaths_getMetadata_ne (rt : Router) (r : PodIPPoolReconciler)
    (instName : String) (adverts : PeerAdvertisements)
    (lp : List (String × List IPPrefix)) {n2 : String} (h : n2 ≠ instName) :
    getMetadata (reconcilePaths rt r instName adverts lp).1 n2 = getMetadata r n2 := by
  rcases hd : getDesiredPoolAFPaths r instName adverts lp with e | d
  · simp only [reconcilePaths, hd]
  · simp only [reconcilePaths, hd]
    exact getMetadata_setMetadata_ne r instName _ h

theorem getDesiredPoolAFPaths_congr (ra rb : PodIPPoolReconciler) (instName : String)
    (adverts : PeerAdvertisements) (lp : List (String × List IPPrefix))
    (hs : ra.poolStore = rb.poolStore)
    (hm : (getMetadata ra instName).PoolAFPaths = (getMetadata rb instName).PoolAFPaths) :
    getDesiredPoolAFPaths ra instName adverts lp =
      getDesiredPoolAFPaths rb instName adverts lp := by
  rw [getDesiredPoolAFPaths, getDesiredPoolAFPaths, hs, hm]

theorem getDesiredPoolAFPaths_pipeline (r : PodIPPoolReconciler) (instName : String)
    (adverts : PeerAdvertisements) (lp : List (String × List IPPrefix))
    (pools : List CiliumPodIPPool) (d : ResourceAFPathsMap)
    (hstore : r.poolStore = .ready pools)
    (h : getDesiredPoolAFPaths r instName adverts lp = .ok d) :
    ∃ acc, markerLoop (.ready pools) afWrap
        (keysA (getMetadata r instName).PoolAFPaths) [] = .ok acc ∧
      storeLoop (fun pool => getDesiredAFPaths pool adverts lp) pools acc = .ok d := by
  rw [getDesiredPoolAFPaths, hstore] at h
  rcases hmk : markerLoop (.ready pools) afWrap
      (keysA (getMetadata r instName).PoolAFPaths)
      ([] : ResourceAFPathsMap) with e | acc
  · rw [hmk] at h
    exact Except.noConfusion h
  · rw [hmk] at h
    exact ⟨acc, rfl, h⟩

theorem getDesiredPodIPPoolRoutePolicies_pipeline (r : PodIPPoolReconciler)
    (instName : String) (adverts : PeerAdvertisements)
    (lp : List (String × List IPPrefix))
    (pools : List CiliumPodIPPool) (d : ResourceRoutePolicyMap)
    (hstore : r.poolStore = .ready pools)
    (h : getDesiredPodIPPoolRoutePolicies r instName adverts lp = .ok d) :
    ∃ acc, markerLoop (.ready pools) id
        (keysA (getMetadata r instName).PoolRoutePolicies) [] = .ok acc ∧
      storeLoop (fun pool => getPodIPPoolPolicies pool adverts lp) pools acc = .ok d := by
  rw [getDesiredPodIPPoolRoutePolicies, hstore] at h
  rcases hmk : markerLoop (.ready pools) id
      (keysA (getMetadata r instName).PoolRoutePolicies)
      ([] : ResourceRoutePolicyMap) with e | acc
  · rw [hmk] at h
    exact Except.noConfusion h
  · rw [hmk] at h
    exact ⟨acc, rfl, h⟩

theorem getDesiredPoolAFPaths_ready_ok (r : PodIPPoolReconciler) (instName : String)
    (adverts : PeerAdvertisements) (lp : List (String × List IPPrefix))
    (pools : List CiliumPodIPPool)
    (hstore : r.poolStore = .ready pools)
    (hall : ∀ q ∈ pools, ∃ v, getDesiredAFPaths q adverts lp = .ok v) :
    ∃ d, getDesiredPoolAFPaths r instName adverts lp = .ok d := by
  obtain ⟨acc, hmk⟩ := markerLoop_ready_ok pools afWrap
    (keysA (getMetadata r instName).PoolAFPaths) []
  obtain ⟨d, hsl⟩ := storeLoop_all_ok _ pools acc hall
  exact ⟨d, by simp only [getDesiredPoolAFPaths, hstore, hmk, storeList]; exact hsl⟩

theorem afKeyBinding_ok_eqv (rt : Router) (d c : ResourceAFPathsMap) (k : ResourceKey)
    (hok : rt.afOk k = true) :
    afmEqv (afCont d k) (afContB (afKeyBinding rt d c k)) = true := by
  rw [afKeyBinding]
  by_cases h1 : afmEqv (afCont d k) (afCont c k) = true
  · rw [if_pos h1, ← afCont_eq_afContB]
    exact h1
  · rw [if_neg h1, if_pos hok]
    by_cases h3 : afmIsEmpty (afCont d k) = true
    · rw [if_pos h3]
      exact afmEqv_nil_of_isEmpty h3
    · rw [if_neg h3]
      exact afmEqv_refl _

theorem afKeyBinding_eqv_keep (rt : Router) (d c : ResourceAFPathsMap) (k : ResourceKey)
    (h : afmEqv (afCont d k) (afCont c k) = true) :
    afKeyBinding rt d c k = lookupA c k := by
  rw [afKeyBinding, if_pos h]

/-- If every key's desired content already equals the retained content, the
AF-path engine does nothing: no operations, no error, bindings unchanged. -/
theorem ReconcileResourceAFPaths_noop (rt : Router) (d c : ResourceAFPathsMap)
    (hok : ∀ k, rt.afOk k = true)
    (heqv : ∀ k, afmEqv (afCont d k) (afCont c k) = true) :
    (ReconcileResourceAFPaths rt d c).2.1 = [] ∧
    (ReconcileResourceAFPaths rt d c).2.2 = none ∧
    ∀ k, lookupA (ReconcileResourceAFPaths rt d c).1 k = lookupA c k := by
  refine ⟨?_, ?_, ?_⟩
  · rw [List.eq_nil_iff_forall_not_mem]
    intro op hop
    obtain ⟨k, hne, _⟩ := (ReconcileResourceAFPaths_ops rt d c op).mp hop
    rw [heqv k] at hne
    exact Bool.noConfusion hne
  · rw [ReconcileResourceAFPaths]
    exact afEngineGo_err_none rt d c hok _
  · intro k
    rw [ReconcileResourceAFPaths_lookup, afKeyBinding_eqv_keep rt d c k (heqv k)]

/-- The desired AF-path mapping derived from a ready store has the same
content at every key, regardless of which retained keys seeded the marker
pass: store-backed keys get the pool derivation, all others empty content. -/
theorem af_desired_stable (adverts : PeerAdvertisements)
    (lp : List (String × List IPPrefix))
    (pools : List CiliumPodIPPool) (hnd : (pools.map poolKeyOf).Nodup)
    (ks1 ks2 : List ResourceKey) (acc1 acc2 d1 d2 : ResourceAFPathsMap)
    (hmk1 : markerLoop (.ready pools) afWrap ks1 [] = .ok acc1)
    (hsl1 : storeLoop (fun pool => getDesiredAFPaths pool adverts lp) pools acc1 = .ok d1)
    (hmk2 : markerLoop (.ready pools) afWrap ks2 [] = .ok acc2)
    (hsl2 : storeLoop (fun pool => getDesiredAFPaths pool adverts lp) pools acc2 = .ok d2) :
    ∀ k, afCont d2 k = afCont d1 k := by
  intro k
  by_cases hks : k ∈ pools.map poolKeyOf
  · obtain ⟨pool, hpool, hkey⟩ := List.mem_map.mp hks
    obtain ⟨v, hv⟩ := storeLoop_ok_elem _ pools acc1 d1 hsl1 pool hpool
    have h1 := storeLoop_lookup_mem _ pools acc1 d1 pool v hnd hpool hv hsl1
    have h2 := storeLoop_lookup_mem _ pools acc2 d2 pool v hnd hpool hv hsl2
    rw [hkey] at h1 h2
    rw [afCont, afCont, h1, h2]
  · have hnot : ∀ q ∈ pools, poolKeyOf q ≠ k :=
      fun q hq he => hks (he ▸ List.mem_map_of_mem poolKeyOf hq)
    have hside : ∀ (ks : List ResourceKey) (acc dd : ResourceAFPathsMap),
        markerLoop (.ready pools) afWrap ks [] = .ok acc →
        storeLoop (fun pool => getDesiredAFPaths pool adverts lp) pools acc = .ok dd →
        afCont dd k = [] := by
      intro ks acc dd hmk hsl
      rw [afCont, storeLoop_notmem_preserve _ k pools acc dd hnot hsl]
      by_cases hkm : k ∈ ks
      · rw [markerLoop_ok_lookup (.ready pools) afWrap k
          (storeGetByKey_none pools k hks) ks [] acc hmk (Or.inl hkm)]
        rfl
      · rw [markerLoop_notmem_lookup (.ready pools) afWrap k ks [] acc hmk hkm]
        rfl
    rw [hside ks1 acc1 d1 hmk1 hsl1, hside ks2 acc2 d2 hmk2 hsl2]

/-- Running the route-policy pass again over the metadata it just produced is
a no-op: the new desired mapping's entries are either new-and-empty or
already retained with equal content, so no operations, no error, and the
retained route-policy metadata is unchanged pointwise. -/
theorem reconcileRoutePolicies_second_noop (rt : Router) (hok : ∀ k, rt.rpOk k = true)
    (pools : List CiliumPodIPPool) (hnd : (pools.map poolKeyOf).Nodup)
    (adverts : PeerAdvertisements) (lp : List (String × List IPPrefix))
    (rb : PodIPPoolReconciler) (instName : String)
    (md0rp : ResourceRoutePolicyMap) (acc1 : ResourceRoutePolicyMap)
    (d1 : List (ResourceKey × Option RoutePolicyMap))
    (hrbstore : rb.poolStore = .ready pools)
    (hmk1 : markerLoop (.ready pools) id (keysA md0rp) [] = .ok acc1)
    (hsl1 : storeLoop (fun pool => getPodIPPoolPolicies pool adverts lp) pools acc1
      = .ok d1)
    (hrbmeta : (getMetadata rb instName).PoolRoutePolicies =
      (applyPoolRoutePolicies rt d1 md0rp).1) :
    (reconcileRoutePolicies rt rb instName adverts lp).2.1 = [] ∧
    (reconcileRoutePolicies rt rb instName adverts lp).2.2 = none ∧
    ∀ k, lookupA (getMetadata (reconcileRoutePolicies rt rb instName adverts lp).1
        instName).PoolRoutePolicies k =
      lookupA (getMetadata rb instName).PoolRoutePolicies k := by
  obtain ⟨acc2, hmk2⟩ := markerLoop_ready_ok pools id
    (keysA (getMetadata rb instName).PoolRoutePolicies) []
  obtain ⟨d2, hsl2⟩ := storeLoop_all_ok _ pools acc2
    (storeLoop_ok_elem _ pools acc1 d1 hsl1)
  have hd2 : getDesiredPodIPPoolRoutePolicies rb instName adverts lp = .ok d2 := by
    simp only [getDesiredPodIPPoolRoutePolicies, hrbstore, hmk2, storeList]
    exact hsl2
  rw [hrbmeta] at hmk2
  have hnd1 : (keysA d1).Nodup := storeLoop_nodup _ pools acc1 d1 hsl1
    (markerLoop_nodup (.ready pools) id _ _ acc1 hmk1 (by simp [keysA]))
  have hnd2 : (keysA d2).Nodup := storeLoop_nodup _ pools acc2 d2 hsl2
    (markerLoop_nodup (.ready pools) id _ _ acc2 hmk2 (by simp [keysA]))
  have hmarker1 : ∀ k, k ∉ pools.map poolKeyOf → k ∈ keysA md0rp →
      lookupA d1 k = some none := by
    intro k hks hkm
    have hnot : ∀ q ∈ pools, poolKeyOf q ≠ k :=
      fun q hq he => hks (he ▸ List.mem_map_of_mem poolKeyOf hq)
    rw [storeLoop_notmem_preserve _ k pools acc1 d1 hnot hsl1]
    exact markerLoop_ok_lookup (.ready pools) id k (storeGetByKey_none pools k hks)
      _ [] acc1 hmk1 (Or.inl hkm)
  have habsent1 : ∀ k, k ∉ pools.map poolKeyOf → k ∉ keysA md0rp →
      lookupA d1 k = none := by
    intro k hks hkm
    have hnot : ∀ q ∈ pools, poolKeyOf q ≠ k :=
      fun q hq he => hks (he ▸ List.mem_map_of_mem poolKeyOf hq)
    rw [storeLoop_notmem_preserve _ k pools acc1 d1 hnot hsl1,
      markerLoop_notmem_lookup (.ready pools) id k _ [] acc1 hmk1 hkm]
    rfl
  have habsent2 : ∀ k, k ∉ pools.map poolKeyOf →
      k ∉ keysA (applyPoolRoutePolicies rt d1 md0rp).1 → lookupA d2 k = none := by
    intro k hks hkm
    have hnot : ∀ q ∈ pools, poolKeyOf q ≠ k :=
      fun q hq he => hks (he ▸ List.mem_map_of_mem poolKeyOf hq)
    rw [storeLoop_notmem_preserve _ k pools acc2 d2 hnot hsl2,
      markerLoop_notmem_lookup (.ready pools) id k _ [] acc2 hmk2 hkm]
    rfl
  have hprem : ∀ e ∈ d2,
      ((lookupA (applyPoolRoutePolicies rt d1 md0rp).1 e.1).isSome = false ∧
        rpLen e.2 = 0) ∨
      (∃ x, lookupA (applyPoolRoutePolicies rt d1 md0rp).1 e.1 = some x ∧
        rpmEqv (e.2.getD []) (x.getD []) = true ∧ rpLen e.2 ≠ 0) := by
    intro e he
    have hlk2 : lookupA d2 e.1 = some e.2 := lookupA_of_mem_nodupKeys d2 hnd2 he
    by_cases hks : e.1 ∈ pools.map poolKeyOf
    · obtain ⟨pool, hpool, hkey⟩ := List.mem_map.mp hks
      obtain ⟨v, hv⟩ := storeLoop_ok_elem _ pools acc1 d1 hsl1 pool hpool
      have h1 : lookupA d1 (poolKeyOf pool) = some (some v) :=
        storeLoop_lookup_mem _ pools acc1 d1 pool v hnd hpool hv hsl1
      have h2 : lookupA d2 (poolKeyOf pool) = some (some v) :=
        storeLoop_lookup_mem _ pools acc2 d2 pool v hnd hpool hv hsl2
      rw [hkey] at h1 h2
      have he2 : e.2 = some v := by
        rw [hlk2] at h2
        exact Option.some.inj h2
      have hd1mem : (e.1, some v) ∈ d1 := lookupA_mem d1 e.1 (some v) h1
      have hm1 : lookupA (applyPoolRoutePolicies rt d1 md0rp).1 e.1 =
          rpEntryNewBinding rt e.1 (some v) (lookupA md0rp e.1) :=
        applyPoolRoutePolicies_lookup_mem rt d1 md0rp e.1 (some v) hnd1 hd1mem
      by_cases hlen : rpLen (some v) = 0
      · refine Or.inl ⟨?_, by rw [he2]; exact hlen⟩
        rw [hm1, rpEntry_zero rt e.1 (some v) _ (hok e.1) hlen]
        rfl
      · obtain ⟨x, hx, heqv⟩ :=
          rpEntry_some rt e.1 (some v) (lookupA md0rp e.1) (hok e.1) hlen
        exact Or.inr ⟨x, by rw [hm1]; exact hx,
          by rw [he2]; exact rpmEqv_symm heqv, by rw [he2]; exact hlen⟩
    · by_cases hmem1 : e.1 ∈ keysA (applyPoolRoutePolicies rt d1 md0rp).1
      · exfalso
        rcases hsx : lookupA (applyPoolRoutePolicies rt d1 md0rp).1 e.1 with _ | x
        · have hs := lookupA_isSome_of_mem_keysA _ e.1 hmem1
          rw [hsx] at hs
          simp at hs
        · by_cases hd1k : e.1 ∈ keysA d1
          · have hlk1 : lookupA d1 e.1 = some none := by
              by_cases hm0 : e.1 ∈ keysA md0rp
              · exact hmarker1 e.1 hks hm0
              · exfalso
                have hs := lookupA_isSome_of_mem_keysA d1 e.1 hd1k
                rw [habsent1 e.1 hks hm0] at hs
                simp at hs
            have hmm : (e.1, (none : Option RoutePolicyMap)) ∈ d1 :=
              lookupA_mem d1 e.1 none hlk1
            have hb := applyPoolRoutePolicies_lookup_mem rt d1 md0rp e.1 none hnd1 hmm
            rw [rpEntry_zero rt e.1 none (lookupA md0rp e.1) (hok e.1) rfl] at hb
            rw [hsx] at hb
            exact Option.noConfusion hb
          · have hpres := applyPoolRoutePolicies_lookup_notmem rt d1 md0rp e.1 hd1k
            rw [hpres] at hsx
            have hm0 : e.1 ∈ keysA md0rp :=
              mem_keysA_of_lookupA_isSome md0rp e.1 (by rw [hsx]; rfl)
            have hd1m := hmarker1 e.1 hks hm0
            exact hd1k (mem_keysA_of_lookupA_isSome d1 e.1 (by rw [hd1m]; rfl))
      · exfalso
        have h2 := habsent2 e.1 hks hmem1
        rw [hlk2] at h2
        exact Option.noConfusion h2
  obtain ⟨hops, herr2, hlkp⟩ :=
    rpLoop_noop rt d2 (applyPoolRoutePolicies rt d1 md0rp).1 hprem
  refine ⟨?_, ?_, ?_⟩
  · simp only [reconcileRoutePolicies, hd2]
    show (applyPoolRoutePolicies rt d2
      (getMetadata rb instName).PoolRoutePolicies).2.1 = []
    rw [hrbmeta]
    exact hops
  · simp only [reconcileRoutePolicies, hd2]
    show (applyPoolRoutePolicies rt d2
      (getMetadata rb instName).PoolRoutePolicies).2.2 = none
    rw [hrbmeta]
    exact herr2
  · intro k
    simp only [reconcileRoutePolicies, hd2]
    rw [getMetadata_setMetadata_self]
    show lookupA (applyPoolRoutePolicies rt d2
      (getMetadata rb instName).PoolRoutePolicies).1 k = _
    rw [hrbmeta]
    exact hlkp k

/-- Running both passes again over a first result is a no-op: the route-policy
pass issues nothing and changes nothing, and the AF-path pass issues nothing
and changes nothing, provided any successfully re-derived desired AF mapping
is content-equal to the retained one (hypothesis `hafok`). -/
theorem reconcile_second_passes_noop (rt : Router) (instName : String)
    (adverts : PeerAdvertisements) (lp : List (String × List IPPrefix))
    (pools : List CiliumPodIPPool) (hnd : (pools.map poolKeyOf).Nodup)
    (hRP : ∀ k, rt.rpOk k = true) (hAF : ∀ k, rt.afOk k = true)
    (md0rp : ResourceRoutePolicyMap) (acc1 : ResourceRoutePolicyMap)
    (d1 : List (ResourceKey × Option RoutePolicyMap))
    (hmk1 : markerLoop (.ready pools) id (keysA md0rp) [] = .ok acc1)
    (hsl1 : storeLoop (fun pool => getPodIPPoolPolicies pool adverts lp) pools acc1
      = .ok d1)
    (rb : PodIPPoolReconciler)
    (hrbstore : rb.poolStore = .ready pools)
    (hrbmeta : (getMetadata rb instName).PoolRoutePolicies =
      (applyPoolRoutePolicies rt d1 md0rp).1)
    (hafok : ∀ dAF2, getDesiredPoolAFPaths
        (reconcileRoutePolicies rt rb instName adverts lp).1 instName adverts lp
        = .ok dAF2 →
      ∀ k, afmEqv (afCont dAF2 k)
        (afCont (getMetadata (reconcileRoutePolicies rt rb instName adverts lp).1
          instName).PoolAFPaths k) = true) :
    (reconcileRoutePolicies rt rb instName adverts lp).2.1 = [] ∧
    (reconcileRoutePolicies rt rb instName adverts lp).2.2 = none ∧
    (reconcilePaths rt (reconcileRoutePolicies rt rb instName adverts lp).1 instName
      adverts lp).2.1 = [] ∧
    ∀ nm k,
      lookupA (getMetadata (reconcilePaths rt (reconcileRoutePolicies rt rb instName
          adverts lp).1 instName adverts lp).1 nm).PoolAFPaths k =
        lookupA (getMetadata rb nm).PoolAFPaths k ∧
      lookupA (getMetadata (reconcilePaths rt (reconcileRoutePolicies rt rb instName
          adverts lp).1 instName adverts lp).1 nm).PoolRoutePolicies k =
        lookupA (getMetadata rb nm).PoolRoutePolicies k := by
  obtain ⟨hops2, herr2, hlkp2⟩ := reconcileRoutePolicies_second_noop rt hRP pools hnd
    adverts lp rb instName md0rp acc1 d1 hrbstore hmk1 hsl1 hrbmeta
  refine ⟨hops2, herr2, ?_⟩
  rcases hdaf2 : getDesiredPoolAFPaths (reconcileRoutePolicies rt rb instName adverts
      lp).1 instName adverts lp with e | dAF2
  · refine ⟨by simp only [reconcilePaths, hdaf2], ?_⟩
    intro nm k
    have hpa : (reconcilePaths rt (reconcileRoutePolicies rt rb instName adverts lp).1
        instName adverts lp).1 = (reconcileRoutePolicies rt rb instName adverts lp).1 := by
      simp only [reconcilePaths, hdaf2]
    rw [hpa]
    by_cases hnm : nm = instName
    · subst hnm
      exact ⟨by rw [reconcileRoutePolicies_af_preserved], hlkp2 k⟩
    · rw [reconcileRoutePolicies_getMetadata_ne rt rb instName adverts lp hnm]
      exact ⟨rfl, rfl⟩
  · obtain ⟨hopsA2, herrA2, hlkpA2⟩ := ReconcileResourceAFPaths_noop rt dAF2
      (getMetadata (reconcileRoutePolicies rt rb instName adverts lp).1
        instName).PoolAFPaths hAF (hafok dAF2 hdaf2)
    refine ⟨?_, ?_⟩
    · simp only [reconcilePaths, hdaf2]
      exact hopsA2
    · intro nm k
      by_cases hnm : nm = instName
      · subst hnm
        constructor
        · have hmeta : lookupA (getMetadata (reconcilePaths rt (reconcileRoutePolicies
              rt rb nm adverts lp).1 nm adverts lp).1 nm).PoolAFPaths k =
              lookupA (getMetadata (reconcileRoutePolicies rt rb nm adverts lp).1
                nm).PoolAFPaths k := by
            simp only [reconcilePaths, hdaf2]
            rw [getMetadata_setMetadata_self]
            exact hlkpA2 k
          rw [hmeta, reconcileRoutePolicies_af_preserved]
        · rw [reconcilePaths_rp_preserved]
          exact hlkp2 k
      · rw [reconcilePaths_getMetadata_ne rt _ instName adverts lp hnm,
          reconcileRoutePolicies_getMetadata_ne rt rb instName adverts lp hnm]
        exact ⟨rfl, rfl⟩

/-! ## Claim C4 -/

def c4r : PodIPPoolReconciler := ⟨.ready [⟨"P", "ns", [], 24, 120⟩], [("i1", ⟨[], []⟩)]⟩

def c4p : ReconcileParams :=
  ⟨some ⟨"i1", [(⟨"peer1", "192.0.2.1"⟩, [(⟨.ipv4⟩, [⟨.podIPPool, .valid []⟩])])]⟩,
   some ⟨[⟨"P", [.valid ⟨.v4 167772160, 24⟩]⟩]⟩,
   some ⟨"i1", ⟨fun _ => true, fun _ => true⟩⟩⟩

/-- C4: with a ready store and a router whose applies all succeed, calling
`Reconcile` twice in succession with identical inputs issues router apply
operations only on the first call: the second call issues zero apply
operations and leaves the retained metadata pointwise unchanged, for every
instance name and resource key.  (A failed apply is deliberately retried on
the next call, so idempotence is scoped to applies that succeed.) -/
theorem C4_second_reconcile_is_noop (r : PodIPPoolReconciler) (p : ReconcileParams)
    (i : BGPInstance) (pools : List CiliumPodIPPool)
    (hinst : p.bgpInstance = some i)
    (hstore : r.poolStore = .ready pools)
    (hnd : (pools.map poolKeyOf).Nodup)
    (hAF : ∀ k, i.router.afOk k = true)
    (hRP : ∀ k, i.router.rpOk k = true) :
    (Reconcile (Reconcile r p).1 p).2.1 = [] ∧
    ∀ nm k,
      lookupA (getMetadata (Reconcile (Reconcile r p).1 p).1 nm).PoolAFPaths k =
        lookupA (getMetadata (Reconcile r p).1 nm).PoolAFPaths k ∧
      lookupA (getMetadata (Reconcile (Reconcile r p).1 p).1 nm).PoolRoutePolicies k =
        lookupA (getMetadata (Reconcile r p).1 nm).PoolRoutePolicies k := by
  rcases hval : ValidateParams p with e | cni
  · have h1 : (Reconcile r p).1 = r := by rw [Reconcile_val_err r p e hval]
    rw [h1, Reconcile_val_err r p e hval]
    exact ⟨rfl, fun nm k => ⟨rfl, rfl⟩⟩
  · obtain ⟨c, n, i2⟩ := cni
    have hi : i = i2 := by
      have hv := ValidateParams_inst p c n i2 hval
      rw [hinst] at hv
      exact Option.some.inj hv
    subst hi
    obtain ⟨ad, had⟩ : ∃ ad, GetConfiguredAdvertisements c .podIPPool = .ok ad := ⟨_, rfl⟩
    rcases hd1 : getDesiredPodIPPoolRoutePolicies r i.name ad
        (populateLocalPools (some n)) with e | d1
    · have herr : (reconcileRoutePolicies i.router r i.name ad
          (populateLocalPools (some n))).2.2 = some e := by
        simp only [reconcileRoutePolicies, hd1]
      have hr1 : (reconcileRoutePolicies i.router r i.name ad
          (populateLocalPools (some n))).1 = r := by
        simp only [reconcileRoutePolicies, hd1]
      have hops1 : (reconcileRoutePolicies i.router r i.name ad
          (populateLocalPools (some n))).2.1 = [] := by
        simp only [reconcileRoutePolicies, hd1]
      have h1 : (Reconcile r p).1 = r := by
        rw [Reconcile_rp_err r p c n i ad e hval had herr, hr1]
      rw [h1]
      refine ⟨?_, fun nm k => ⟨?_, ?_⟩⟩
      · rw [Reconcile_rp_err r p c n i ad e hval had herr, hops1]
      · rw [Reconcile_rp_err r p c n i ad e hval had herr, hr1]
      · rw [Reconcile_rp_err r p c n i ad e hval had herr, hr1]
    · obtain ⟨acc1, hmk1, hsl1⟩ := getDesiredPodIPPoolRoutePolicies_pipeline r i.name ad
        (populateLocalPools (some n)) pools d1 hstore hd1
      have herr1 : (reconcileRoutePolicies i.router r i.name ad
          (populateLocalPools (some n))).2.2 = none := by
        simp only [reconcileRoutePolicies, hd1]
        exact applyPoolRoutePolicies_err_none i.router hRP d1 _
      have hr1meta : (getMetadata (reconcileRoutePolicies i.router r i.name ad
          (populateLocalPools (some n))).1 i.name).PoolRoutePolicies =
          (applyPoolRoutePolicies i.router d1
            (getMetadata r i.name).PoolRoutePolicies).1 := by
        simp only [reconcileRoutePolicies, hd1]
        rw [getMetadata_setMetadata_self]
      have hr1store : (reconcileRoutePolicies i.router r i.name ad
          (populateLocalPools (some n))).1.poolStore = .ready pools := by
        rw [reconcileRoutePolicies_poolStore, hstore]
      rcases hdaf : getDesiredPoolAFPaths (reconcileRoutePolicies i.router r i.name ad
          (populateLocalPools (some n))).1 i.name ad (populateLocalPools (some n))
          with e | dAF1
      · have h1 : (Reconcile r p).1 = (reconcileRoutePolicies i.router r i.name ad
            (populateLocalPools (some n))).1 := by
          rw [Reconcile_rp_ok r p c n i ad hval had herr1]
          simp only [reconcilePaths, hdaf]
        have hafok : ∀ dAF2, getDesiredPoolAFPaths (reconcileRoutePolicies i.router
            (reconcileRoutePolicies i.router r i.name ad (populateLocalPools (some n))).1
            i.name ad (populateLocalPools (some n))).1 i.name ad
            (populateLocalPools (some n)) = .ok dAF2 →
            ∀ k, afmEqv (afCont dAF2 k) (afCont (getMetadata (reconcileRoutePolicies
              i.router (reconcileRoutePolicies i.router r i.name ad
              (populateLocalPools (some n))).1 i.name ad
              (populateLocalPools (some n))).1 i.name).PoolAFPaths k) = true := by
          intro dAF2 hdok
          rw [getDesiredPoolAFPaths_congr _ (reconcileRoutePolicies i.router r i.name ad
              (populateLocalPools (some n))).1 i.name ad (populateLocalPools (some n))
              (reconcileRoutePolicies_poolStore i.router _ i.name ad
                (populateLocalPools (some n)))
              (reconcileRoutePolicies_af_preserved i.router _ i.name ad
                (populateLocalPools (some n))), hdaf] at hdok
          exact Except.noConfusion hdok
        obtain ⟨hops2, herr2, hpa2ops, hmeta⟩ := reconcile_second_passes_noop i.router
          i.name ad (populateLocalPools (some n)) pools hnd hRP hAF
          (getMetadata r i.name).PoolRoutePolicies acc1 d1 hmk1 hsl1
          (reconcileRoutePolicies i.router r i.name ad (populateLocalPools (some n))).1
          hr1store hr1meta hafok
        rw [h1]
        refine ⟨?_, ?_⟩
        · rw [Reconcile_rp_ok _ p c n i ad hval had herr2, hops2, hpa2ops]
          rfl
        · intro nm k
          have h2 : (Reconcile (reconcileRoutePolicies i.router r i.name ad
              (populateLocalPools (some n))).1 p).1 = (reconcilePaths i.router
              (reconcileRoutePolicies i.router (reconcileRoutePolicies i.router r i.name
                ad (populateLocalPools (some n))).1 i.name ad
                (populateLocalPools (some n))).1 i.name ad
              (populateLocalPools (some n))).1 := by
            rw [Reconcile_rp_ok _ p c n i ad hval had herr2]
          rw [h2]
          exact hmeta nm k
      · obtain ⟨accA1, hmkA1, hslA1⟩ := getDesiredPoolAFPaths_pipeline
          (reconcileRoutePolicies i.router r i.name ad (populateLocalPools (some n))).1
          i.name ad (populateLocalPools (some n)) pools dAF1 hr1store hdaf
        have h1 : (Reconcile r p).1 = (reconcilePaths i.router (reconcileRoutePolicies
            i.router r i.name ad (populateLocalPools (some n))).1 i.name ad
            (populateLocalPools (some n))).1 := by
          rw [Reconcile_rp_ok r p c n i ad hval had herr1]
        have hrbstore : (reconcilePaths i.router (reconcileRoutePolicies i.router r
            i.name ad (populateLocalPools (some n))).1 i.name ad
            (populateLocalPools (some n))).1.poolStore = .ready pools := by
          rw [reconcilePaths_poolStore, hr1store]
        have hrbrp : (getMetadata (reconcilePaths i.router (reconcileRoutePolicies
            i.router r i.name ad (populateLocalPools (some n))).1 i.name ad
            (populateLocalPools (some n))).1 i.name).PoolRoutePolicies =
            (applyPoolRoutePolicies i.router d1
              (getMetadata r i.name).PoolRoutePolicies).1 := by
          rw [reconcilePaths_rp_preserved]
          exact hr1meta
        have hafok : ∀ dAF2, getDesiredPoolAFPaths (reconcileRoutePolicies i.router
            (reconcilePaths i.router (reconcileRoutePolicies i.router r i.name ad
              (populateLocalPools (some n))).1 i.name ad
              (populateLocalPools (some n))).1 i.name ad
            (populateLocalPools (some n))).1 i.name ad (populateLocalPools (some n))
            = .ok dAF2 →
            ∀ k, afmEqv (afCont dAF2 k) (afCont (getMetadata (reconcileRoutePolicies
              i.router (reconcilePaths i.router (reconcileRoutePolicies i.router r i.name
                ad (populateLocalPools (some n))).1 i.name ad
                (populateLocalPools (some n))).1 i.name ad
              (populateLocalPools (some n))).1 i.name).PoolAFPaths k) = true := by
          intro dAF2 hdok k
          have hrp2store : (reconcileRoutePolicies i.router (reconcilePaths i.router
              (reconcileRoutePolicies i.router r i.name ad
                (populateLocalPools (some n))).1 i.name ad
              (populateLocalPools (some n))).1 i.name ad
              (populateLocalPools (some n))).1.poolStore = .ready pools := by
            rw [reconcileRoutePolicies_poolStore]
            exact hrbstore
          obtain ⟨accA2, hmkA2, hslA2⟩ := getDesiredPoolAFPaths_pipeline _ i.name ad
            (populateLocalPools (some n)) pools dAF2 hrp2store hdok
          have hstable := af_desired_stable ad (populateLocalPools (some n)) pools hnd
            _ _ accA1 accA2 dAF1 dAF2 hmkA1 hslA1 hmkA2 hslA2
          have hcur : (getMetadata (reconcileRoutePolicies i.router (reconcilePaths
              i.router (reconcileRoutePolicies i.router r i.name ad
                (populateLocalPools (some n))).1 i.name ad
              (populateLocalPools (some n))).1 i.name ad
              (populateLocalPools (some n))).1 i.name).PoolAFPaths =
              (ReconcileResourceAFPaths i.router dAF1 (getMetadata
                (reconcileRoutePolicies i.router r i.name ad
                  (populateLocalPools (some n))).1 i.name).PoolAFPaths).1 := by
            rw [reconcileRoutePolicies_af_preserved]
            simp only [reconcilePaths, hdaf]
            rw [getMetadata_setMetadata_self]
          have hb : afCont (ReconcileResourceAFPaths i.router dAF1 (getMetadata
              (reconcileRoutePolicies i.router r i.name ad
                (populateLocalPools (some n))).1 i.name).PoolAFPaths).1 k =
              afContB (afKeyBinding i.router dAF1 (getMetadata (reconcileRoutePolicies
                i.router r i.name ad (populateLocalPools (some n))).1
                i.name).PoolAFPaths k) := by
            rw [afCont_eq_afContB, ReconcileResourceAFPaths_lookup]
          rw [hcur, hb, hstable k]
          exact afKeyBinding_ok_eqv i.router dAF1 _ k (hAF k)
        obtain ⟨hops2, herr2, hpa2ops, hmeta⟩ := reconcile_second_passes_noop i.router
          i.name ad (populateLocalPools (some n)) pools hnd hRP hAF
          (getMetadata r i.name).PoolRoutePolicies acc1 d1 hmk1 hsl1
          (reconcilePaths i.router (reconcileRoutePolicies i.router r i.name ad
            (populateLocalPools (some n))).1 i.name ad (populateLocalPools (some n))).1
          hrbstore hrbrp hafok
        rw [h1]
        refine ⟨?_, ?_⟩
        · rw [Reconcile_rp_ok _ p c n i ad hval had herr2, hops2, hpa2ops]
          rfl
        · intro nm k
          have h2 : (Reconcile (reconcilePaths i.router (reconcileRoutePolicies i.router
              r i.name ad (populateLocalPools (some n))).1 i.name ad
              (populateLocalPools (some n))).1 p).1 = (reconcilePaths i.router
              (reconcileRoutePolicies i.router (reconcilePaths i.router
                (reconcileRoutePolicies i.router r i.name ad
                  (populateLocalPools (some n))).1 i.name ad
                (populateLocalPools (some n))).1 i.name ad
                (populateLocalPools (some n))).1 i.name ad
              (populateLocalPools (some n))).1 := by
            rw [Reconcile_rp_ok _ p c n i ad hval had herr2]
          rw [h2]
          exact hmeta nm k

theorem C4_second_reconcile_is_noop_witness :
    (Reconcile (Reconcile c4r c4p).1 c4p).2.1 = [] :=
  (C4_second_reconcile_is_noop c4r c4p ⟨"i1", ⟨fun _ => true, fun _ => true⟩⟩
    [⟨"P", "ns", [], 24, 120⟩] rfl rfl (by decide) (fun _ => rfl) (fun _ => rfl)).1

end BGPRec
